import Mathlib

/-!
The aggregation engine of modcal.

A shallow embedding of the plugin registry (`internal/plugin/registry.go`), of
the calendar manager (`internal/calendar/manager.go`), of the iCalendar
formatter (`internal/ical/formatter.go`) and of the HTTP handlers
(`internal/server/server.go`) of modcal, together with the properties of the
engine that are stated in its specification.

Conventions of the embedding

* A Go `map[string]V` is a `GoMap V`: a list of key/value entries whose keys are
  pairwise distinct.  The position of an entry in the list is the (unspecified)
  position at which a `range` over the map would meet it; no definition below
  relies on it except the ones that `range` over a map, and the theorems about
  those are stated for every such layout.
* A Go `error` is its message, a `String`; a `nil` error is `none`.
* A method takes the state of its receiver as an argument.  A method that
  assigns to a field of the receiver returns the state after the call next to
  its result; the methods of `Manager` all return an `Outcome`, which holds the
  state after the call, the result, and the calls of `FetchEvents` made.
* A Go `string` is a `String`.  The functions of `strings`, `fmt` and
  `net/http` that the code calls are written out; `time.Time.Format` and
  `time.Now` are a parameter, `TimePkg`.  The methods of `time.Time` that the
  mal plugin calls on its dates are written out over locations given by their
  `lookup`.
* The goroutines of `RefreshEvents` are independent tasks, one per instance.
  The order in which they finish is an argument of the model, and the theorems
  quantify over it.  In the second model of `RefreshEvents`, `FetchEvents` is a
  step on the world outside the manager and the order in which the goroutines
  finish is made of the decisions of the scheduler.
-/

namespace Modcal

/-! ## Go maps -/

/-- Reading `m[k]` in a list of entries: the value of the first entry with key `k`. -/
def assocGet {V : Type} (k : String) : List (String × V) → Option V
  | [] => none
  | (k', v) :: rest => if k' = k then some v else assocGet k rest

/-- The assignment `m[k] = v` on a list of entries: the entry with key `k` is
replaced where it stands, and a new entry is added when there is none. -/
def assocSet {V : Type} (k : String) (v : V) : List (String × V) → List (String × V)
  | [] => [(k, v)]
  | (k', v') :: rest =>
    if k' = k then (k, v) :: rest else (k', v') :: assocSet k v rest

theorem assocSet_keys_of_mem {V : Type} (k : String) (v : V) :
    ∀ (l : List (String × V)), k ∈ l.map Prod.fst →
      (assocSet k v l).map Prod.fst = l.map Prod.fst
  | [], h => by simp at h
  | (k', v') :: rest, h => by
    by_cases hk : k' = k
    · simp [assocSet, hk]
    · have hmem : k ∈ rest.map Prod.fst := by
        simp only [List.map_cons, List.mem_cons] at h
        rcases h with h | h
        · exact absurd h.symm hk
        · exact h
      simp [assocSet, hk, assocSet_keys_of_mem k v rest hmem]

theorem assocSet_keys_of_not_mem {V : Type} (k : String) (v : V) :
    ∀ (l : List (String × V)), k ∉ l.map Prod.fst →
      (assocSet k v l).map Prod.fst = l.map Prod.fst ++ [k]
  | [], _ => by simp [assocSet]
  | (k', v') :: rest, h => by
    simp only [List.map_cons, List.mem_cons, not_or] at h
    have hk : ¬ k' = k := fun e => h.1 e.symm
    simp [assocSet, hk, assocSet_keys_of_not_mem k v rest h.2]

theorem assocSet_nodup {V : Type} (k : String) (v : V) (l : List (String × V))
    (h : (l.map Prod.fst).Nodup) : ((assocSet k v l).map Prod.fst).Nodup := by
  by_cases hk : k ∈ l.map Prod.fst
  · rw [assocSet_keys_of_mem k v l hk]; exact h
  · rw [assocSet_keys_of_not_mem k v l hk]
    exact List.Nodup.append h (List.nodup_singleton k) (by
      intro a ha hb
      simp only [List.mem_singleton] at hb
      exact hk (hb ▸ ha))

theorem assocGet_assocSet_same {V : Type} (k : String) (v : V) :
    ∀ (l : List (String × V)), assocGet k (assocSet k v l) = some v
  | [] => by simp [assocSet, assocGet]
  | (k', v') :: rest => by
    by_cases hk : k' = k
    · simp [assocSet, assocGet, hk]
    · simp [assocSet, assocGet, hk, assocGet_assocSet_same k v rest]

theorem assocGet_assocSet_other {V : Type} (k j : String) (v : V) (hj : j ≠ k) :
    ∀ (l : List (String × V)), assocGet j (assocSet k v l) = assocGet j l
  | [] => by
    have : ¬ k = j := fun e => hj e.symm
    simp [assocSet, assocGet, this]
  | (k', v') :: rest => by
    by_cases hk : k' = k
    · have h1 : ¬ k = j := fun e => hj e.symm
      have h2 : ¬ k' = j := fun e => hj (e.symm.trans hk)
      simp [assocSet, assocGet, hk, h1]
    · simp [assocSet, assocGet, hk, assocGet_assocSet_other k j v hj rest]

theorem assocGet_isSome_iff {V : Type} (k : String) :
    ∀ (l : List (String × V)), (assocGet k l).isSome = true ↔ k ∈ l.map Prod.fst
  | [] => by simp [assocGet]
  | (k', v') :: rest => by
    by_cases hk : k' = k
    · simp [assocGet, hk]
    · have hk' : ¬ k = k' := fun e => hk e.symm
      simp [assocGet, hk, hk', assocGet_isSome_iff k rest]

theorem assocGet_eq_some_of_mem {V : Type} (k : String) (v : V) :
    ∀ (l : List (String × V)), (l.map Prod.fst).Nodup → (k, v) ∈ l →
      assocGet k l = some v
  | [], _, h => by simp at h
  | (k', v') :: rest, hnd, h => by
    simp only [List.map_cons, List.nodup_cons] at hnd
    simp only [List.mem_cons] at h
    rcases h with h | h
    · cases h; simp [assocGet]
    · have hk : ¬ k' = k := by
        intro e
        apply hnd.1
        rw [e]
        exact List.mem_map_of_mem Prod.fst h
      simp [assocGet, hk, assocGet_eq_some_of_mem k v rest hnd.2 h]

theorem mem_of_assocGet_eq_some {V : Type} (k : String) (v : V) :
    ∀ (l : List (String × V)), assocGet k l = some v → (k, v) ∈ l
  | [], h => by simp [assocGet] at h
  | (k', v') :: rest, h => by
    by_cases hk : k' = k
    · simp [assocGet, hk] at h
      simp [hk, h]
    · simp only [assocGet, hk, if_false] at h
      exact List.mem_cons_of_mem _ (mem_of_assocGet_eq_some k v rest h)

/-- A Go `map[string]V`: entries with pairwise distinct keys. -/
structure GoMap (V : Type) where
  entries : List (String × V)
  nodup : (entries.map Prod.fst).Nodup

namespace GoMap

/-- The map built by `make(map[string]V)`. -/
def empty {V : Type} : GoMap V := ⟨[], List.nodup_nil⟩

/-- The two-valued read `v, ok := m[k]`: `some v` when `ok`, `none` otherwise. -/
def get {V : Type} (m : GoMap V) (k : String) : Option V := assocGet k m.entries

/-- The assignment `m[k] = v`. -/
def set {V : Type} (m : GoMap V) (k : String) (v : V) : GoMap V :=
  ⟨assocSet k v m.entries, assocSet_nodup k v m.entries m.nodup⟩

/-- The keys of the map, in the order a `range` over this layout meets them. -/
def keys {V : Type} (m : GoMap V) : List String := m.entries.map Prod.fst

/-- Two layouts of one and the same map: the same entries, met in another order. -/
def SameMap {V : Type} (m m' : GoMap V) : Prop := m.entries.Perm m'.entries

theorem eq_of_entries_eq {V : Type} {m m' : GoMap V} (h : m.entries = m'.entries) :
    m = m' := by
  cases m; cases m'; cases h; rfl

theorem get_set_same {V : Type} (m : GoMap V) (k : String) (v : V) :
    (m.set k v).get k = some v :=
  assocGet_assocSet_same k v m.entries

theorem get_set_other {V : Type} (m : GoMap V) (k j : String) (v : V) (hj : j ≠ k) :
    (m.set k v).get j = m.get j :=
  assocGet_assocSet_other k j v hj m.entries

theorem get_isSome_iff {V : Type} (m : GoMap V) (k : String) :
    (m.get k).isSome = true ↔ k ∈ m.keys :=
  assocGet_isSome_iff k m.entries

theorem get_eq_some_iff {V : Type} (m : GoMap V) (k : String) (v : V) :
    m.get k = some v ↔ (k, v) ∈ m.entries :=
  ⟨mem_of_assocGet_eq_some k v m.entries, assocGet_eq_some_of_mem k v m.entries m.nodup⟩

theorem SameMap.get_eq {V : Type} {m m' : GoMap V} (h : SameMap m m') (k : String) :
    m.get k = m'.get k := by
  cases hg : m.get k with
  | some v =>
    have : (k, v) ∈ m'.entries := h.mem_iff.mp ((get_eq_some_iff m k v).mp hg)
    exact ((get_eq_some_iff m' k v).mpr this).symm
  | none =>
    cases hg' : m'.get k with
    | none => rfl
    | some v =>
      have : (k, v) ∈ m.entries := h.mem_iff.mpr ((get_eq_some_iff m' k v).mp hg')
      rw [(get_eq_some_iff m k v).mpr this] at hg
      cases hg

end GoMap

/-! ## Data model (`internal/models`, `internal/plugin/plugin.go`) -/

/-- A Go `error`, identified with its message. -/
abbrev Error := String

deriving instance DecidableEq for Except

/-- A `time.Time`: an instant, counted in nanoseconds from the zero Time
(January 1, year 1, 00:00:00 UTC), and the name of the location in which the
instant is read. -/
structure Time where
  nsec : Int
  loc : String
deriving DecidableEq, Repr

namespace Time

/-- IsZero reports whether the time is the zero time instant. -/
def IsZero (t : Time) : Bool := decide (t.nsec = 0)

/-- UTC returns the same instant with the location set to UTC. -/
def UTC (t : Time) : Time := { t with loc := "UTC" }

end Time

/-- The argument of `FetchEvents`: the `context.Context` of the call.  A fetch
reads the outside world; what it finds there during the call is taken as part
of this argument, so that a fetch is a function of it. -/
abbrev Context := Nat

/-- Event represents a calendar event from a plugin (`models.Event`). -/
structure Event where
  UID : String
  Summary : String
  Description : String
  Location : String
  StartTime : Time
  EndTime : Time
  AllDay : Bool
  URL : String
  Categories : List String
deriving DecidableEq, Repr

/-- Calendar represents an aggregated calendar with events from multiple
plugins (`models.Calendar`). -/
structure Calendar where
  Name : String
  Description : String
  Events : List Event
deriving DecidableEq, Repr

/-- A value of a free-form configuration map (`interface{}`): a string, an
integer, a boolean, or a value of any other dynamic type. -/
inductive ConfigValue where
  | str (s : String)
  | int (n : Int)
  | bool (b : Bool)
  | other
deriving DecidableEq, Repr

/-- The interface `plugin.Plugin`: a value of the interface is given by its
three methods. -/
inductive Plugin where
  | mk (Name : String)
       (Create : GoMap ConfigValue → Except Error Plugin)
       (FetchEvents : Context → Except Error (List Event))

namespace Plugin

/-- Name returns the unique name of this plugin type. -/
def Name : Plugin → String
  | .mk name _ _ => name

/-- Create returns a new configured instance of this plugin. -/
def Create : Plugin → GoMap ConfigValue → Except Error Plugin
  | .mk _ create _ => create

/-- FetchEvents retrieves events from the plugin source. -/
def FetchEvents : Plugin → Context → Except Error (List Event)
  | .mk _ _ fetch => fetch

end Plugin

/-! ## The plugin registry (`internal/plugin/registry.go`) -/

/-- Registry manages all available plugins. -/
structure Registry where
  plugins : GoMap Plugin

/-- NewRegistry creates a new plugin registry. -/
def NewRegistry : Registry := ⟨GoMap.empty⟩

namespace Registry

/-- Register adds a plugin to the registry.  The result is the registry after
the call and the returned error. -/
def Register (r : Registry) (plugin : Plugin) : Registry × Option Error :=
  let name := plugin.Name
  match r.plugins.get name with
  | some _ => (r, some ("plugin " ++ name ++ " already registered"))
  | none => (⟨r.plugins.set name plugin⟩, none)

/-- Get retrieves a plugin by name. -/
def Get (r : Registry) (name : String) : Except Error Plugin :=
  match r.plugins.get name with
  | none => .error ("plugin " ++ name ++ " not found")
  | some plugin => .ok plugin

/-- List returns all registered plugin names. -/
def List (r : Registry) : List String :=
  r.plugins.entries.foldl (fun names e => names ++ [e.1]) []

end Registry

/-! ## The calendar manager (`internal/calendar/manager.go`) -/

/-- CalendarDefinition defines a calendar with its associated plugins. -/
structure CalendarDefinition where
  Name : String
  Description : String
  PluginIDs : List String
deriving DecidableEq, Repr

/-- PluginManager manages plugin instances. -/
structure PluginManager where
  instances : GoMap Plugin

/-- NewPluginManager creates a new plugin manager. -/
def NewPluginManager : PluginManager := ⟨GoMap.empty⟩

namespace PluginManager

/-- AddInstance adds a plugin instance with a specific ID. -/
def AddInstance (pm : PluginManager) (id : String) (p : Plugin) : PluginManager :=
  ⟨pm.instances.set id p⟩

/-- GetInstance retrieves a plugin instance by ID: `some p` stands for
`(p, true)` and `none` for `(nil, false)`. -/
def GetInstance (pm : PluginManager) (id : String) : Option Plugin :=
  pm.instances.get id

end PluginManager

/-- Manager handles calendar aggregation and event fetching.  The field
`pluginManager` is the state of the plugin manager the Go field points to. -/
structure Manager where
  calendars : GoMap CalendarDefinition
  eventCache : GoMap (List Event)
  pluginManager : PluginManager

/-- NewManager creates a new calendar manager. -/
def NewManager (pm : PluginManager) : Manager :=
  { calendars := GoMap.empty, eventCache := GoMap.empty, pluginManager := pm }

/-- One call of `FetchEvents`: the id of the instance and the context passed. -/
abbrev FetchCall := String × Context

/-- What a call of a method of `Manager` leaves behind: the state of the manager
after the call, the value returned, and the calls of `FetchEvents` made on
plugin instances while it ran. -/
structure Outcome (α : Type) where
  state : Manager
  value : α
  fetched : List FetchCall

/-- The variables shared by the goroutines of one `RefreshEvents` call: the
event cache of the manager, the buffered channel `errChan` (oldest message
first), and the calls of `FetchEvents` made so far. -/
structure RefreshState where
  eventCache : GoMap (List Event)
  errChan : List Error
  fetched : List FetchCall

/-- The body of the goroutine started for one instance: fetch, then either send
the wrapped error on `errChan` and return, or store the events in the cache. -/
def fetchTask (ctx : Context) (pluginID : String) (plug : Plugin) (s : RefreshState) :
    RefreshState :=
  match plug.FetchEvents ctx with
  | .error err =>
    { s with errChan := s.errChan ++ ["plugin " ++ pluginID ++ ": " ++ err],
             fetched := s.fetched ++ [(pluginID, ctx)] }
  | .ok events =>
    { s with eventCache := s.eventCache.set pluginID events,
             fetched := s.fetched ++ [(pluginID, ctx)] }

/-- The copy of the instance table taken at the start of `RefreshEvents`. -/
def snapshot (pm : PluginManager) : GoMap Plugin :=
  pm.instances.entries.foldl (fun instances e => instances.set e.1 e.2) GoMap.empty

/-- The goroutines of one `RefreshEvents` call, run to completion one after the
other in the order `order` (instance ids); an id without a goroutine, one that
is not in the snapshot, runs nothing. -/
def runTasks (instances : GoMap Plugin) (ctx : Context) (order : List String)
    (s : RefreshState) : RefreshState :=
  order.foldl (fun s id =>
    match instances.get id with
    | some p => fetchTask ctx id p s
    | none => s) s

/-- The slice `errs` of `RefreshEvents`: the messages drained from `errChan`
after the barrier. -/
def drain (errChan : List Error) : List Error :=
  errChan.foldl (fun errs err => errs ++ [err]) []

namespace Manager

/-- AddCalendar registers a calendar definition. -/
def AddCalendar (m : Manager) (cal : CalendarDefinition) : Outcome Unit :=
  { state := { m with calendars := m.calendars.set cal.Name cal },
    value := (),
    fetched := [] }

/-- GetCalendar retrieves a calendar with its current events. -/
def GetCalendar (m : Manager) (name : String) : Outcome (Except Error Calendar) :=
  match m.calendars.get name with
  | none =>
    { state := m, value := .error ("calendar " ++ name ++ " not found"), fetched := [] }
  | some calDef =>
    let allEvents := calDef.PluginIDs.foldl (fun allEvents pluginID =>
      match m.eventCache.get pluginID with
      | some events => allEvents ++ events
      | none => allEvents) []
    { state := m,
      value := .ok { Name := calDef.Name, Description := calDef.Description,
                     Events := allEvents },
      fetched := [] }

/-- The goroutines of `RefreshEvents` are all started and all waited for: the
order in which they finish lists every instance id of the snapshot once. -/
def Completion (m : Manager) (order : List String) : Prop :=
  order.Perm (snapshot m.pluginManager).keys

/-- The slice `errs` that `RefreshEvents` holds after draining `errChan`, when
its goroutines finish in the order `order`. -/
def refreshErrs (m : Manager) (ctx : Context) (order : List String) : List Error :=
  drain (runTasks (snapshot m.pluginManager) ctx order
    { eventCache := m.eventCache, errChan := [], fetched := [] }).errChan

/-- RefreshEvents fetches events from all plugins.  `order` is the order in
which the goroutines finish. -/
def RefreshEvents (m : Manager) (ctx : Context) (order : List String) :
    Outcome (Option Error) :=
  let instances := snapshot m.pluginManager
  let s := runTasks instances ctx order
    { eventCache := m.eventCache, errChan := [], fetched := [] }
  let errs := drain s.errChan
  { state := { m with eventCache := s.eventCache },
    value := if errs.length > 0 then errs.head? else none,
    fetched := s.fetched }

/-- ListCalendars returns all calendar names. -/
def ListCalendars (m : Manager) : Outcome (List String) :=
  { state := m,
    value := m.calendars.entries.foldl (fun names e => names ++ [e.1]) [],
    fetched := [] }

end Manager

/-- The operations of a `Manager`. -/
inductive Op where
  | addCalendar (cal : CalendarDefinition)
  | getCalendar (name : String)
  | listCalendars
  | refreshEvents (ctx : Context) (order : List String)

/-- The state of the manager after an operation. -/
def Manager.step (m : Manager) : Op → Manager
  | .addCalendar cal => (m.AddCalendar cal).state
  | .getCalendar name => (m.GetCalendar name).state
  | .listCalendars => m.ListCalendars.state
  | .refreshEvents ctx order => (m.RefreshEvents ctx order).state

/-! ## Library functions called by the formatter and the server

The Go standard library is not part of the repository.  The functions of
`strings`, `fmt` and `net/http` that the code calls are written out for the
arguments the code passes; those of `time` are left as they are, a parameter
of the formatter. -/

/-- The carriage return. -/
def CR : Char := Char.ofNat 13

/-- The line feed. -/
def LF : Char := Char.ofNat 10

/-- The scan of `strings.ReplaceAll` for a non-empty `old`: occurrences of `old`
are replaced from left to right without overlap.  The counter is the number of
characters of the occurrence just replaced that are still to be skipped. -/
def replaceAllAux (old new : List Char) : Nat → List Char → List Char
  | _, [] => []
  | skip + 1, _ :: cs => replaceAllAux old new skip cs
  | 0, c :: cs =>
    if old.isPrefixOf (c :: cs) then new ++ replaceAllAux old new (old.length - 1) cs
    else c :: replaceAllAux old new 0 cs

/-- The function `strings.ReplaceAll(s, old, new)`, for a non-empty `old`. -/
def ReplaceAll (s old new : String) : String :=
  ⟨replaceAllAux old.data new.data 0 s.data⟩

/-- The function `strings.Join(elems, sep)`. -/
def Join : List String → String → String
  | [], _ => ""
  | [a], _ => a
  | a :: b :: rest, sep => a ++ sep ++ Join (b :: rest) sep

/-- The function `strings.TrimPrefix(s, lead)`. -/
def TrimPrefix (s lead : String) : String :=
  if lead.data.isPrefixOf s.data then ⟨s.data.drop lead.data.length⟩ else s

/-- The scan of `fmt.Sprintf` over a format whose only verb is `%s`. -/
def sprintfAux : List Char → List String → List Char
  | [], _ => []
  | [c], _ => [c]
  | c :: d :: rest, args =>
    if c = Char.ofNat 37 ∧ d = Char.ofNat 115 then
      match args with
      | a :: args => a.data ++ sprintfAux rest args
      | [] => "%!s(MISSING)".data ++ sprintfAux rest []
    else c :: sprintfAux (d :: rest) args

/-- The function `fmt.Sprintf(format, args...)` for string arguments and a
format whose only verb is `%s`. -/
def Sprintf (format : String) (args : List String) : String :=
  ⟨sprintfAux format.data args⟩

/-- A `strings.Builder`: the text written so far. -/
abbrev Builder := String

/-- The method `WriteString` of `strings.Builder`. -/
def Builder.WriteString (b : Builder) (s : String) : Builder := b ++ s

/-- The part of package `time` that the formatter calls: `Format t layout` is
`t.Format(layout)`, and `Now n` is what the call of `time.Now()` returns that
follows `n` earlier calls in the same run of `Format`. -/
structure TimePkg where
  Format : Time → String → String
  Now : Nat → Time

/-! ## The iCalendar formatter (`internal/ical/formatter.go`) -/

/-- The constant `dateTimeFormat`. -/
def dateTimeFormat : String := "20060102T150405Z"

/-- The constant `dateFormat`. -/
def dateFormat : String := "20060102"

/-- The function `escapeText`: four replacements, one after the other. -/
def escapeText (text : String) : String :=
  let text := ReplaceAll text "\\" "\\\\"
  let text := ReplaceAll text ";" "\\;"
  let text := ReplaceAll text "," "\\,"
  let text := ReplaceAll text "\n" "\\n"
  text

/-- The function `formatDateTime`. -/
def formatDateTime (tp : TimePkg) (t : Time) : String :=
  tp.Format t.UTC dateTimeFormat

/-- The function `formatDate`. -/
def formatDate (tp : TimePkg) (t : Time) : String :=
  tp.Format t dateFormat

/-- The function `formatEvent`.  `n` is the number of calls of `time.Now()` made
before this one. -/
def formatEvent (tp : TimePkg) (n : Nat) (event : Event) : String :=
  let builder : Builder := ""
  let builder := builder.WriteString "BEGIN:VEVENT\r\n"
  let builder := builder.WriteString (Sprintf "UID:%s\r\n" [escapeText event.UID])
  let builder := builder.WriteString
    (Sprintf "DTSTAMP:%s\r\n" [formatDateTime tp (tp.Now n)])
  let builder :=
    if event.AllDay then
      let builder := builder.WriteString
        (Sprintf "DTSTART;VALUE=DATE:%s\r\n" [formatDate tp event.StartTime])
      if !event.EndTime.IsZero then
        builder.WriteString (Sprintf "DTEND;VALUE=DATE:%s\r\n" [formatDate tp event.EndTime])
      else builder
    else
      let builder := builder.WriteString
        (Sprintf "DTSTART:%s\r\n" [formatDateTime tp event.StartTime])
      if !event.EndTime.IsZero then
        builder.WriteString (Sprintf "DTEND:%s\r\n" [formatDateTime tp event.EndTime])
      else builder
  let builder :=
    if event.Summary ≠ "" then
      builder.WriteString (Sprintf "SUMMARY:%s\r\n" [escapeText event.Summary])
    else builder
  let builder :=
    if event.Description ≠ "" then
      builder.WriteString (Sprintf "DESCRIPTION:%s\r\n" [escapeText event.Description])
    else builder
  let builder :=
    if event.Location ≠ "" then
      builder.WriteString (Sprintf "LOCATION:%s\r\n" [escapeText event.Location])
    else builder
  let builder :=
    if event.URL ≠ "" then
      builder.WriteString (Sprintf "URL:%s\r\n" [event.URL])
    else builder
  let builder :=
    if event.Categories.length > 0 then
      builder.WriteString (Sprintf "CATEGORIES:%s\r\n" [Join event.Categories ","])
    else builder
  let builder := builder.WriteString "END:VEVENT\r\n"
  builder

/-- Format converts a calendar model as an iCal.  The loop over the events
carries the builder and the number of calls of `time.Now()` made so far. -/
def Format (tp : TimePkg) (cal : Calendar) : String :=
  let builder : Builder := ""
  let builder := builder.WriteString "BEGIN:VCALENDAR\r\n"
  let builder := builder.WriteString "VERSION:2.0\r\n"
  let builder := builder.WriteString "PRODID:-//modcal//modcal//EN\r\n"
  let builder := builder.WriteString (Sprintf "X-WR-CALNAME:%s\r\n" [escapeText cal.Name])
  let builder :=
    if cal.Description ≠ "" then
      builder.WriteString (Sprintf "X-WR-CALDESC:%s\r\n" [escapeText cal.Description])
    else builder
  let loop := cal.Events.foldl (fun (st : Builder × Nat) event =>
    (st.1.WriteString (formatEvent tp st.2 event), st.2 + 1)) (builder, 0)
  let builder := loop.1
  let builder := builder.WriteString "END:VCALENDAR\r\n"
  builder

/-! ## The HTTP server (`internal/server/server.go`, `internal/auth/auth.go`) -/

/-- The part of an `http.Request` that the server reads: the path of the URL
and the parameters of its query, in the order of the query string. -/
structure Request where
  Path : String
  Query : List (String × String)

/-- The interface `auth.Authenticator`: a value of the interface is given by
its method `Authenticate`. -/
abbrev Authenticator := Request → Bool

/-- The state of an `http.ResponseWriter`: the header map, the status code once
the header has been written, and the body written so far. -/
structure ResponseWriter where
  header : List (String × String)
  status : Option Nat
  body : String
deriving DecidableEq, Repr

namespace ResponseWriter

/-- The response writer a handler is called with: nothing set, nothing written. -/
def fresh : ResponseWriter := { header := [], status := none, body := "" }

/-- The call `w.Header().Set(key, value)`. -/
def HeaderSet (w : ResponseWriter) (key value : String) : ResponseWriter :=
  { w with header := assocSet key value w.header }

/-- The call `w.Header().Del(key)`. -/
def HeaderDel (w : ResponseWriter) (key : String) : ResponseWriter :=
  { w with header := w.header.filter (fun e => e.1 ≠ key) }

/-- The method `WriteHeader`: the first status code written is the one sent. -/
def WriteHeader (w : ResponseWriter) (code : Nat) : ResponseWriter :=
  match w.status with
  | some _ => w
  | none => { w with status := some code }

/-- The method `Write`: writes the header with status 200 when no header has
been written, then appends to the body. -/
def Write (w : ResponseWriter) (data : String) : ResponseWriter :=
  let w := w.WriteHeader 200
  { w with body := w.body ++ data }

end ResponseWriter

/-- The function `http.Error(w, error, code)`: a plain-text reply with the given
status code whose body is the message followed by a line feed. -/
def httpError (w : ResponseWriter) (error : String) (code : Nat) : ResponseWriter :=
  let w := w.HeaderDel "Content-Length"
  let w := w.HeaderSet "Content-Type" "text/plain; charset=utf-8"
  let w := w.HeaderSet "X-Content-Type-Options" "nosniff"
  let w := w.WriteHeader code
  w.Write (error ++ "\n")

/-- The constant `http.StatusUnauthorized`. -/
def StatusUnauthorized : Nat := 401

/-- The constant `http.StatusBadRequest`. -/
def StatusBadRequest : Nat := 400

/-- The constant `http.StatusNotFound`. -/
def StatusNotFound : Nat := 404

/-- Server represents the HTTP server.  The field `calManager` is the state of
the manager the Go field points to. -/
structure Server where
  calManager : Manager
  auth : Authenticator
  host : String
  port : Int

/-- An `http.HandlerFunc` of the server: from the state of the server, the
response writer and the request to the state of the server and the response
writer after the call. -/
abbrev HandlerFunc := Server → ResponseWriter → Request → Server × ResponseWriter

namespace Server

/-- The method `authMiddleware`. -/
def authMiddleware (next : HandlerFunc) : HandlerFunc :=
  fun s w r =>
    if !s.auth r then
      (s, httpError w "Unauthorized" StatusUnauthorized)
    else
      next s w r

/-- The method `handleListCalendars`. -/
def handleListCalendars : HandlerFunc :=
  fun s w _ =>
    let out := s.calManager.ListCalendars
    let w := w.HeaderSet "Content-Type" "text/plain"
    let w := out.value.foldl (fun w name => w.Write (Sprintf "%s\n" [name])) w
    ({ s with calManager := out.state }, w)

/-- The method `handleGetCalendar`.  The write of the body is taken to succeed. -/
def handleGetCalendar (tp : TimePkg) : HandlerFunc :=
  fun s w r =>
    let name := TrimPrefix r.Path "/calendar/"
    if name = "" then
      (s, httpError w "Calendar name required" StatusBadRequest)
    else
      let out := s.calManager.GetCalendar name
      let s := { s with calManager := out.state }
      match out.value with
      | .error err => (s, httpError w err StatusNotFound)
      | .ok cal =>
        let icalData := Format tp cal
        let w := w.HeaderSet "Content-Type" "text/calendar; charset=utf-8"
        let w := w.HeaderSet "Content-Disposition"
          (Sprintf "attachment; filename=%s.ics" [name])
        (s, w.Write icalData)

/-- The patterns that `Start` registers with the request multiplexer, each with
its handler. -/
def routes (tp : TimePkg) : List (String × HandlerFunc) :=
  [("/calendars", authMiddleware handleListCalendars),
   ("/calendar/", authMiddleware (handleGetCalendar tp))]

end Server

/-! ## The authenticators (`internal/auth/auth.go`) -/

/-- The call `r.URL.Query().Get(key)`: the first value of the parameter `key`,
the empty string when the query has no such parameter. -/
def Request.QueryGet (r : Request) (key : String) : String :=
  match assocGet key r.Query with
  | some value => value
  | none => ""

/-- NoAuth is an authenticator that allows all requests. -/
structure NoAuth where

/-- The method `Authenticate` of `NoAuth`. -/
def NoAuth.Authenticate (_ : NoAuth) (_ : Request) : Bool := true

/-- APIKeyAuth authenticates requests using a config-specified API key in the
query parameter. -/
structure APIKeyAuth where
  APIKey : String

/-- The method `Authenticate` of `APIKeyAuth`. -/
def APIKeyAuth.Authenticate (a : APIKeyAuth) (r : Request) : Bool :=
  let providedKey := r.QueryGet "apikey"
  decide (providedKey = a.APIKey)

/-- NewAuthenticator creates an authenticator based on method and config. -/
def NewAuthenticator (method apiKey : String) : Authenticator :=
  if method = "apikey" then
    (APIKeyAuth.mk apiKey).Authenticate
  else
    NoAuth.mk.Authenticate

/-! ## The `Create` methods of the plugins (`plugins/trakt`, `plugins/mal`,
`plugins/anilist`) -/

/-- The type assertion `v.(string)` on the result of a map read: the string and
`true` when the key is present with a string value, the empty string and
`false` otherwise. -/
def assertString : Option ConfigValue → String × Bool
  | some (.str s) => (s, true)
  | _ => ("", false)

/-- The type assertion `v.(int)` on the result of a map read. -/
def assertInt : Option ConfigValue → Int × Bool
  | some (.int n) => (n, true)
  | _ => (0, false)

/-- An `http.Client`, of which the plugins set the timeout, in nanoseconds. -/
structure HTTPClient where
  Timeout : Int
deriving DecidableEq, Repr

/-- The duration `30 * time.Second`. -/
def thirtySeconds : Int := 30 * 1000000000

/-- TraktPlugin fetches TV show episodes from Trakt. -/
structure TraktPlugin where
  clientID : String
  accessToken : String
  daysBack : Int
  daysForward : Int
  client : HTTPClient
deriving DecidableEq, Repr

/-- The method `Create` of `TraktPlugin`; the instance it returns as a
`plugin.Plugin` is given by its fields. -/
def TraktPlugin.Create (_ : TraktPlugin) (config : GoMap ConfigValue) :
    Except Error TraktPlugin :=
  let client : HTTPClient := { Timeout := thirtySeconds }
  let clientID := assertString (config.get "clientId")
  if !clientID.2 || clientID.1 = "" then
    .error "clientId is required"
  else
    let accessToken := assertString (config.get "accessToken")
    if !accessToken.2 || accessToken.1 = "" then
      .error "accessToken is required"
    else
      let daysBack := assertInt (config.get "daysBack")
      let daysForward := assertInt (config.get "daysForward")
      .ok { clientID := clientID.1, accessToken := accessToken.1,
            daysBack := if daysBack.2 then daysBack.1 else 7,
            daysForward := if daysForward.2 then daysForward.1 else 14,
            client := client }

/-- MALPlugin fetches anime from MyAnimeList. -/
structure MALPlugin where
  clientID : String
  accessToken : String
  refreshToken : String
  weeksBack : Int
  weeksForward : Int
  client : HTTPClient
deriving DecidableEq, Repr

/-- The method `Create` of `MALPlugin`. -/
def MALPlugin.Create (_ : MALPlugin) (config : GoMap ConfigValue) :
    Except Error MALPlugin :=
  let client : HTTPClient := { Timeout := thirtySeconds }
  let clientID := assertString (config.get "clientId")
  if !clientID.2 || clientID.1 = "" then
    .error "clientId is required"
  else
    let accessToken := assertString (config.get "accessToken")
    if !accessToken.2 || accessToken.1 = "" then
      .error "accessToken is required"
    else
      let refreshToken := assertString (config.get "refreshToken")
      let weeksBack := assertInt (config.get "weeksBack")
      let weeksForward := assertInt (config.get "weeksForward")
      .ok { clientID := clientID.1, accessToken := accessToken.1,
            refreshToken := if refreshToken.2 then refreshToken.1 else "",
            weeksBack := if weeksBack.2 then weeksBack.1 else 1,
            weeksForward := if weeksForward.2 then weeksForward.1 else 2,
            client := client }

/-- AniListPlugin fetches episode release info from AniList. -/
structure AniListPlugin where
  accessToken : String
  daysBack : Int
  daysForward : Int
  client : HTTPClient
deriving DecidableEq, Repr

/-- The method `Create` of `AniListPlugin`. -/
def AniListPlugin.Create (_ : AniListPlugin) (config : GoMap ConfigValue) :
    Except Error AniListPlugin :=
  let client : HTTPClient := { Timeout := thirtySeconds }
  let accessToken := assertString (config.get "accessToken")
  if !accessToken.2 || accessToken.1 = "" then
    .error "accessToken is required"
  else
    let daysBack := assertInt (config.get "daysBack")
    let daysForward := assertInt (config.get "daysForward")
    .ok { accessToken := accessToken.1,
          daysBack := if daysBack.2 then daysBack.1 else 7,
          daysForward := if daysForward.2 then daysForward.1 else 14,
          client := client }

/-! ## The weekly schedule of the mal plugin (`plugins/mal/mal.go`)

The methods of `time.Time` that the schedule calls are written out the way
package `time` has them.  A time is an instant and a location.  A location
answers, for an instant, with the offset from UTC in force at that instant and
the bounds of the period in which it is in force (`lookup`); the locations are
a parameter.  `Weekday` and `AddDate` read the wall clock that the time shows
in its location, and `AddDate` hands the moved wall clock to `Date`, which
looks for the instant that shows it.  The calendar of years and months is not
written out: a date is the count of its days from January 1, year 1.  The
parsing of the broadcast day and the construction of the event of one
occurrence are parameters of `generateEventsForAnime`. -/

/-- The seconds of a day. -/
def secondsPerDay : Int := 86400

/-- The nanoseconds of a second. -/
def nsecPerSec : Int := 1000000000

/-- The nanoseconds of a day. -/
def nsecPerDay : Int := 86400000000000

/-- The seconds from January 1, year 1 to January 1, 1970, both 00:00:00 UTC. -/
def unixToInternal : Int := 62135596800

/-- What `lookup` returns for an instant: the offset east of UTC, in seconds,
in force at the instant, and the period in which it is in force, from the
instant `start` to the instant `stop`, the last not included; instants are
seconds from January 1, 1970 UTC. -/
structure ZoneSpan where
  offset : Int
  start : Int
  stop : Int
deriving DecidableEq, Repr

/-- A `time.Location`, given by its method `lookup`. -/
abbrev Location := Int → ZoneSpan

/-- The location of each name; the name `Local` stands for `time.Local`. -/
abbrev Zones := String → Location

namespace Time

/-- The seconds of the instant from January 1, year 1 UTC. -/
def sec (t : Time) : Int := t.nsec / nsecPerSec

/-- The seconds of the instant from January 1, 1970 UTC. -/
def unixSec (t : Time) : Int := t.sec - unixToInternal

/-- The method `abs`: the seconds that the wall clock of the time shows in its
location, counted from January 1, year 1, 00:00:00 of that clock; the offset
is the one in force at the instant. -/
def abs (z : Zones) (t : Time) : Int := t.sec + (z t.loc t.unixSec).offset

/-- The method `Weekday`: Sunday is 0 and Saturday 6; January 1, year 1 is a
Monday. -/
def Weekday (z : Zones) (t : Time) : Int := (t.abs z / secondsPerDay + 1) % 7

/-- The method `Before`. -/
def Before (t u : Time) : Bool := decide (t.nsec < u.nsec)

/-- The method `Equal`. -/
def Equal (t u : Time) : Bool := decide (t.nsec = u.nsec)

end Time

/-- The function `time.Date`, from the count of days on: the time in the
location `loc` whose wall clock shows the day `day`, `clock` seconds into the
day, and `nsec` nanoseconds.  The wall clock is first taken as if it were UTC
and looked up in the location; when it does not lie in the period found once
the offset is taken off, the offset at that instant is taken instead. -/
def Date (z : Zones) (day clock nsec : Int) (loc : String) : Time :=
  let unix := day * secondsPerDay + clock - unixToInternal
  let zone := z loc unix
  let unix :=
    if zone.offset ≠ 0 then
      let utc := unix - zone.offset
      let offset :=
        if utc < zone.start ∨ utc ≥ zone.stop then (z loc utc).offset else zone.offset
      unix - offset
    else unix
  { nsec := (unix + unixToInternal) * nsecPerSec + nsec, loc := loc }

/-- The call `t.AddDate(0, 0, days)`: the date and the clock that `t` shows in
its location are read, and `Date` is called with the day moved by `days`. -/
def Time.AddDate (z : Zones) (t : Time) (days : Int) : Time :=
  let abs := t.abs z
  Date z (abs / secondsPerDay + days) (abs % secondsPerDay) (t.nsec % nsecPerSec) t.loc

/-- The value of an `int` expression: the integer wrapped to 64 bits. -/
def wrapInt64 (x : Int) : Int := (x + 2 ^ 63) % 2 ^ 64 - 2 ^ 63

/-- The method `nextWeekday`. -/
def nextWeekday (z : Zones) (frm : Time) (weekday : Int) : Time :=
  let days := weekday - frm.Weekday z
  let days := if days < 0 then days + 7 else days
  frm.AddDate z days

/-- The loop of `generateEventsForAnime`, run for at most `fuel` rounds:
`current` and `events` are its variables, `body current` is the event that
one round builds. -/
def weeklyLoop (z : Zones) (body : Time → Event) (endDate : Time) :
    Nat → Time → List Event → List Event
  | 0, _, events => events
  | fuel + 1, current, events =>
    if current.Before endDate || current.Equal endDate then
      weeklyLoop z body endDate fuel (current.AddDate z 7) (events ++ [body current])
    else
      events

/-- The method `generateEventsForAnime`, from the parsed weekday on: `weekday`
is what `parseDayOfWeek` returns, `now` what `time.Now()` returns, and the
loop is run for at most `fuel` rounds. -/
def generateEventsForAnime (z : Zones) (p : MALPlugin) (now : Time) (weekday : Int)
    (body : Time → Event) (fuel : Nat) : List Event :=
  let events : List Event := []
  if weekday = -1 then
    events
  else
    let startDate := now.AddDate z (wrapInt64 (-7 * p.weeksBack))
    let endDate := now.AddDate z (wrapInt64 (7 * p.weeksForward))
    let current := nextWeekday z startDate weekday
    weeklyLoop z body endDate fuel current events

/-! ## The fetch tasks as steps on the world outside the manager

`RefreshEvents` once more, with the calls of `FetchEvents` as what they are to
the manager: calls of a method of an interface value that may read and change
anything outside the manager (the service asked, the fields of the instance).
The world outside is a value of a type `W`; a call takes the world as it is
and leaves the world as the call made it.  The goroutines are started in the
order in which the `range` over the snapshot meets the instances, and finish
in an order that the scheduler picks. -/

/-- An instance of `plugin.Plugin` as `RefreshEvents` uses it: the method
`FetchEvents`, which takes the context and the world before the call and gives
what the call returns and the world after the call. -/
structure PluginW (W : Type) where
  FetchEvents : Context → W → Except Error (List Event) × W

/-- PluginManager manages plugin instances. -/
structure PluginManagerW (W : Type) where
  instances : GoMap (PluginW W)

/-- Manager handles calendar aggregation and event fetching. -/
structure ManagerW (W : Type) where
  calendars : GoMap CalendarDefinition
  eventCache : GoMap (List Event)
  pluginManager : PluginManagerW W

/-- What a call of `RefreshEvents` leaves behind: the state of the manager, the
value returned and the world outside. -/
structure OutcomeW (W : Type) (α : Type) where
  state : ManagerW W
  value : α
  world : W

/-- The variables shared by the goroutines of one `RefreshEvents` call, and the
world outside. -/
structure RefreshStateW (W : Type) where
  eventCache : GoMap (List Event)
  errChan : List Error
  world : W

/-- The body of the goroutine started for one instance: fetch, then either send
the wrapped error on `errChan` and return, or store the events in the cache. -/
def fetchTaskW {W : Type} (ctx : Context) (pluginID : String) (plug : PluginW W)
    (s : RefreshStateW W) : RefreshStateW W :=
  match plug.FetchEvents ctx s.world with
  | (.error err, world) =>
    { eventCache := s.eventCache,
      errChan := s.errChan ++ ["plugin " ++ pluginID ++ ": " ++ err],
      world := world }
  | (.ok events, world) =>
    { eventCache := s.eventCache.set pluginID events,
      errChan := s.errChan,
      world := world }

/-- The copy of the instance table taken at the start of `RefreshEvents`. -/
def snapshotW {W : Type} (pm : PluginManagerW W) : GoMap (PluginW W) :=
  pm.instances.entries.foldl (fun instances e => instances.set e.1 e.2) GoMap.empty

/-- The order in which goroutines finish that were started in the order
`started`.  The scheduler decides it: `picks` lists its decisions, each the
position, counted around among the goroutines still running, of the one that
finishes next; when the decisions run out, the goroutines still running finish
in the order in which they were started. -/
def finishOrder {α : Type} : List Nat → List α → List α
  | _, [] => []
  | [], running => running
  | k :: picks, t :: ts =>
    match (t :: ts).drop (k % (ts.length + 1)) with
    | next :: later => next :: finishOrder picks ((t :: ts).take (k % (ts.length + 1)) ++ later)
    | [] => t :: ts

/-- The goroutines of one `RefreshEvents` call, one for each entry of the
snapshot, run to completion one after the other in the order in which they
finish. -/
def runTasksW {W : Type} (ctx : Context) (finished : List (String × PluginW W))
    (s : RefreshStateW W) : RefreshStateW W :=
  finished.foldl (fun s task => fetchTaskW ctx task.1 task.2 s) s

/-- RefreshEvents fetches events from all plugins.  `picks` are the decisions
of the scheduler, `world` is the world outside when the call starts. -/
def ManagerW.RefreshEvents {W : Type} (m : ManagerW W) (ctx : Context) (picks : List Nat)
    (world : W) : OutcomeW W (Option Error) :=
  let instances := snapshotW m.pluginManager
  let started := instances.entries
  let s := runTasksW ctx (finishOrder picks started)
    { eventCache := m.eventCache, errChan := [], world := world }
  let errs := drain s.errChan
  { state := { m with eventCache := s.eventCache },
    value := if errs.length > 0 then errs.head? else none,
    world := s.world }

/-! ## Test doubles -/

/-- A plugin whose `FetchEvents` is the given function and whose `Create`
always fails. -/
def testPlugin (name : String) (fetch : Context → Except Error (List Event)) : Plugin :=
  .mk name (fun _ => .error "not configurable") fetch

/-- An event with the given UID and nothing else. -/
def testEvent (uid : String) : Event :=
  { UID := uid, Summary := "", Description := "", Location := "",
    StartTime := { nsec := 0, loc := "UTC" }, EndTime := { nsec := 0, loc := "UTC" }, AllDay := false, URL := "", Categories := [] }

/-- A plugin manager with two instances: `A`, whose fetch returns two events in
context 0 and fails in every other context, and `B`, whose fetch always fails. -/
def pmAB : PluginManager :=
  (NewPluginManager.AddInstance "A"
    (testPlugin "test" (fun ctx =>
      if ctx = 0 then .ok [testEvent "e1", testEvent "e2"] else .error "timeout"))).AddInstance
    "B" (testPlugin "test" (fun _ => .error "refused"))

/-- A manager over `pmAB` with one calendar `C` over `[A, B]`, whose cache
holds an empty entry for `B` and none for `A`. -/
def mgrAB : Manager :=
  { calendars := GoMap.empty.set "C" { Name := "C", Description := "both", PluginIDs := ["A", "B"] },
    eventCache := GoMap.empty.set "B" [],
    pluginManager := pmAB }

/-- Two plugin types registered under the same name `x`. -/
def pluginX1 : Plugin := testPlugin "x" (fun _ => .ok [testEvent "first"])

/-- The second plugin type named `x`. -/
def pluginX2 : Plugin := testPlugin "x" (fun _ => .ok [testEvent "second"])

/-- The message that the goroutine of instance `id` sends on `errChan` in a
cycle run with context `ctx`: the wrapped error of its fetch when the fetch
fails, nothing when it succeeds or when `id` is not an instance. -/
def Manager.fetchError (m : Manager) (ctx : Context) (id : String) : Option Error :=
  match m.pluginManager.GetInstance id with
  | some p =>
    (match p.FetchEvents ctx with
     | .error err => some ("plugin " ++ id ++ ": " ++ err)
     | .ok _ => none)
  | none => none

/-- The returned error `ret` carries the error `e`: there is a returned error
and the text of `e` occurs in its message. -/
def Carries (ret : Option Error) (e : Error) : Prop :=
  ∃ r, ret = some r ∧ e.data <:+: r.data

/-- The state `mgrAB` with the entries of its cache laid out in two orders:
`A` before `B`. -/
def mgrCacheAB : Manager :=
  { mgrAB with
    eventCache := (GoMap.empty.set "A" [testEvent "a1"]).set "B" [testEvent "b1", testEvent "b2"] }

/-- The same state as `mgrCacheAB`, `B` before `A`. -/
def mgrCacheBA : Manager :=
  { mgrAB with
    eventCache := (GoMap.empty.set "B" [testEvent "b1", testEvent "b2"]).set "A" [testEvent "a1"] }

/-- A manager whose calendar `twice` lists `A` twice and an id without an entry. -/
def mgrTwice : Manager :=
  { mgrCacheAB with
    calendars := GoMap.empty.set "twice"
      { Name := "twice", Description := "", PluginIDs := ["B", "A", "Z", "A"] } }

/-- A manager with one instance `A`, whose fetch returns one event in context 0
and fails in every other context, one calendar `C` over `[A]` and an empty cache. -/
def mgrA : Manager :=
  { calendars := GoMap.empty.set "C" { Name := "C", Description := "one", PluginIDs := ["A"] },
    eventCache := GoMap.empty,
    pluginManager := NewPluginManager.AddInstance "A"
      (testPlugin "test" (fun ctx => if ctx = 0 then .ok [testEvent "e1"] else .error "timeout")) }

/-- The registry after `Register` has been called with the plugins of a list,
one after the other. -/
def registerAll (ps : List Plugin) (r : Registry) : Registry :=
  ps.foldl (fun r p => (r.Register p).1) r

/-- The plugin manager after `AddInstance` has been called with the pairs of a
list, one after the other. -/
def addInstances (adds : List (String × Plugin)) (pm : PluginManager) : PluginManager :=
  adds.foldl (fun pm e => pm.AddInstance e.1 e.2) pm

/-- The manager after `AddCalendar` has been called with the definitions of a
list, one after the other. -/
def addCalendars (cals : List CalendarDefinition) (m : Manager) : Manager :=
  cals.foldl (fun m cal => (m.AddCalendar cal).state) m

/-- The backslash. -/
def backslash : Char := Char.ofNat 92

/-- The escape of one character as the specification gives it: a backslash
becomes two backslashes, a semicolon, a comma and a line feed become a
backslash followed by `;`, `,` and `n`, and every other character stays. -/
def escapeChar (c : Char) : List Char :=
  if c = backslash then [backslash, backslash]
  else if c = ';' then [backslash, ';']
  else if c = ',' then [backslash, ',']
  else if c = LF then [backslash, 'n']
  else [c]

/-- The text made of the given lines, each followed by CR LF. -/
def joinLines : List String → String
  | [] => ""
  | l :: rest => l ++ "\r\n" ++ joinLines rest

/-- The texts of a list, one after the other. -/
def concatStrings : List String → String
  | [] => ""
  | s :: rest => s ++ concatStrings rest

/-- The lines of an event between BEGIN:VEVENT and END:VEVENT as the
specification lists them: UID, DTSTAMP and DTSTART always, then DTEND, SUMMARY,
DESCRIPTION, LOCATION, URL and CATEGORIES, each only when the field is set.
`n` is the number of calls of `time.Now()` made before the block is written. -/
def eventBodyLines (tp : TimePkg) (n : Nat) (e : Event) : List String :=
  ["UID:" ++ escapeText e.UID,
   "DTSTAMP:" ++ formatDateTime tp (tp.Now n),
   if e.AllDay then "DTSTART;VALUE=DATE:" ++ formatDate tp e.StartTime
   else "DTSTART:" ++ formatDateTime tp e.StartTime]
  ++ (if e.EndTime.IsZero then []
      else [if e.AllDay then "DTEND;VALUE=DATE:" ++ formatDate tp e.EndTime
            else "DTEND:" ++ formatDateTime tp e.EndTime])
  ++ (if e.Summary = "" then [] else ["SUMMARY:" ++ escapeText e.Summary])
  ++ (if e.Description = "" then [] else ["DESCRIPTION:" ++ escapeText e.Description])
  ++ (if e.Location = "" then [] else ["LOCATION:" ++ escapeText e.Location])
  ++ (if e.URL = "" then [] else ["URL:" ++ e.URL])
  ++ (if e.Categories = [] then [] else ["CATEGORIES:" ++ Join e.Categories ","])

/-- The lines of the VEVENT block of an event. -/
def eventLines (tp : TimePkg) (n : Nat) (e : Event) : List String :=
  ["BEGIN:VEVENT"] ++ eventBodyLines tp n e ++ ["END:VEVENT"]

/-- The lines that open a calendar as the specification lists them: BEGIN,
VERSION, PRODID, the escaped name and, when it is not empty, the escaped
description. -/
def headerLines (cal : Calendar) : List String :=
  ["BEGIN:VCALENDAR",
   "VERSION:2.0",
   "PRODID:-//modcal//modcal//EN",
   "X-WR-CALNAME:" ++ escapeText cal.Name]
  ++ (if cal.Description = "" then [] else ["X-WR-CALDESC:" ++ escapeText cal.Description])

/-- A write to a builder that is made only under a condition. -/
def appendIf (c : Prop) [Decidable c] (b s : String) : String :=
  if c then b ++ s else b

/-- No carriage return and no line feed occurs in the text. -/
def NoLineBreak (s : String) : Prop := CR ∉ s.data ∧ LF ∉ s.data

/-- The text is a concatenation of lines, each ending in CR LF, with no CR and
no LF anywhere else. -/
def IsCRLFLines (s : String) : Prop :=
  ∃ lines : List String, (∀ l ∈ lines, NoLineBreak l) ∧ s = joinLines lines

/-- A `time` package whose `Format` writes whether the instant is the zero
instant, followed by the layout, and whose clock reads `n` nanoseconds at the
call that follows `n` calls. -/
def testTimePkg : TimePkg :=
  { Format := fun t layout => (if t.IsZero then "zero/" else "set/") ++ layout,
    Now := fun n => { nsec := n, loc := "Local" } }

/-- A calendar without events whose name holds a carriage return. -/
def calendarWithCR : Calendar :=
  { Name := "a\rb", Description := "", Events := [] }

/-- A calendar with a description and two events: an all-day event with every
field set, and an event with nothing but a UID and a start. -/
def calendarTwoEvents : Calendar :=
  { Name := "work; home", Description := "line one\nline two",
    Events :=
      [{ UID := "u1", Summary := "a,b", Description := "d", Location := "l",
         StartTime := { nsec := 5, loc := "Local" }, EndTime := { nsec := 7, loc := "Local" },
         AllDay := true, URL := "http://x/?a=1;b=2", Categories := ["c1", "c2"] },
       testEvent "u2"] }

/-- The fields of an event hold no character that would break a line of its
block: no CR in the escaped fields, no CR and no LF in the URL and in the
categories. -/
def Event.NoStrayBreak (e : Event) : Prop :=
  CR ∉ e.UID.data ∧ CR ∉ e.Summary.data ∧ CR ∉ e.Description.data ∧
  CR ∉ e.Location.data ∧ NoLineBreak e.URL ∧ ∀ c ∈ e.Categories, NoLineBreak c

/-- A server over the manager `mgrCacheAB`, whose authenticator accepts the
requests that carry the query parameter `apikey=secret`. -/
def testServer : Server :=
  { calManager := mgrCacheAB,
    auth := fun r => decide (assocGet "apikey" r.Query = some "secret"),
    host := "localhost", port := 8080 }

/-- The inverse of the escape on the characters: a backslash and the character
after it stand for that character, for a line feed when it is `n`. -/
def unescapeChars : List Char → List Char
  | [] => []
  | [c] => [c]
  | c :: d :: rest =>
    if c = backslash then (if d = 'n' then LF else d) :: unescapeChars rest
    else c :: unescapeChars (d :: rest)

/-- The text of which an escaped text is the escape. -/
def unescapeText (s : String) : String := ⟨unescapeChars s.data⟩

/-- A required key of a configuration is missing, in the words of the
specification: the key is absent, its value is not a string, or its value is
the empty string. -/
def MissingKey (config : GoMap ConfigValue) (key : String) : Prop :=
  config.get key = none ∨
  (∃ v, config.get key = some v ∧ ∀ s, v ≠ .str s) ∨
  config.get key = some (.str "")

/-- The value of an optional integer setting: the integer given under the key,
and the default when the key is absent or its value is not an integer. -/
def intSetting (config : GoMap ConfigValue) (key : String) (default : Int) : Int :=
  match config.get key with
  | some (.int n) => n
  | _ => default

/-- The value of an optional string setting, empty when it is not given. -/
def stringSetting (config : GoMap ConfigValue) (key : String) : String :=
  match config.get key with
  | some (.str s) => s
  | _ => ""

/-- A configuration with both required keys and one optional setting. -/
def configFull : GoMap ConfigValue :=
  ((GoMap.empty.set "clientId" (.str "id")).set "accessToken" (.str "token")).set
    "daysBack" (.int 3)

/-- A configuration whose access token is not a string. -/
def configBadToken : GoMap ConfigValue :=
  (GoMap.empty.set "clientId" (.str "id")).set "accessToken" (.int 5)

/-- The instant a number of days of 24 hours after a time, in its location. -/
def Time.plusDays (t : Time) (days : Int) : Time := { t with nsec := t.nsec + days * nsecPerDay }

/-- The number of rounds that the weekly loop makes from `current` when a week
is seven days of 24 hours: the weeks that fit between `current` and `endDate`,
and one more, none when `current` is after `endDate`. -/
def weeklyRounds (current endDate : Time) : Nat :=
  ((endDate.nsec - current.nsec) / (7 * nsecPerDay) + 1).toNat

/-- The locations all at UTC. -/
def zonesUTC : Zones := fun _ _ => { offset := 0, start := 0, stop := 0 }

/-- The zero time: a Monday. -/
def mondayYearOne : Time := { nsec := 0, loc := "UTC" }

/-- An event that records, in its UID, the day that a time shows in its
location, counted from January 1, year 1, and the weekday of the time. -/
def occurrenceEvent (z : Zones) (t : Time) : Event :=
  testEvent (toString (t.abs z / secondsPerDay) ++ "/" ++ toString (t.Weekday z))

/-- The location America/Havana from November 5, 2023 to November 3, 2024:
five hours west of UTC up to March 10, 2024, 05:00 UTC, when the clocks go
from 00:00 to 01:00, and four hours west from then on. -/
def havana : Location := fun unix =>
  if unix < 1710046800 then { offset := -18000, start := 1699160400, stop := 1710046800 }
  else { offset := -14400, start := 1710046800, stop := 1730610000 }

/-- The locations of a process whose local time is that of Havana. -/
def zonesHavana : Zones := fun _ => havana

/-- March 15, 2024, 00:30 in Havana (04:30 UTC). -/
def nowHavana : Time := { nsec := 63846073800 * 1000000000, loc := "Local" }

/-- March 8, 2024, 00:30 in Havana (05:30 UTC), a Friday. -/
def fridayHavana : Time := { nsec := 63845472600 * 1000000000, loc := "Local" }

/-- March 10, 2024, 12:00 in Havana (16:00 UTC), a Sunday. -/
def sundayHavana : Time := { nsec := 63845683200 * 1000000000, loc := "Local" }

/-- The location America/New_York from November 5, 2023 to November 3, 2024:
five hours west of UTC up to March 10, 2024, 07:00 UTC, when the clocks go
from 02:00 to 03:00, and four hours west from then on. -/
def newYork : Location := fun unix =>
  if unix < 1710054000 then { offset := -18000, start := 1699164000, stop := 1710054000 }
  else { offset := -14400, start := 1710054000, stop := 1730613600 }

/-- The locations of a process whose local time is that of New York. -/
def zonesNewYork : Zones := fun _ => newYork

/-- March 9, 2024, 12:00 in New York (17:00 UTC), a Saturday. -/
def saturdayNewYork : Time := { nsec := 63845600400 * 1000000000, loc := "Local" }

/-- A configured instance of the mal plugin with the default range: one week
back and two weeks forward. -/
def malDefault : MALPlugin :=
  { clientID := "id", accessToken := "token", refreshToken := "",
    weeksBack := 1, weeksForward := 2, client := { Timeout := thirtySeconds } }

/-- The lines of a text, read the way a reader of iCalendar reads them: a line
ends at a CR that an LF follows.  `cur` holds the characters of the line that
is being read; what stands after the last CR LF is a last line. -/
def splitLinesAux : List Char → List Char → List String
  | cur, [] => if cur = [] then [] else [String.mk cur]
  | cur, [c] => [String.mk (cur ++ [c])]
  | cur, c :: d :: rest =>
    if c = CR ∧ d = LF then String.mk cur :: splitLinesAux [] rest
    else splitLinesAux (cur ++ [c]) (d :: rest)

/-- The lines of a text. -/
def splitLines (s : String) : List String := splitLinesAux [] s.data

/-- The lines make one block of an event: the line BEGIN:VEVENT, lines that
are neither BEGIN:VEVENT nor END:VEVENT, and the line END:VEVENT. -/
def IsEventBlock (block : List String) : Prop :=
  ∃ body : List String, block = ["BEGIN:VEVENT"] ++ body ++ ["END:VEVENT"] ∧
    "BEGIN:VEVENT" ∉ body ∧ "END:VEVENT" ∉ body

/-- The layout of a formatted calendar in the words of the specification: the
lines of the text are the opening lines, then one block for each event of the
calendar, then the line END:VCALENDAR. -/
def OneBlockPerEvent (text : String) (cal : Calendar) : Prop :=
  ∃ blocks : List (List String), blocks.length = cal.Events.length ∧
    (∀ block ∈ blocks, IsEventBlock block) ∧
    splitLines text = headerLines cal ++ blocks.flatten ++ ["END:VCALENDAR"]

/-- A calendar with one event, whose URL holds two line breaks: after the
first stands END:VEVENT, after the second BEGIN:VEVENT. -/
def calendarSplitURL : Calendar :=
  { Name := "c", Description := "",
    Events := [{ testEvent "u" with URL := "x\r\nEND:VEVENT\r\nBEGIN:VEVENT" }] }

/-- The map with the same keys, in the same layout, whose values are made
from the keys and values of `m`. -/
def GoMap.mapValues {V V' : Type} (f : String → V → V') (m : GoMap V) : GoMap V' :=
  ⟨m.entries.map (fun e => (e.1, f e.1 e.2)), by
    have h : (m.entries.map (fun e => (e.1, f e.1 e.2))).map Prod.fst
        = m.entries.map Prod.fst := by
      rw [List.map_map]
      rfl
    rw [h]
    exact m.nodup⟩

/-- An instance made to keep a log of the calls of its `FetchEvents`: the
world is the world of the instance and the log; a call does what the call of
the instance does and adds the id of the instance and the context it was
passed to the log. -/
def PluginW.logged {W : Type} (id : String) (plug : PluginW W) :
    PluginW (W × List FetchCall) :=
  { FetchEvents := fun ctx w =>
      ((plug.FetchEvents ctx w.1).1, ((plug.FetchEvents ctx w.1).2, w.2 ++ [(id, ctx)])) }

/-- The manager with every instance made to keep the log. -/
def ManagerW.logged {W : Type} (m : ManagerW W) : ManagerW (W × List FetchCall) :=
  { calendars := m.calendars,
    eventCache := m.eventCache,
    pluginManager := ⟨m.pluginManager.instances.mapValues PluginW.logged⟩ }

/-- An instance of the first model as an instance that acts on a world: its
`FetchEvents` returns what it returns there and leaves the world as it is. -/
def Plugin.onWorld {W : Type} (p : Plugin) : PluginW W :=
  { FetchEvents := fun ctx w => (p.FetchEvents ctx, w) }

/-- A manager of the first model as a manager whose instances act on a world. -/
def Manager.onWorld {W : Type} (m : Manager) : ManagerW W :=
  { calendars := m.calendars,
    eventCache := m.eventCache,
    pluginManager := ⟨m.pluginManager.instances.mapValues (fun _ p => p.onWorld)⟩ }

/-- A world that counts the calls of `FetchEvents` on the instance `A`, and two
instances over it: `A` fails at its first call and would succeed from its
second call on, `B` always fails. -/
def mgrCounting : ManagerW Nat :=
  { calendars := GoMap.empty,
    eventCache := GoMap.empty,
    pluginManager :=
      ⟨(GoMap.empty.set "A"
          { FetchEvents := fun _ n =>
              (if n = 0 then .error "not ready" else .ok [testEvent "e1"], n + 1) }).set "B"
          { FetchEvents := fun _ n => (.error "refused", n) }⟩ }

/-! ## Lemmas on the model -/

theorem assocSet_of_not_mem {V : Type} (k : String) (v : V) :
    ∀ (l : List (String × V)), k ∉ l.map Prod.fst → assocSet k v l = l ++ [(k, v)]
  | [], _ => by simp [assocSet]
  | (k', v') :: rest, h => by
    simp only [List.map_cons, List.mem_cons, not_or] at h
    have hk : ¬ k' = k := fun e => h.1 e.symm
    simp [assocSet, hk, assocSet_of_not_mem k v rest h.2]

theorem foldl_set_entries {V : Type} :
    ∀ (l : List (String × V)) (acc : GoMap V),
      ((acc.entries ++ l).map Prod.fst).Nodup →
      (l.foldl (fun instances e => instances.set e.1 e.2) acc).entries = acc.entries ++ l
  | [], acc, _ => by simp
  | (k, v) :: rest, acc, h => by
    have hk : k ∉ acc.entries.map Prod.fst := by
      intro hmem
      rw [List.map_append, List.nodup_append] at h
      exact h.2.2 hmem (by simp)
    have hset : (acc.set k v).entries = acc.entries ++ [(k, v)] :=
      assocSet_of_not_mem k v acc.entries hk
    have h' : (((acc.set k v).entries ++ rest).map Prod.fst).Nodup := by
      rw [hset]; simpa using h
    rw [List.foldl_cons, foldl_set_entries rest (acc.set k v) h', hset]
    simp

/-- The snapshot taken by `RefreshEvents` is the instance table itself. -/
theorem snapshot_eq (pm : PluginManager) : snapshot pm = pm.instances := by
  apply GoMap.eq_of_entries_eq
  have h := foldl_set_entries pm.instances.entries GoMap.empty
    (by simpa [GoMap.empty] using pm.instances.nodup)
  simpa [snapshot, GoMap.empty] using h

theorem drain_eq (errChan : List Error) : drain errChan = errChan := by
  have h : ∀ (l acc : List Error),
      l.foldl (fun errs err => errs ++ [err]) acc = acc ++ l := by
    intro l
    induction l with
    | nil => intro acc; simp
    | cons a rest ih => intro acc; simp [ih]
  simpa [drain] using h errChan []

theorem runTasks_nil (instances : GoMap Plugin) (ctx : Context) (s : RefreshState) :
    runTasks instances ctx [] s = s := rfl

theorem runTasks_cons (instances : GoMap Plugin) (ctx : Context) (id : String)
    (rest : List String) (s : RefreshState) :
    runTasks instances ctx (id :: rest) s =
      runTasks instances ctx rest
        (match instances.get id with
         | some p => fetchTask ctx id p s
         | none => s) := rfl

/-- A task writes no cache entry but its own. -/
theorem runTasks_cache_other (instances : GoMap Plugin) (ctx : Context) (id : String) :
    ∀ (order : List String) (s : RefreshState), id ∉ order →
      (runTasks instances ctx order s).eventCache.get id = s.eventCache.get id
  | [], s, _ => rfl
  | a :: rest, s, h => by
    simp only [List.mem_cons, not_or] at h
    rw [runTasks_cons, runTasks_cache_other instances ctx id rest _ h.2]
    cases hp : instances.get a with
    | none => rfl
    | some p =>
      simp only [fetchTask]
      cases hf : p.FetchEvents ctx with
      | error e => rfl
      | ok evs => exact GoMap.get_set_other _ _ _ _ h.1

/-- The task of an instance whose fetch fails writes nothing to the cache. -/
theorem runTasks_cache_of_error (instances : GoMap Plugin) (ctx : Context) (id : String)
    (p : Plugin) (e : Error) (hp : instances.get id = some p)
    (hf : p.FetchEvents ctx = .error e) :
    ∀ (order : List String) (s : RefreshState),
      (runTasks instances ctx order s).eventCache.get id = s.eventCache.get id
  | [], s => rfl
  | a :: rest, s => by
    rw [runTasks_cons, runTasks_cache_of_error instances ctx id p e hp hf rest _]
    by_cases ha : a = id
    · subst ha
      simp [hp, fetchTask, hf]
    · cases hq : instances.get a with
      | none => rfl
      | some q =>
        simp only [fetchTask]
        cases hg : q.FetchEvents ctx with
        | error e' => rfl
        | ok evs => exact GoMap.get_set_other _ _ _ _ (fun h => ha h.symm)

/-- The task of an instance whose fetch succeeds leaves the fetched list in the cache. -/
theorem runTasks_cache_of_ok (instances : GoMap Plugin) (ctx : Context) (id : String)
    (p : Plugin) (evs : List Event) (hp : instances.get id = some p)
    (hf : p.FetchEvents ctx = .ok evs) :
    ∀ (order : List String) (s : RefreshState), id ∈ order →
      (runTasks instances ctx order s).eventCache.get id = some evs
  | [], s, h => by simp at h
  | a :: rest, s, h => by
    rw [runTasks_cons]
    by_cases hr : id ∈ rest
    · exact runTasks_cache_of_ok instances ctx id p evs hp hf rest _ hr
    · have ha : a = id := by
        simp only [List.mem_cons] at h
        rcases h with h | h
        · exact h.symm
        · exact absurd h hr
      subst ha
      rw [runTasks_cache_other instances ctx a rest _ hr]
      simp [hp, fetchTask, hf, GoMap.get_set_same]

theorem mem_order_of_completion (m : Manager) (order : List String) (h : m.Completion order)
    (id : String) (p : Plugin) (hp : m.pluginManager.GetInstance id = some p) : id ∈ order := by
  unfold Manager.Completion at h
  rw [snapshot_eq] at h
  apply h.mem_iff.mpr
  apply (GoMap.get_isSome_iff _ _).mp
  unfold PluginManager.GetInstance at hp
  rw [hp]; rfl

/-! ## The claims -/

/-- C1: when a plugin named like `p` is already registered (`Get` of that name
returns `q`), `Register p` returns the error "plugin NAME already registered"
and leaves the registry as it was: `Get` of the name still returns `q`, the
plugin registered first, and `List` returns the same names. -/
theorem register_duplicate_rejected (r : Registry) (p q : Plugin)
    (h : r.Get p.Name = .ok q) :
    (r.Register p).2 = some ("plugin " ++ p.Name ++ " already registered") ∧
    (r.Register p).1 = r ∧
    (r.Register p).1.Get p.Name = .ok q ∧
    (r.Register p).1.List = r.List := by
  have hq : r.plugins.get p.Name = some q := by
    unfold Registry.Get at h
    cases hg : r.plugins.get p.Name with
    | none => rw [hg] at h; cases h
    | some q' => rw [hg] at h; cases h; rfl
  have hreg : r.Register p = (r, some ("plugin " ++ p.Name ++ " already registered")) := by
    simp [Registry.Register, hq]
  rw [hreg]
  exact ⟨rfl, rfl, h, rfl⟩

/-- Witness of C1: a second plugin named `x` registered after a first one. -/
theorem register_duplicate_rejected_witness :
    (NewRegistry.Register pluginX1).1.Get pluginX2.Name = .ok pluginX1 ∧
    ((NewRegistry.Register pluginX1).1.Register pluginX2).2
      = some ("plugin " ++ pluginX2.Name ++ " already registered") ∧
    ((NewRegistry.Register pluginX1).1.Register pluginX2).1 = (NewRegistry.Register pluginX1).1 ∧
    ((NewRegistry.Register pluginX1).1.Register pluginX2).1.Get pluginX2.Name = .ok pluginX1 ∧
    ((NewRegistry.Register pluginX1).1.Register pluginX2).1.List
      = (NewRegistry.Register pluginX1).1.List :=
  ⟨rfl, register_duplicate_rejected (NewRegistry.Register pluginX1).1 pluginX2 pluginX1 rfl⟩

/-- C2: in a `RefreshEvents` cycle in which every goroutine is waited for, an
instance of the plugin manager whose `FetchEvents` succeeds has, after the cycle,
exactly the fetched list as its cache entry, whatever the cache held before,
whatever the other instances return and in whatever order the tasks finish. -/
theorem refresh_success_replaces_entry (m : Manager) (ctx : Context) (order : List String)
    (id : String) (p : Plugin) (evs : List Event)
    (hdone : m.Completion order)
    (hp : m.pluginManager.GetInstance id = some p)
    (hf : p.FetchEvents ctx = .ok evs) :
    (m.RefreshEvents ctx order).state.eventCache.get id = some evs := by
  have hmem := mem_order_of_completion m order hdone id p hp
  have hp' : (snapshot m.pluginManager).get id = some p := by
    rw [snapshot_eq]; exact hp
  exact runTasks_cache_of_ok _ ctx id p evs hp' hf order _ hmem

/-- Witness of C2: instance `A` succeeds in context 0 while `B` fails. -/
theorem refresh_success_replaces_entry_witness :
    mgrAB.Completion ["B", "A"] ∧
    mgrAB.pluginManager.GetInstance "A"
      = some (testPlugin "test" (fun ctx =>
          if ctx = 0 then .ok [testEvent "e1", testEvent "e2"] else .error "timeout")) ∧
    (mgrAB.RefreshEvents 0 ["B", "A"]).state.eventCache.get "A"
      = some [testEvent "e1", testEvent "e2"] :=
  ⟨by unfold Manager.Completion; decide, rfl,
   refresh_success_replaces_entry mgrAB 0 ["B", "A"] "A" _ _
     (by unfold Manager.Completion; decide) rfl rfl⟩

/-- C3: in a `RefreshEvents` cycle, an instance of the plugin manager whose
`FetchEvents` returns an error keeps the cache entry it had before the cycle;
if it had none, it has none afterwards.  This holds for every order in which
the tasks finish. -/
theorem refresh_failure_keeps_entry (m : Manager) (ctx : Context) (order : List String)
    (id : String) (p : Plugin) (e : Error)
    (hp : m.pluginManager.GetInstance id = some p)
    (hf : p.FetchEvents ctx = .error e) :
    (m.RefreshEvents ctx order).state.eventCache.get id = m.eventCache.get id ∧
    (m.eventCache.get id = none →
      (m.RefreshEvents ctx order).state.eventCache.get id = none) := by
  have hp' : (snapshot m.pluginManager).get id = some p := by
    rw [snapshot_eq]; exact hp
  have h : (m.RefreshEvents ctx order).state.eventCache.get id = m.eventCache.get id :=
    runTasks_cache_of_error _ ctx id p e hp' hf order _
  exact ⟨h, fun hn => h.trans hn⟩

/-- Witness of C3: instance `B` of `mgrAB` fails and keeps its empty entry. -/
theorem refresh_failure_keeps_entry_witness :
    mgrAB.pluginManager.GetInstance "B" = some (testPlugin "test" (fun _ => .error "refused")) ∧
    ((mgrAB.RefreshEvents 0 ["B", "A"]).state.eventCache.get "B" = mgrAB.eventCache.get "B" ∧
     (mgrAB.eventCache.get "B" = none →
      (mgrAB.RefreshEvents 0 ["B", "A"]).state.eventCache.get "B" = none)) :=
  ⟨rfl, refresh_failure_keeps_entry mgrAB 0 ["B", "A"] "B" _ "refused" rfl rfl⟩

/-- The events `GetCalendar` gathers: the cache entries of the listed ids,
appended in the order of the list. -/
theorem foldl_events_eq (cache : GoMap (List Event)) :
    ∀ (ids : List String) (init : List Event),
      ids.foldl (fun allEvents pluginID =>
        match cache.get pluginID with
        | some events => allEvents ++ events
        | none => allEvents) init
      = init ++ (ids.map (fun id => (cache.get id).getD [])).flatten
  | [], init => by simp
  | a :: rest, init => by
    rw [List.foldl_cons, foldl_events_eq cache rest]
    cases h : cache.get a with
    | none => simp [h]
    | some evs => simp [h, List.append_assoc]

theorem getCalendar_value_of_defined (m : Manager) (name : String) (calDef : CalendarDefinition)
    (h : m.calendars.get name = some calDef) :
    (m.GetCalendar name).value = .ok
      { Name := calDef.Name, Description := calDef.Description,
        Events := (calDef.PluginIDs.map (fun id => (m.eventCache.get id).getD [])).flatten } := by
  simp only [Manager.GetCalendar, h, foldl_events_eq, List.nil_append]

theorem getCalendar_value_of_undefined (m : Manager) (name : String)
    (h : m.calendars.get name = none) :
    (m.GetCalendar name).value = .error ("calendar " ++ name ++ " not found") := by
  simp only [Manager.GetCalendar, h]

/-- A task list leaves the cache entry of an id that is not an instance alone. -/
theorem runTasks_cache_of_no_instance (instances : GoMap Plugin) (ctx : Context) (id : String)
    (hp : instances.get id = none) :
    ∀ (order : List String) (s : RefreshState),
      (runTasks instances ctx order s).eventCache.get id = s.eventCache.get id
  | [], s => rfl
  | a :: rest, s => by
    rw [runTasks_cons, runTasks_cache_of_no_instance instances ctx id hp rest _]
    by_cases ha : a = id
    · subst ha
      simp [hp]
    · cases hq : instances.get a with
      | none => rfl
      | some q =>
        simp only [fetchTask]
        cases hg : q.FetchEvents ctx with
        | error e' => rfl
        | ok evs => exact GoMap.get_set_other _ _ _ _ (fun h => ha h.symm)

/-- The cache entry of an id after a cycle in which every goroutine is waited for. -/
theorem refresh_cache_getD (m : Manager) (ctx : Context) (order : List String)
    (hdone : m.Completion order) (id : String) :
    ((m.RefreshEvents ctx order).state.eventCache.get id).getD [] =
      (match m.pluginManager.GetInstance id with
       | some p =>
         (match p.FetchEvents ctx with
          | .ok evs => evs
          | .error _ => (m.eventCache.get id).getD [])
       | none => (m.eventCache.get id).getD []) := by
  cases hp : m.pluginManager.GetInstance id with
  | none =>
    have hp' : (snapshot m.pluginManager).get id = none := by rw [snapshot_eq]; exact hp
    have h : (m.RefreshEvents ctx order).state.eventCache.get id = m.eventCache.get id :=
      runTasks_cache_of_no_instance _ ctx id hp' order _
    simp only [h]
  | some p =>
    have hp' : (snapshot m.pluginManager).get id = some p := by rw [snapshot_eq]; exact hp
    cases hf : p.FetchEvents ctx with
    | error e =>
      have h : (m.RefreshEvents ctx order).state.eventCache.get id = m.eventCache.get id :=
        runTasks_cache_of_error _ ctx id p e hp' hf order _
      simp only [h, hf]
    | ok evs =>
      have h : (m.RefreshEvents ctx order).state.eventCache.get id = some evs :=
        runTasks_cache_of_ok _ ctx id p evs hp' hf order _
          (mem_order_of_completion m order hdone id p hp)
      simp only [h, hf, Option.getD_some]

/-- C4: after a `RefreshEvents` cycle, `GetCalendar` of a defined calendar
returns no error, and its events are, for each id of the definition in turn,
the list fetched in the cycle when that id is an instance whose fetch succeeded
and otherwise the entry cached before the cycle (nothing when there was none).
In particular a calendar over `[A, B]` reads `[e1, e2]` when `A` fetched
`[e1, e2]` and `B` failed with prior entry `[]`; and a calendar over `[A]`
still reads `[e1]` after a second cycle in which `A` failed, when `A` fetched
`[e1]` in the first. -/
theorem read_after_refresh (m : Manager) (ctx : Context) (order : List String)
    (name : String) (calDef : CalendarDefinition)
    (hdone : m.Completion order) (hdef : m.calendars.get name = some calDef) :
    ((m.RefreshEvents ctx order).state.GetCalendar name).value = .ok
      { Name := calDef.Name, Description := calDef.Description,
        Events := (calDef.PluginIDs.map (fun id =>
          match m.pluginManager.GetInstance id with
          | some p =>
            (match p.FetchEvents ctx with
             | .ok evs => evs
             | .error _ => (m.eventCache.get id).getD [])
          | none => (m.eventCache.get id).getD [])).flatten } ∧
    (∀ (A B : String) (pa pb : Plugin) (e1 e2 : Event) (err : Error),
      calDef.PluginIDs = [A, B] →
      m.pluginManager.GetInstance A = some pa → m.pluginManager.GetInstance B = some pb →
      pa.FetchEvents ctx = .ok [e1, e2] → pb.FetchEvents ctx = .error err →
      m.eventCache.get B = some [] →
      ((m.RefreshEvents ctx order).state.GetCalendar name).value = .ok
        { Name := calDef.Name, Description := calDef.Description, Events := [e1, e2] }) ∧
    (∀ (A : String) (pa : Plugin) (e1 : Event) (err : Error) (ctx' : Context)
      (order' : List String),
      calDef.PluginIDs = [A] → m.pluginManager.GetInstance A = some pa →
      pa.FetchEvents ctx = .ok [e1] → pa.FetchEvents ctx' = .error err →
      m.Completion order' →
      (((m.RefreshEvents ctx order).state.RefreshEvents ctx' order').state.GetCalendar
        name).value = .ok
        { Name := calDef.Name, Description := calDef.Description, Events := [e1] }) := by
  have hgen : ∀ (m : Manager) (ctx : Context) (order : List String), m.Completion order →
      m.calendars.get name = some calDef →
      ((m.RefreshEvents ctx order).state.GetCalendar name).value = .ok
        { Name := calDef.Name, Description := calDef.Description,
          Events := (calDef.PluginIDs.map (fun id =>
            match m.pluginManager.GetInstance id with
            | some p =>
              (match p.FetchEvents ctx with
               | .ok evs => evs
               | .error _ => (m.eventCache.get id).getD [])
            | none => (m.eventCache.get id).getD [])).flatten } := by
    intro m ctx order hdone hdef
    have hdef' : (m.RefreshEvents ctx order).state.calendars.get name = some calDef := hdef
    rw [getCalendar_value_of_defined _ name calDef hdef']
    have hfun : (fun id => ((m.RefreshEvents ctx order).state.eventCache.get id).getD []) =
        (fun id =>
          match m.pluginManager.GetInstance id with
          | some p =>
            (match p.FetchEvents ctx with
             | .ok evs => evs
             | .error _ => (m.eventCache.get id).getD [])
          | none => (m.eventCache.get id).getD []) :=
      funext (refresh_cache_getD m ctx order hdone)
    rw [hfun]
  refine ⟨hgen m ctx order hdone hdef, ?_, ?_⟩
  · intro A B pa pb e1 e2 err hids hA hB hfa hfb hcb
    rw [hgen m ctx order hdone hdef, hids]
    simp [hA, hB, hfa, hfb, hcb]
  · intro A pa e1 err ctx' order' hids hA hfa hfa' hdone'
    have hA1 : (m.RefreshEvents ctx order).state.pluginManager.GetInstance A = some pa := hA
    have hc : (m.RefreshEvents ctx order).state.eventCache.get A = some [e1] :=
      runTasks_cache_of_ok _ ctx A pa [e1] (by rw [snapshot_eq]; exact hA) hfa order _
        (mem_order_of_completion m order hdone A pa hA)
    rw [hgen (m.RefreshEvents ctx order).state ctx' order' hdone' hdef, hids]
    simp [hA1, hfa', hc]

/-- Witness of C4: the calendar `C` of `mgrAB` over `[A, B]`, where `A` fetches
two events and `B` fails with an empty prior entry; and the calendar `C` of
`mgrA` over `[A]`, where `A` fetches one event in a first cycle and fails in
the second. -/
theorem read_after_refresh_witness :
    (mgrAB.Completion ["B", "A"] ∧
     mgrAB.calendars.get "C"
       = some { Name := "C", Description := "both", PluginIDs := ["A", "B"] } ∧
     ((mgrAB.RefreshEvents 0 ["B", "A"]).state.GetCalendar "C").value = .ok
       { Name := "C", Description := "both", Events := [testEvent "e1", testEvent "e2"] }) ∧
    (mgrA.Completion ["A"] ∧
     mgrA.calendars.get "C" = some { Name := "C", Description := "one", PluginIDs := ["A"] } ∧
     (((mgrA.RefreshEvents 0 ["A"]).state.RefreshEvents 1 ["A"]).state.GetCalendar "C").value
       = .ok { Name := "C", Description := "one", Events := [testEvent "e1"] }) :=
  ⟨⟨by unfold Manager.Completion; decide, by decide,
    (read_after_refresh mgrAB 0 ["B", "A"] "C"
      { Name := "C", Description := "both", PluginIDs := ["A", "B"] }
      (by unfold Manager.Completion; decide) (by decide)).2.1 "A" "B" _ _
      (testEvent "e1") (testEvent "e2") "refused" rfl rfl rfl rfl rfl (by decide)⟩,
   ⟨by unfold Manager.Completion; decide, by decide,
    (read_after_refresh mgrA 0 ["A"] "C"
      { Name := "C", Description := "one", PluginIDs := ["A"] }
      (by unfold Manager.Completion; decide) (by decide)).2.2 "A" _
      (testEvent "e1") "timeout" 1 ["A"] rfl rfl rfl rfl
      (by unfold Manager.Completion; decide)⟩⟩

/-- The messages on `errChan` after the tasks have run. -/
theorem runTasks_errChan (instances : GoMap Plugin) (ctx : Context) :
    ∀ (order : List String) (s : RefreshState),
      (runTasks instances ctx order s).errChan =
        s.errChan ++ order.filterMap (fun id =>
          match instances.get id with
          | some p =>
            (match p.FetchEvents ctx with
             | .error err => some ("plugin " ++ id ++ ": " ++ err)
             | .ok _ => none)
          | none => none)
  | [], s => by simp [runTasks_nil]
  | a :: rest, s => by
    rw [runTasks_cons, runTasks_errChan instances ctx rest]
    cases hp : instances.get a with
    | none => simp [hp]
    | some p =>
      cases hf : p.FetchEvents ctx with
      | error e => simp [hp, hf, fetchTask]
      | ok evs => simp [hp, hf, fetchTask]

theorem refreshErrs_eq (m : Manager) (ctx : Context) (order : List String) :
    m.refreshErrs ctx order = order.filterMap (m.fetchError ctx) := by
  unfold Manager.refreshErrs
  rw [drain_eq, runTasks_errChan, snapshot_eq]
  rfl

theorem refresh_value_eq (m : Manager) (ctx : Context) (order : List String) :
    (m.RefreshEvents ctx order).value = (m.refreshErrs ctx order).head? := by
  show (if (m.refreshErrs ctx order).length > 0 then (m.refreshErrs ctx order).head? else none)
    = (m.refreshErrs ctx order).head?
  cases m.refreshErrs ctx order with
  | nil => rfl
  | cons e rest => simp

/-- C5, as the code has it: `RefreshEvents` collects the wrapped error of every
instance whose fetch failed in the cycle, one per failed instance and in the
order in which the tasks finish, but what it returns is only the first of the
collected errors (nothing when none was collected). -/
theorem refresh_returns_first_collected_error (m : Manager) (ctx : Context)
    (order : List String) (hdone : m.Completion order) :
    m.refreshErrs ctx order = order.filterMap (m.fetchError ctx) ∧
    (m.refreshErrs ctx order).Perm
      (m.pluginManager.instances.keys.filterMap (m.fetchError ctx)) ∧
    (m.RefreshEvents ctx order).value = (m.refreshErrs ctx order).head? := by
  refine ⟨refreshErrs_eq m ctx order, ?_, refresh_value_eq m ctx order⟩
  rw [refreshErrs_eq]
  unfold Manager.Completion at hdone
  rw [snapshot_eq] at hdone
  exact hdone.filterMap _

/-- Witness of C5 as amended: both instances of `mgrAB` fail in context 1. -/
theorem refresh_returns_first_collected_error_witness :
    mgrAB.Completion ["A", "B"] ∧
    (mgrAB.refreshErrs 1 ["A", "B"] = ["A", "B"].filterMap (mgrAB.fetchError 1) ∧
     (mgrAB.refreshErrs 1 ["A", "B"]).Perm
       (mgrAB.pluginManager.instances.keys.filterMap (mgrAB.fetchError 1)) ∧
     (mgrAB.RefreshEvents 1 ["A", "B"]).value = (mgrAB.refreshErrs 1 ["A", "B"]).head?) :=
  ⟨by unfold Manager.Completion; decide,
   refresh_returns_first_collected_error mgrAB 1 ["A", "B"]
     (by unfold Manager.Completion; decide)⟩

/-- C5 fails as stated: in context 1 both instances of `mgrAB` fail, `A` with
"timeout" and `B` with "refused"; when `A` finishes first the value returned is
"plugin A: timeout", in which the error of `B` does not occur. -/
theorem refresh_drops_later_errors :
    mgrAB.Completion ["A", "B"] ∧
    (∃ pa, mgrAB.pluginManager.GetInstance "A" = some pa ∧
      pa.FetchEvents 1 = .error "timeout") ∧
    (∃ pb, mgrAB.pluginManager.GetInstance "B" = some pb ∧
      pb.FetchEvents 1 = .error "refused") ∧
    (mgrAB.RefreshEvents 1 ["A", "B"]).value = some "plugin A: timeout" ∧
    ¬ Carries (mgrAB.RefreshEvents 1 ["A", "B"]).value "refused" := by
  refine ⟨by unfold Manager.Completion; decide, ⟨_, rfl, rfl⟩, ⟨_, rfl, rfl⟩, by decide, ?_⟩
  rintro ⟨r, hr, hin⟩
  have hv : (mgrAB.RefreshEvents 1 ["A", "B"]).value = some "plugin A: timeout" := by decide
  rw [hv] at hr
  cases hr
  exact absurd hin (by decide)

theorem getCalendar_state (m : Manager) (name : String) : (m.GetCalendar name).state = m := by
  unfold Manager.GetCalendar
  cases m.calendars.get name <;> rfl

theorem getCalendar_fetched (m : Manager) (name : String) :
    (m.GetCalendar name).fetched = [] := by
  unfold Manager.GetCalendar
  cases m.calendars.get name <;> rfl

theorem getCalendar_error_iff (m : Manager) (name : String) :
    (∃ e, (m.GetCalendar name).value = .error e) ↔ m.calendars.get name = none := by
  constructor
  · rintro ⟨e, he⟩
    cases h : m.calendars.get name with
    | none => rfl
    | some calDef =>
      rw [getCalendar_value_of_defined m name calDef h] at he
      cases he
  · intro h
    exact ⟨_, getCalendar_value_of_undefined m name h⟩

theorem getCalendar_ok_iff (m : Manager) (name : String) :
    (∃ cal, (m.GetCalendar name).value = .ok cal) ↔ ∃ calDef, m.calendars.get name = some calDef := by
  constructor
  · rintro ⟨cal, hc⟩
    cases h : m.calendars.get name with
    | none =>
      rw [getCalendar_value_of_undefined m name h] at hc
      cases hc
    | some calDef => exact ⟨calDef, rfl⟩
  · rintro ⟨calDef, h⟩
    exact ⟨_, getCalendar_value_of_defined m name calDef h⟩

theorem step_calendars (m : Manager) (op : Op) :
    (m.step op).calendars =
      (match op with
       | .addCalendar cal => m.calendars.set cal.Name cal
       | _ => m.calendars) := by
  cases op with
  | addCalendar cal => rfl
  | getCalendar name => simp only [Manager.step, getCalendar_state]
  | listCalendars => rfl
  | refreshEvents ctx order => rfl

/-- A name is defined after a run of operations when it was defined before or
one of the operations is an `AddCalendar` of a definition with that name. -/
theorem foldl_step_defined (name : String) :
    ∀ (ops : List Op) (m : Manager),
      ((ops.foldl Manager.step m).calendars.get name = none) ↔
        (m.calendars.get name = none ∧ ∀ cal, Op.addCalendar cal ∈ ops → cal.Name ≠ name)
  | [], m => by simp
  | op :: rest, m => by
    rw [List.foldl_cons, foldl_step_defined name rest (m.step op), step_calendars]
    cases op with
    | addCalendar cal =>
      by_cases hn : name = cal.Name
      · subst hn
        simp [GoMap.get_set_same]
      · have hne : cal.Name ≠ name := fun h => hn h.symm
        simp only [GoMap.get_set_other _ _ _ _ hn, List.mem_cons, Op.addCalendar.injEq]
        constructor
        · rintro ⟨h1, h2⟩
          refine ⟨h1, ?_⟩
          intro c hc
          rcases hc with hc | hc
          · rw [hc]; exact hne
          · exact h2 c hc
        · rintro ⟨h1, h2⟩
          exact ⟨h1, fun c hc => h2 c (Or.inr hc)⟩
    | getCalendar n => simp
    | listCalendars => simp
    | refreshEvents ctx order => simp

/-- C6: `GetCalendar name` returns an error exactly when the catalog has no
definition under `name`, and the error is "calendar NAME not found"; it returns
a calendar and no error exactly when there is a definition, whatever the event
cache and the instance table hold.  For a manager made by `NewManager` and any
run of operations on it, the error is returned exactly when no `AddCalendar`
of that name is among the operations. -/
theorem getCalendar_error_iff_not_added :
    (∀ (m : Manager) (name : String),
      ((∃ e, (m.GetCalendar name).value = .error e) ↔ m.calendars.get name = none) ∧
      (m.calendars.get name = none →
        (m.GetCalendar name).value = .error ("calendar " ++ name ++ " not found")) ∧
      ((∃ cal, (m.GetCalendar name).value = .ok cal) ↔
        ∃ calDef, m.calendars.get name = some calDef)) ∧
    (∀ (pm : PluginManager) (ops : List Op) (name : String),
      (∃ e, ((ops.foldl Manager.step (NewManager pm)).GetCalendar name).value = .error e) ↔
        ∀ cal, Op.addCalendar cal ∈ ops → cal.Name ≠ name) := by
  refine ⟨fun m name => ⟨getCalendar_error_iff m name,
    getCalendar_value_of_undefined m name, getCalendar_ok_iff m name⟩, ?_⟩
  intro pm ops name
  rw [getCalendar_error_iff, foldl_step_defined]
  constructor
  · exact fun h => h.2
  · exact fun h => ⟨rfl, h⟩

/-- C7: for a defined name, `GetCalendar` returns the calendar whose Name and
Description are those of the definition and whose Events are the cache entries
of the ids of `PluginIDs`, appended in the order of that list; an id without a
cache entry contributes nothing, an id listed twice contributes twice. -/
theorem getCalendar_concatenates_in_list_order (m : Manager) (name : String)
    (calDef : CalendarDefinition) (hdef : m.calendars.get name = some calDef) :
    (m.GetCalendar name).value = .ok
      { Name := calDef.Name, Description := calDef.Description,
        Events := (calDef.PluginIDs.map (fun id => (m.eventCache.get id).getD [])).flatten } :=
  getCalendar_value_of_defined m name calDef hdef

/-- Witness of C7: a calendar over `[B, A, Z, A]`, where `Z` has no entry. -/
theorem getCalendar_concatenates_in_list_order_witness :
    mgrTwice.calendars.get "twice"
      = some { Name := "twice", Description := "", PluginIDs := ["B", "A", "Z", "A"] } ∧
    (mgrTwice.GetCalendar "twice").value = .ok
      { Name := "twice", Description := "",
        Events := [testEvent "b1", testEvent "b2", testEvent "a1", testEvent "a1"] } :=
  ⟨by decide, getCalendar_concatenates_in_list_order mgrTwice "twice"
    { Name := "twice", Description := "", PluginIDs := ["B", "A", "Z", "A"] } (by decide)⟩

/-- C8: `GetCalendar` is read-only: for every state and every name the manager
is the same after the call as before it (catalog, event cache and instance
table), and the call makes no call of `FetchEvents`. -/
theorem getCalendar_read_only (m : Manager) (name : String) :
    (m.GetCalendar name).state = m ∧
    (m.GetCalendar name).state.calendars = m.calendars ∧
    (m.GetCalendar name).state.eventCache = m.eventCache ∧
    (m.GetCalendar name).state.pluginManager = m.pluginManager ∧
    (m.GetCalendar name).fetched = [] := by
  rw [getCalendar_state]
  exact ⟨rfl, rfl, rfl, rfl, getCalendar_fetched m name⟩

/-- What `GetCalendar` returns does not depend on the layout of the catalog
and of the event cache. -/
theorem getCalendar_value_of_sameMap (m m' : Manager) (name : String)
    (hc : m.calendars.SameMap m'.calendars) (he : m.eventCache.SameMap m'.eventCache) :
    (m.GetCalendar name).value = (m'.GetCalendar name).value := by
  have hget : m.calendars.get name = m'.calendars.get name := hc.get_eq name
  have hfun : (fun id => (m.eventCache.get id).getD []) =
      (fun id => (m'.eventCache.get id).getD []) :=
    funext (fun id => by rw [he.get_eq id])
  cases h : m.calendars.get name with
  | none =>
    rw [getCalendar_value_of_undefined m name h,
      getCalendar_value_of_undefined m' name (hget ▸ h)]
  | some calDef =>
    rw [getCalendar_value_of_defined m name calDef h,
      getCalendar_value_of_defined m' name calDef (hget ▸ h), hfun]

/-- C9, as the code has it: the order in which `GetCalendar` appends the event
lists of the instances is fixed by the state: it is the order of the list
`PluginIDs` of the definition, and the keyed structures are only looked up, not
ranged over.  Two calls on one state, whatever the layout of its maps, return
the same events in the same order. -/
theorem getCalendar_order_is_determined (m m' : Manager) (name : String)
    (hc : m.calendars.SameMap m'.calendars) (he : m.eventCache.SameMap m'.eventCache) :
    (m.GetCalendar name).value = (m'.GetCalendar name).value ∧
    (∀ calDef, m.calendars.get name = some calDef →
      (m'.GetCalendar name).value = .ok
        { Name := calDef.Name, Description := calDef.Description,
          Events := (calDef.PluginIDs.map (fun id => (m.eventCache.get id).getD [])).flatten }) := by
  have h := getCalendar_value_of_sameMap m m' name hc he
  exact ⟨h, fun calDef hdef => h ▸ getCalendar_value_of_defined m name calDef hdef⟩

/-- Witness of C9 as amended: one state with its cache laid out `A, B` and
`B, A`; the calendar over `[A, B]` reads `A` first in both. -/
theorem getCalendar_order_is_determined_witness :
    mgrCacheAB.calendars.SameMap mgrCacheBA.calendars ∧
    mgrCacheAB.eventCache.SameMap mgrCacheBA.eventCache ∧
    (mgrCacheAB.GetCalendar "C").value = (mgrCacheBA.GetCalendar "C").value ∧
    (mgrCacheBA.GetCalendar "C").value = .ok
      { Name := "C", Description := "both",
        Events := [testEvent "a1", testEvent "b1", testEvent "b2"] } :=
  ⟨by unfold GoMap.SameMap; decide, by unfold GoMap.SameMap; decide,
   (getCalendar_order_is_determined mgrCacheAB mgrCacheBA "C"
     (by unfold GoMap.SameMap; decide) (by unfold GoMap.SameMap; decide)).1,
   (getCalendar_order_is_determined mgrCacheAB mgrCacheBA "C"
     (by unfold GoMap.SameMap; decide) (by unfold GoMap.SameMap; decide)).2
     { Name := "C", Description := "both", PluginIDs := ["A", "B"] } (by decide)⟩

/-- C9 fails as stated: there is no state and name for which two calls of
`GetCalendar`, on any two layouts of the maps of that state, return different
values. -/
theorem getCalendar_order_never_differs :
    ¬ ∃ (m m' : Manager) (name : String),
      m.calendars.SameMap m'.calendars ∧ m.eventCache.SameMap m'.eventCache ∧
      m.pluginManager.instances.SameMap m'.pluginManager.instances ∧
      (m.GetCalendar name).value ≠ (m'.GetCalendar name).value := by
  rintro ⟨m, m', name, hc, he, _, hne⟩
  exact hne (getCalendar_value_of_sameMap m m' name hc he)

/-- The cache entry of an id after the tasks have run: the entry it had, or the
list fetched by its own task. -/
theorem runTasks_cache_cases (instances : GoMap Plugin) (ctx : Context) (id : String)
    (order : List String) (s : RefreshState) :
    (runTasks instances ctx order s).eventCache.get id = s.eventCache.get id ∨
    ∃ p evs, id ∈ order ∧ instances.get id = some p ∧ p.FetchEvents ctx = .ok evs ∧
      (runTasks instances ctx order s).eventCache.get id = some evs := by
  by_cases hmem : id ∈ order
  · cases hp : instances.get id with
    | none => exact Or.inl (runTasks_cache_of_no_instance instances ctx id hp order s)
    | some p =>
      cases hf : p.FetchEvents ctx with
      | error e => exact Or.inl (runTasks_cache_of_error instances ctx id p e hp hf order s)
      | ok evs =>
        exact Or.inr ⟨p, evs, hmem, rfl, hf,
          runTasks_cache_of_ok instances ctx id p evs hp hf order s hmem⟩
  · exact Or.inl (runTasks_cache_other instances ctx id order s hmem)

theorem step_cache_cases (m : Manager) (op : Op) (id : String) :
    (m.step op).eventCache.get id = m.eventCache.get id ∨
    ∃ ctx order p evs, op = .refreshEvents ctx order ∧ id ∈ order ∧
      m.pluginManager.GetInstance id = some p ∧ p.FetchEvents ctx = .ok evs ∧
      (m.step op).eventCache.get id = some evs := by
  cases op with
  | addCalendar cal => exact Or.inl rfl
  | getCalendar name =>
    left
    simp only [Manager.step, getCalendar_state]
  | listCalendars => exact Or.inl rfl
  | refreshEvents ctx order =>
    rcases runTasks_cache_cases (snapshot m.pluginManager) ctx id order
      { eventCache := m.eventCache, errChan := [], fetched := [] } with h | ⟨p, evs, h1, h2, h3, h4⟩
    · exact Or.inl h
    · rw [snapshot_eq] at h2
      exact Or.inr ⟨ctx, order, p, evs, rfl, h1, h2, h3, h4⟩

/-- C10: no operation of the manager (AddCalendar, GetCalendar, ListCalendars,
RefreshEvents) deletes a cache entry: an id with an entry before the operation
has one after it.  An id without an entry has one after the operation only if
the operation is a `RefreshEvents` cycle in which the task of that id ran, the
id is an instance and its fetch succeeded; the new entry is the fetched list. -/
theorem cache_entries_never_deleted (m : Manager) (op : Op) (id : String) :
    ((m.eventCache.get id).isSome = true → ((m.step op).eventCache.get id).isSome = true) ∧
    (m.eventCache.get id = none → ((m.step op).eventCache.get id).isSome = true →
      ∃ ctx order p evs, op = .refreshEvents ctx order ∧ id ∈ order ∧
        m.pluginManager.GetInstance id = some p ∧ p.FetchEvents ctx = .ok evs ∧
        (m.step op).eventCache.get id = some evs) := by
  rcases step_cache_cases m op id with h | ⟨ctx, order, p, evs, h1, h2, h3, h4, h5⟩
  · refine ⟨fun hs => h ▸ hs, ?_⟩
    intro hn hs
    rw [h, hn] at hs
    cases hs
  · refine ⟨fun _ => ?_, fun _ _ => ⟨ctx, order, p, evs, h1, h2, h3, h4, h5⟩⟩
    rw [h5]; rfl

/-! ### Registry, instance table and catalog -/

theorem registry_get_error_iff (r : Registry) (name : String) :
    r.Get name = .error ("plugin " ++ name ++ " not found") ↔ r.plugins.get name = none := by
  unfold Registry.Get
  cases h : r.plugins.get name with
  | none => simp
  | some q => simp

theorem register_get_none_iff (r : Registry) (p : Plugin) (name : String) :
    (r.Register p).1.plugins.get name = none ↔
      (r.plugins.get name = none ∧ p.Name ≠ name) := by
  cases h : r.plugins.get p.Name with
  | some q =>
    have hreg : (r.Register p).1 = r := by simp [Registry.Register, h]
    rw [hreg]
    constructor
    · intro hn
      refine ⟨hn, fun e => ?_⟩
      rw [e, hn] at h
      cases h
    · exact fun hn => hn.1
  | none =>
    have hreg : (r.Register p).1 = ⟨r.plugins.set p.Name p⟩ := by
      simp [Registry.Register, h]
    rw [hreg]
    by_cases e : name = p.Name
    · subst e
      simp [GoMap.get_set_same]
    · have e' : p.Name ≠ name := fun x => e x.symm
      simp [GoMap.get_set_other _ _ _ _ e, e']

theorem registerAll_get_none_iff (name : String) :
    ∀ (ps : List Plugin) (r : Registry),
      (registerAll ps r).plugins.get name = none ↔
        (r.plugins.get name = none ∧ ∀ p ∈ ps, p.Name ≠ name)
  | [], r => by simp [registerAll]
  | p :: rest, r => by
    have ih := registerAll_get_none_iff name rest (r.Register p).1
    have hstep : registerAll (p :: rest) r = registerAll rest (r.Register p).1 := rfl
    rw [hstep, ih, register_get_none_iff]
    simp only [List.mem_cons, forall_eq_or_imp, and_assoc]

/-- The first element of a list with a given property splits the list. -/
theorem exists_first_split {α : Type} (P : α → Prop) :
    ∀ (l : List α), (∃ x ∈ l, P x) →
      ∃ pre x suf, l = pre ++ x :: suf ∧ P x ∧ ∀ y ∈ pre, ¬ P y
  | [], h => by
    obtain ⟨x, hx, _⟩ := h
    cases hx
  | a :: rest, h => by
    by_cases ha : P a
    · exact ⟨[], a, rest, rfl, ha, fun y hy => by cases hy⟩
    · have h' : ∃ x ∈ rest, P x := by
        obtain ⟨x, hx, hp⟩ := h
        rcases List.mem_cons.mp hx with e | hmem
        · exact absurd (e ▸ hp) ha
        · exact ⟨x, hmem, hp⟩
      obtain ⟨pre, x, suf, hl, hp, hpre⟩ := exists_first_split P rest h'
      refine ⟨a :: pre, x, suf, by rw [hl]; rfl, hp, ?_⟩
      intro y hy
      rcases List.mem_cons.mp hy with e | hmem
      · exact e ▸ ha
      · exact hpre y hmem

/-- C11: `Register p` under a name that is not yet present returns no error;
afterwards `Get` of that name returns `p` and `Get` of every other name returns
what it returned before.  For a registry made by `NewRegistry` and any run of
`Register` calls, `Get name` returns the not-found error exactly when no call
of the run under that name returned without error. -/
theorem register_fresh_then_get (r : Registry) (p : Plugin)
    (hfresh : r.Get p.Name = .error ("plugin " ++ p.Name ++ " not found")) :
    (r.Register p).2 = none ∧
    (r.Register p).1.Get p.Name = .ok p ∧
    (∀ name, name ≠ p.Name → (r.Register p).1.Get name = r.Get name) ∧
    (∀ (ps : List Plugin) (name : String),
      (registerAll ps NewRegistry).Get name = .error ("plugin " ++ name ++ " not found") ↔
        ¬ ∃ pre q suf, ps = pre ++ q :: suf ∧ q.Name = name ∧
            ((registerAll pre NewRegistry).Register q).2 = none) := by
  have hnone : r.plugins.get p.Name = none := (registry_get_error_iff r p.Name).mp hfresh
  have hreg : r.Register p = (⟨r.plugins.set p.Name p⟩, none) := by
    simp [Registry.Register, hnone]
  refine ⟨by rw [hreg], ?_, ?_, ?_⟩
  · rw [hreg]
    simp [Registry.Get, GoMap.get_set_same]
  · intro name hne
    rw [hreg]
    simp [Registry.Get, GoMap.get_set_other _ _ _ _ hne]
  · intro ps name
    rw [registry_get_error_iff, registerAll_get_none_iff]
    constructor
    · rintro ⟨_, hall⟩ ⟨pre, q, suf, hps, hq, _⟩
      exact hall q (by rw [hps]; simp) hq
    · intro hno
      refine ⟨rfl, ?_⟩
      intro q hq hname
      obtain ⟨pre, x, suf, hl, hx, hpre⟩ :=
        exists_first_split (fun y : Plugin => y.Name = name) ps ⟨q, hq, hname⟩
      apply hno
      refine ⟨pre, x, suf, hl, hx, ?_⟩
      have hget : (registerAll pre NewRegistry).plugins.get x.Name = none := by
        rw [hx]
        exact (registerAll_get_none_iff name pre NewRegistry).mpr ⟨rfl, hpre⟩
      simp [Registry.Register, hget]

/-- Witness of C11: the plugin `pluginX1` registered in a new registry. -/
theorem register_fresh_then_get_witness :
    NewRegistry.Get pluginX1.Name = .error ("plugin " ++ pluginX1.Name ++ " not found") ∧
    (NewRegistry.Register pluginX1).2 = none ∧
    (NewRegistry.Register pluginX1).1.Get pluginX1.Name = .ok pluginX1 :=
  ⟨rfl, (register_fresh_then_get NewRegistry pluginX1 rfl).1,
   (register_fresh_then_get NewRegistry pluginX1 rfl).2.1⟩

theorem addInstances_get_none_iff (j : String) :
    ∀ (adds : List (String × Plugin)) (pm : PluginManager),
      (addInstances adds pm).GetInstance j = none ↔
        (pm.GetInstance j = none ∧ ∀ e ∈ adds, e.1 ≠ j)
  | [], pm => by simp [addInstances]
  | e :: rest, pm => by
    have ih := addInstances_get_none_iff j rest (pm.AddInstance e.1 e.2)
    have hstep : addInstances (e :: rest) pm = addInstances rest (pm.AddInstance e.1 e.2) := rfl
    rw [hstep, ih]
    by_cases hj : j = e.1
    · subst hj
      simp [PluginManager.GetInstance, PluginManager.AddInstance, GoMap.get_set_same]
    · have hj' : e.1 ≠ j := fun x => hj x.symm
      simp [PluginManager.GetInstance, PluginManager.AddInstance,
        GoMap.get_set_other _ _ _ _ hj, hj']

theorem addInstances_get_of_not_mem (j : String) :
    ∀ (adds : List (String × Plugin)) (pm : PluginManager), (∀ e ∈ adds, e.1 ≠ j) →
      (addInstances adds pm).GetInstance j = pm.GetInstance j
  | [], pm, _ => rfl
  | e :: rest, pm, h => by
    have hstep : addInstances (e :: rest) pm = addInstances rest (pm.AddInstance e.1 e.2) := rfl
    have he : j ≠ e.1 := fun x => h e (List.mem_cons_self _ _) x.symm
    rw [hstep, addInstances_get_of_not_mem j rest _ (fun x hx => h x (List.mem_cons_of_mem _ hx))]
    exact GoMap.get_set_other _ _ _ _ he

theorem addInstances_append (xs ys : List (String × Plugin)) (pm : PluginManager) :
    addInstances (xs ++ ys) pm = addInstances ys (addInstances xs pm) := by
  simp [addInstances, List.foldl_append]

/-- C12: after `AddInstance id p`, bound or not bound before, `GetInstance id`
returns `p` and `GetInstance` of every other id returns what it returned
before.  In a plugin manager made by `NewPluginManager` and any run of
`AddInstance` calls, `GetInstance` of an id returns not-found exactly when the
id was never added, and otherwise the one instance added last under that id. -/
theorem addInstance_then_getInstance (pm : PluginManager) (id : String) (p : Plugin) :
    (pm.AddInstance id p).GetInstance id = some p ∧
    (∀ j, j ≠ id → (pm.AddInstance id p).GetInstance j = pm.GetInstance j) ∧
    (∀ (adds : List (String × Plugin)) (j : String),
      (addInstances adds NewPluginManager).GetInstance j = none ↔ ∀ e ∈ adds, e.1 ≠ j) ∧
    (∀ (before after : List (String × Plugin)) (q : Plugin), (∀ e ∈ after, e.1 ≠ id) →
      (addInstances (before ++ (id, q) :: after) pm).GetInstance id = some q) := by
  refine ⟨GoMap.get_set_same _ _ _, fun j hj => GoMap.get_set_other _ _ _ _ hj, ?_, ?_⟩
  · intro adds j
    rw [addInstances_get_none_iff]
    constructor
    · exact fun h => h.2
    · exact fun h => ⟨rfl, h⟩
  · intro before after q hafter
    rw [addInstances_append]
    have hstep : addInstances ((id, q) :: after) (addInstances before pm)
        = addInstances after ((addInstances before pm).AddInstance id q) := rfl
    rw [hstep, addInstances_get_of_not_mem id after _ hafter]
    exact GoMap.get_set_same _ _ _

theorem foldl_names_eq {V : Type} :
    ∀ (l : List (String × V)) (acc : List String),
      l.foldl (fun names e => names ++ [e.1]) acc = acc ++ l.map Prod.fst
  | [], acc => by simp
  | e :: rest, acc => by
    rw [List.foldl_cons, foldl_names_eq rest]
    simp

theorem listCalendars_value (m : Manager) : m.ListCalendars.value = m.calendars.keys := by
  simp [Manager.ListCalendars, foldl_names_eq, GoMap.keys]

theorem addCalendars_get_none_iff (name : String) :
    ∀ (cals : List CalendarDefinition) (m : Manager),
      (addCalendars cals m).calendars.get name = none ↔
        (m.calendars.get name = none ∧ ∀ c ∈ cals, c.Name ≠ name)
  | [], m => by simp [addCalendars]
  | c :: rest, m => by
    have ih := addCalendars_get_none_iff name rest (m.AddCalendar c).state
    have hstep : addCalendars (c :: rest) m = addCalendars rest (m.AddCalendar c).state := rfl
    rw [hstep, ih]
    by_cases hn : name = c.Name
    · subst hn
      simp [Manager.AddCalendar, GoMap.get_set_same]
    · have hn' : c.Name ≠ name := fun x => hn x.symm
      simp [Manager.AddCalendar, GoMap.get_set_other _ _ _ _ hn, hn']

theorem mem_keys_iff_get_ne_none {V : Type} (m : GoMap V) (k : String) :
    k ∈ m.keys ↔ m.get k ≠ none := by
  rw [← GoMap.get_isSome_iff]
  cases m.get k <;> simp

/-- C13: after any run of `AddCalendar` calls on a new manager, the list that
`ListCalendars` returns has no duplicates and its elements are exactly the
names of the definitions added; in another layout of the catalog the list is a
permutation of it.  `AddCalendar` under a name that is already defined
leaves the list of names as it is, and after `AddCalendar cal` the catalog
holds `cal` under its name and `GetCalendar` of that name is built from `cal`. -/
theorem listCalendars_lists_added_names :
    (∀ (pm : PluginManager) (cals : List CalendarDefinition),
      (addCalendars cals (NewManager pm)).ListCalendars.value.Nodup ∧
      ∀ s, s ∈ (addCalendars cals (NewManager pm)).ListCalendars.value ↔
        ∃ c ∈ cals, c.Name = s) ∧
    (∀ (m m' : Manager), m.calendars.SameMap m'.calendars →
      m.ListCalendars.value.Perm m'.ListCalendars.value) ∧
    (∀ (m : Manager) (cal old : CalendarDefinition), m.calendars.get cal.Name = some old →
      (m.AddCalendar cal).state.ListCalendars.value = m.ListCalendars.value) ∧
    (∀ (m : Manager) (cal : CalendarDefinition),
      (m.AddCalendar cal).state.calendars.get cal.Name = some cal ∧
      ((m.AddCalendar cal).state.GetCalendar cal.Name).value = .ok
        { Name := cal.Name, Description := cal.Description,
          Events := (cal.PluginIDs.map (fun id => (m.eventCache.get id).getD [])).flatten }) := by
  refine ⟨?_, ?_, ?_, ?_⟩
  · intro pm cals
    rw [listCalendars_value]
    refine ⟨(addCalendars cals (NewManager pm)).calendars.nodup, ?_⟩
    intro s
    rw [mem_keys_iff_get_ne_none, Ne, addCalendars_get_none_iff]
    constructor
    · intro h
      by_contra hno
      apply h
      refine ⟨rfl, fun c hc hname => hno ⟨c, hc, hname⟩⟩
    · rintro ⟨c, hc, hname⟩ ⟨_, hall⟩
      exact hall c hc hname
  · intro m m' h
    rw [listCalendars_value, listCalendars_value]
    exact h.map Prod.fst
  · intro m cal old hold
    rw [listCalendars_value, listCalendars_value]
    have hmem : cal.Name ∈ m.calendars.entries.map Prod.fst :=
      (GoMap.get_isSome_iff m.calendars cal.Name).mp (by rw [hold]; rfl)
    exact assocSet_keys_of_mem cal.Name cal m.calendars.entries hmem
  · intro m cal
    have hget : (m.AddCalendar cal).state.calendars.get cal.Name = some cal :=
      GoMap.get_set_same _ _ _
    exact ⟨hget, getCalendar_value_of_defined _ cal.Name cal hget⟩

/-! ### What `RefreshEvents` returns -/

theorem fetchError_eq_none_iff (m : Manager) (ctx : Context) (id : String) (p : Plugin)
    (hp : m.pluginManager.GetInstance id = some p) :
    m.fetchError ctx id = none ↔ ∃ evs, p.FetchEvents ctx = .ok evs := by
  cases hf : p.FetchEvents ctx with
  | error err => simp [Manager.fetchError, hp, hf]
  | ok evs => simp [Manager.fetchError, hp, hf]

theorem fetchError_eq_some (m : Manager) (ctx : Context) (id : String) (e : Error)
    (h : m.fetchError ctx id = some e) :
    ∃ p err, m.pluginManager.GetInstance id = some p ∧ p.FetchEvents ctx = .error err ∧
      e = "plugin " ++ id ++ ": " ++ err := by
  cases hp : m.pluginManager.GetInstance id with
  | none => simp [Manager.fetchError, hp] at h
  | some p =>
    cases hf : p.FetchEvents ctx with
    | ok evs => simp [Manager.fetchError, hp, hf] at h
    | error err =>
      simp only [Manager.fetchError, hp, hf, Option.some.injEq] at h
      exact ⟨p, err, rfl, hf, h.symm⟩

theorem head?_filterMap_eq_none_iff {α β : Type} (f : α → Option β) :
    ∀ (l : List α), (l.filterMap f).head? = none ↔ ∀ x ∈ l, f x = none
  | [] => by simp
  | a :: rest => by
    cases h : f a with
    | none =>
      simp [List.filterMap_cons, h, head?_filterMap_eq_none_iff f rest]
    | some b =>
      simp [List.filterMap_cons, h]

theorem head?_filterMap_eq_some {α β : Type} (f : α → Option β) (b : β) :
    ∀ (l : List α), (l.filterMap f).head? = some b → ∃ x ∈ l, f x = some b
  | [], h => by simp at h
  | a :: rest, h => by
    cases hfa : f a with
    | none =>
      rw [List.filterMap_cons, hfa] at h
      obtain ⟨x, hx, hfx⟩ := head?_filterMap_eq_some f b rest h
      exact ⟨x, List.mem_cons_of_mem _ hx, hfx⟩
    | some c =>
      rw [List.filterMap_cons, hfa] at h
      simp only [List.head?_cons, Option.some.injEq] at h
      exact ⟨a, List.mem_cons_self _ _, by rw [hfa, h]⟩

/-- C20: in a cycle in which every goroutine is waited for, `RefreshEvents`
returns no error exactly when the fetch of every instance succeeded, so also
when there is no instance.  An error it returns is the error of an instance
whose fetch failed, wrapped as "plugin ID: ERROR" with the id of that
instance; it returns one whenever a fetch failed.  Whatever it returns, every
instance whose fetch succeeded has the fetched list as its cache entry. -/
theorem refresh_returns_nil_iff_all_succeed (m : Manager) (ctx : Context)
    (order : List String) (hdone : m.Completion order) :
    ((m.RefreshEvents ctx order).value = none ↔
      ∀ id p, m.pluginManager.GetInstance id = some p → ∃ evs, p.FetchEvents ctx = .ok evs) ∧
    (m.pluginManager.instances.entries = [] → (m.RefreshEvents ctx order).value = none) ∧
    (∀ e, (m.RefreshEvents ctx order).value = some e →
      ∃ id p err, m.pluginManager.GetInstance id = some p ∧
        p.FetchEvents ctx = .error err ∧ e = "plugin " ++ id ++ ": " ++ err) ∧
    ((∃ id p err, m.pluginManager.GetInstance id = some p ∧ p.FetchEvents ctx = .error err) →
      ∃ e, (m.RefreshEvents ctx order).value = some e) ∧
    (∀ id p evs, m.pluginManager.GetInstance id = some p → p.FetchEvents ctx = .ok evs →
      (m.RefreshEvents ctx order).state.eventCache.get id = some evs) := by
  have hval : (m.RefreshEvents ctx order).value = (order.filterMap (m.fetchError ctx)).head? := by
    rw [refresh_value_eq, refreshErrs_eq]
  have hiff : (m.RefreshEvents ctx order).value = none ↔
      ∀ id p, m.pluginManager.GetInstance id = some p →
        ∃ evs, p.FetchEvents ctx = .ok evs := by
    rw [hval, head?_filterMap_eq_none_iff]
    constructor
    · intro h id p hp
      exact (fetchError_eq_none_iff m ctx id p hp).mp
        (h id (mem_order_of_completion m order hdone id p hp))
    · intro h id _
      cases hp : m.pluginManager.GetInstance id with
      | none => simp [Manager.fetchError, hp]
      | some p => exact (fetchError_eq_none_iff m ctx id p hp).mpr (h id p hp)
  refine ⟨hiff, ?_, ?_, ?_, ?_⟩
  · intro hempty
    apply hiff.mpr
    intro id p hp
    have : (id, p) ∈ m.pluginManager.instances.entries :=
      (GoMap.get_eq_some_iff _ id p).mp hp
    rw [hempty] at this
    cases this
  · intro e he
    rw [hval] at he
    obtain ⟨id, _, hfe⟩ := head?_filterMap_eq_some _ e order he
    obtain ⟨p, err, h1, h2, h3⟩ := fetchError_eq_some m ctx id e hfe
    exact ⟨id, p, err, h1, h2, h3⟩
  · rintro ⟨id, p, err, hp, hf⟩
    cases hv : (m.RefreshEvents ctx order).value with
    | some e => exact ⟨e, rfl⟩
    | none =>
      obtain ⟨evs, hok⟩ := hiff.mp hv id p hp
      rw [hok] at hf
      cases hf
  · intro id p evs hp hf
    exact runTasks_cache_of_ok _ ctx id p evs (by rw [snapshot_eq]; exact hp) hf order _
      (mem_order_of_completion m order hdone id p hp)

/-- Witness of C20: in context 0 instance `A` of `mgrAB` succeeds and `B`
fails; the error of `B` is returned and the entry of `A` is written. -/
theorem refresh_returns_nil_iff_all_succeed_witness :
    mgrAB.Completion ["A", "B"] ∧
    (mgrAB.RefreshEvents 0 ["A", "B"]).value = some "plugin B: refused" ∧
    (mgrAB.RefreshEvents 0 ["A", "B"]).state.eventCache.get "A"
      = some [testEvent "e1", testEvent "e2"] ∧
    (∃ id p err, mgrAB.pluginManager.GetInstance id = some p ∧
      p.FetchEvents 0 = .error err ∧ "plugin B: refused" = "plugin " ++ id ++ ": " ++ err) :=
  ⟨by unfold Manager.Completion; decide, by decide, by decide,
   (refresh_returns_nil_iff_all_succeed mgrAB 0 ["A", "B"]
     (by unfold Manager.Completion; decide)).2.2.1 "plugin B: refused" (by decide)⟩

/-! ### The formatter -/

/-- Replacing a one-character `old` replaces every occurrence of the character. -/
theorem replaceAllAux_single (o : Char) (new : List Char) :
    ∀ (l : List Char),
      replaceAllAux [o] new 0 l = l.flatMap (fun c => if c = o then new else [c])
  | [] => by simp [replaceAllAux]
  | c :: cs => by
    have ih := replaceAllAux_single o new cs
    by_cases h : c = o
    · subst h
      simp [replaceAllAux, List.isPrefixOf, ih]
    · have h' : ¬ o = c := fun e => h e.symm
      simp [replaceAllAux, List.isPrefixOf, ih, h, h']

theorem escapeText_data (s : String) : (escapeText s).data = s.data.flatMap escapeChar := by
  have h1 : "\\".data = [backslash] := rfl
  have h2 : ";".data = [';'] := rfl
  have h3 : ",".data = [','] := rfl
  have h4 : "\n".data = [LF] := rfl
  simp only [escapeText, ReplaceAll, h1, h2, h3, h4, replaceAllAux_single, List.flatMap_assoc]
  apply List.flatMap_congr
  intro c _
  unfold escapeChar
  by_cases c1 : c = backslash
  · subst c1
    simp
    decide
  · by_cases c2 : c = ';'
    · subst c2
      simp
      decide
    · by_cases c3 : c = ','
      · subst c3
        simp
        decide
      · by_cases c4 : c = LF
        · subst c4
          simp
          decide
        · have c1' : ¬ c = Char.ofNat 92 := c1
          have c4' : ¬ c = Char.ofNat 10 := c4
          simp [c1, c2, c3, c4, c1', c4']

/-- C14: for every string, `escapeText` is the replacement of each character on
its own: the result is the concatenation of the escapes of the characters of
the string, so that no backslash written by one of the four passes is escaped
again by another pass. -/
theorem escapeText_is_charwise (s : String) :
    escapeText s = ⟨s.data.flatMap escapeChar⟩ :=
  String.ext (escapeText_data s)

theorem joinLines_append (a b : List String) :
    joinLines (a ++ b) = joinLines a ++ joinLines b := by
  induction a with
  | nil => simp [joinLines]
  | cons l rest ih => simp [joinLines, ih, String.append_assoc]

theorem joinLines_singleton (l : String) : joinLines [l] = l ++ "\r\n" := by
  simp [joinLines]

theorem Sprintf_uid (x : String) :
    Sprintf "UID:%s\r\n" [x] = "UID:" ++ x ++ "\r\n" := by
  apply String.ext
  simp [Sprintf, sprintfAux]

theorem Sprintf_dtstamp (x : String) :
    Sprintf "DTSTAMP:%s\r\n" [x] = "DTSTAMP:" ++ x ++ "\r\n" := by
  apply String.ext
  simp [Sprintf, sprintfAux]

theorem Sprintf_dtstart_date (x : String) :
    Sprintf "DTSTART;VALUE=DATE:%s\r\n" [x] = "DTSTART;VALUE=DATE:" ++ x ++ "\r\n" := by
  apply String.ext
  simp [Sprintf, sprintfAux]

theorem Sprintf_dtend_date (x : String) :
    Sprintf "DTEND;VALUE=DATE:%s\r\n" [x] = "DTEND;VALUE=DATE:" ++ x ++ "\r\n" := by
  apply String.ext
  simp [Sprintf, sprintfAux]

theorem Sprintf_dtstart (x : String) :
    Sprintf "DTSTART:%s\r\n" [x] = "DTSTART:" ++ x ++ "\r\n" := by
  apply String.ext
  simp [Sprintf, sprintfAux]

theorem Sprintf_dtend (x : String) :
    Sprintf "DTEND:%s\r\n" [x] = "DTEND:" ++ x ++ "\r\n" := by
  apply String.ext
  simp [Sprintf, sprintfAux]

theorem Sprintf_summary (x : String) :
    Sprintf "SUMMARY:%s\r\n" [x] = "SUMMARY:" ++ x ++ "\r\n" := by
  apply String.ext
  simp [Sprintf, sprintfAux]

theorem Sprintf_description (x : String) :
    Sprintf "DESCRIPTION:%s\r\n" [x] = "DESCRIPTION:" ++ x ++ "\r\n" := by
  apply String.ext
  simp [Sprintf, sprintfAux]

theorem Sprintf_location (x : String) :
    Sprintf "LOCATION:%s\r\n" [x] = "LOCATION:" ++ x ++ "\r\n" := by
  apply String.ext
  simp [Sprintf, sprintfAux]

theorem Sprintf_url (x : String) :
    Sprintf "URL:%s\r\n" [x] = "URL:" ++ x ++ "\r\n" := by
  apply String.ext
  simp [Sprintf, sprintfAux]

theorem Sprintf_categories (x : String) :
    Sprintf "CATEGORIES:%s\r\n" [x] = "CATEGORIES:" ++ x ++ "\r\n" := by
  apply String.ext
  simp [Sprintf, sprintfAux]

theorem Sprintf_calname (x : String) :
    Sprintf "X-WR-CALNAME:%s\r\n" [x] = "X-WR-CALNAME:" ++ x ++ "\r\n" := by
  apply String.ext
  simp [Sprintf, sprintfAux]

theorem Sprintf_caldesc (x : String) :
    Sprintf "X-WR-CALDESC:%s\r\n" [x] = "X-WR-CALDESC:" ++ x ++ "\r\n" := by
  apply String.ext
  simp [Sprintf, sprintfAux]

theorem Sprintf_filename (x : String) :
    Sprintf "attachment; filename=%s.ics" [x] = "attachment; filename=" ++ x ++ ".ics" := by
  apply String.ext
  simp [Sprintf, sprintfAux]

theorem Sprintf_line (x : String) : Sprintf "%s\n" [x] = x ++ "\n" := by
  apply String.ext
  simp [Sprintf, sprintfAux]

theorem appendIf_eq (c : Prop) [Decidable c] (b s : String) :
    appendIf c b s = b ++ (if c then s else "") := by
  unfold appendIf
  split_ifs <;> simp

theorem joinLines_ite (c : Prop) [Decidable c] (l : String) :
    joinLines (if c then [] else [l]) = if c then "" else l ++ "\r\n" := by
  split_ifs <;> simp [joinLines]

/-- The writes of `formatEvent`, one inside the other. -/
theorem formatEvent_nested (tp : TimePkg) (n : Nat) (e : Event) :
    formatEvent tp n e =
      appendIf (e.Categories.length > 0)
        (appendIf (e.URL ≠ "")
          (appendIf (e.Location ≠ "")
            (appendIf (e.Description ≠ "")
              (appendIf (e.Summary ≠ "")
                (if e.AllDay then
                  appendIf ((!e.EndTime.IsZero) = true)
                    ("" ++ "BEGIN:VEVENT\r\n" ++ Sprintf "UID:%s\r\n" [escapeText e.UID]
                      ++ Sprintf "DTSTAMP:%s\r\n" [formatDateTime tp (tp.Now n)]
                      ++ Sprintf "DTSTART;VALUE=DATE:%s\r\n" [formatDate tp e.StartTime])
                    (Sprintf "DTEND;VALUE=DATE:%s\r\n" [formatDate tp e.EndTime])
                 else
                  appendIf ((!e.EndTime.IsZero) = true)
                    ("" ++ "BEGIN:VEVENT\r\n" ++ Sprintf "UID:%s\r\n" [escapeText e.UID]
                      ++ Sprintf "DTSTAMP:%s\r\n" [formatDateTime tp (tp.Now n)]
                      ++ Sprintf "DTSTART:%s\r\n" [formatDateTime tp e.StartTime])
                    (Sprintf "DTEND:%s\r\n" [formatDateTime tp e.EndTime]))
                (Sprintf "SUMMARY:%s\r\n" [escapeText e.Summary]))
              (Sprintf "DESCRIPTION:%s\r\n" [escapeText e.Description]))
            (Sprintf "LOCATION:%s\r\n" [escapeText e.Location]))
          (Sprintf "URL:%s\r\n" [e.URL]))
        (Sprintf "CATEGORIES:%s\r\n" [Join e.Categories ","])
      ++ "END:VEVENT\r\n" := rfl

/-- The block that `formatEvent` writes is the text of the lines `eventLines`. -/
theorem formatEvent_eq_joinLines (tp : TimePkg) (n : Nat) (e : Event) :
    formatEvent tp n e = joinLines (eventLines tp n e) := by
  have hlen : (e.Categories.length > 0) ↔ ¬ e.Categories = [] := by
    cases e.Categories <;> simp
  have hb : ("BEGIN:VEVENT\r\n" : String) = "BEGIN:VEVENT" ++ "\r\n" := by decide
  have he : ("END:VEVENT\r\n" : String) = "END:VEVENT" ++ "\r\n" := by decide
  rw [formatEvent_nested]
  simp only [appendIf_eq, Sprintf_uid, Sprintf_dtstamp,
    Sprintf_dtstart_date, Sprintf_dtend_date, Sprintf_dtstart, Sprintf_dtend, Sprintf_summary,
    Sprintf_description, Sprintf_location, Sprintf_url, Sprintf_categories, hlen, hb, he,
    ne_eq, ite_not]
  simp only [eventLines, eventBodyLines, joinLines_append, joinLines_ite]
  simp only [joinLines]
  cases e.AllDay <;> cases e.EndTime.IsZero <;>
    simp only [Bool.not_true, Bool.not_false, if_true, if_false, Bool.false_eq_true,
      String.append_assoc, String.append_empty, String.empty_append]

/-- C17: the block that `formatEvent` writes for an event is, line by line and
each line followed by CR LF: BEGIN:VEVENT, the escaped UID, DTSTAMP, DTSTART;
DTEND exactly when EndTime is not the zero time; SUMMARY, DESCRIPTION and
LOCATION, escaped, and URL, as it is, each exactly when the field is not
empty; CATEGORIES exactly when there is a category, its value the categories
joined by a comma; END:VEVENT.  An all-day event writes DTSTART and DTEND with
the parameter VALUE=DATE and the time formatted with the layout `20060102`;
any other event writes them without parameter, the time taken to UTC and
formatted with the layout `20060102T150405Z`, as is DTSTAMP. -/
theorem formatEvent_lines (tp : TimePkg) (n : Nat) (e : Event) :
    formatEvent tp n e = joinLines
      (["BEGIN:VEVENT",
        "UID:" ++ escapeText e.UID,
        "DTSTAMP:" ++ tp.Format (tp.Now n).UTC "20060102T150405Z",
        if e.AllDay then "DTSTART;VALUE=DATE:" ++ tp.Format e.StartTime "20060102"
        else "DTSTART:" ++ tp.Format e.StartTime.UTC "20060102T150405Z"]
       ++ (if e.EndTime.IsZero then []
           else [if e.AllDay then "DTEND;VALUE=DATE:" ++ tp.Format e.EndTime "20060102"
                 else "DTEND:" ++ tp.Format e.EndTime.UTC "20060102T150405Z"])
       ++ (if e.Summary = "" then [] else ["SUMMARY:" ++ escapeText e.Summary])
       ++ (if e.Description = "" then [] else ["DESCRIPTION:" ++ escapeText e.Description])
       ++ (if e.Location = "" then [] else ["LOCATION:" ++ escapeText e.Location])
       ++ (if e.URL = "" then [] else ["URL:" ++ e.URL])
       ++ (if e.Categories = [] then [] else ["CATEGORIES:" ++ Join e.Categories ","])
       ++ ["END:VEVENT"]) :=
  formatEvent_eq_joinLines tp n e

theorem concatStrings_eq_joinLines (tp : TimePkg) :
    ∀ (ies : List (Nat × Event)),
      concatStrings (ies.map (fun ie => formatEvent tp ie.1 ie.2)) =
        joinLines (ies.flatMap (fun ie => eventLines tp ie.1 ie.2))
  | [] => rfl
  | ie :: rest => by
    rw [List.map_cons, concatStrings, List.flatMap_cons, joinLines_append,
      concatStrings_eq_joinLines tp rest, formatEvent_eq_joinLines]

/-- The loop of `Format` over the events appends the blocks in the order of
the list, the block of the event at place `i` with `i` earlier clock readings. -/
theorem foldl_formatEvent (tp : TimePkg) :
    ∀ (events : List Event) (b : Builder) (n : Nat),
      (events.foldl (fun (st : Builder × Nat) event =>
        (st.1.WriteString (formatEvent tp st.2 event), st.2 + 1)) (b, n)).1 =
      b ++ concatStrings ((events.enumFrom n).map (fun ie => formatEvent tp ie.1 ie.2))
  | [], b, n => by simp [concatStrings]
  | e :: rest, b, n => by
    rw [List.foldl_cons, foldl_formatEvent tp rest]
    simp only [concatStrings, Builder.WriteString, List.enumFrom_cons, List.map_cons,
      String.append_assoc]

theorem format_eq (tp : TimePkg) (cal : Calendar) :
    Format tp cal =
      joinLines (headerLines cal)
        ++ concatStrings (cal.Events.enum.map (fun ie => formatEvent tp ie.1 ie.2))
        ++ joinLines ["END:VCALENDAR"] := by
  have h1 : ("BEGIN:VCALENDAR\r\n" : String) = "BEGIN:VCALENDAR" ++ "\r\n" := by decide
  have h2 : ("VERSION:2.0\r\n" : String) = "VERSION:2.0" ++ "\r\n" := by decide
  have h3 : ("PRODID:-//modcal//modcal//EN\r\n" : String)
      = "PRODID:-//modcal//modcal//EN" ++ "\r\n" := by decide
  have h4 : ("END:VCALENDAR\r\n" : String) = "END:VCALENDAR" ++ "\r\n" := by decide
  simp only [Format, foldl_formatEvent]
  simp only [Builder.WriteString, Sprintf_calname, Sprintf_caldesc, h1, h2, h3, h4,
    headerLines, joinLines_append, joinLines_ite, ne_eq, ite_not, List.enum]
  simp only [joinLines]
  split_ifs <;>
    simp only [String.append_assoc, String.append_empty, String.empty_append]

theorem format_eq_joinLines (tp : TimePkg) (cal : Calendar) :
    Format tp cal = joinLines
      (headerLines cal
        ++ cal.Events.enum.flatMap (fun ie => eventLines tp ie.1 ie.2)
        ++ ["END:VCALENDAR"]) := by
  rw [format_eq, concatStrings_eq_joinLines, joinLines_append, joinLines_append]

theorem NoLineBreak.append {a b : String} (ha : NoLineBreak a) (hb : NoLineBreak b) :
    NoLineBreak (a ++ b) := by
  unfold NoLineBreak at *
  simp only [String.data_append, List.mem_append, not_or]
  exact ⟨⟨ha.1, hb.1⟩, ⟨ha.2, hb.2⟩⟩

/-- No line feed is left in an escaped text. -/
theorem LF_not_mem_escapeText (s : String) : LF ∉ (escapeText s).data := by
  rw [escapeText_data, List.mem_flatMap]
  rintro ⟨d, _, hd⟩
  unfold escapeChar at hd
  split_ifs at hd with h1 h2 h3 h4
  · revert hd; decide
  · revert hd; decide
  · revert hd; decide
  · revert hd; decide
  · simp only [List.mem_singleton] at hd
    exact h4 hd.symm

/-- A carriage return in an escaped text is one of the text itself. -/
theorem CR_mem_escapeText_iff (s : String) : CR ∈ (escapeText s).data ↔ CR ∈ s.data := by
  rw [escapeText_data, List.mem_flatMap]
  constructor
  · rintro ⟨d, hmem, hd⟩
    unfold escapeChar at hd
    split_ifs at hd with h1 h2 h3 h4
    · exact absurd hd (by decide)
    · exact absurd hd (by decide)
    · exact absurd hd (by decide)
    · exact absurd hd (by decide)
    · simp only [List.mem_singleton] at hd
      exact hd ▸ hmem
  · intro h
    exact ⟨CR, h, by decide⟩

theorem NoLineBreak.escapeText {s : String} (h : CR ∉ s.data) : NoLineBreak (escapeText s) :=
  ⟨fun hc => h ((CR_mem_escapeText_iff s).mp hc), LF_not_mem_escapeText s⟩

theorem NoLineBreak.Join : ∀ (elems : List String), (∀ c ∈ elems, NoLineBreak c) →
    NoLineBreak (Join elems ",")
  | [], _ => by unfold Modcal.Join NoLineBreak; decide
  | [a], h => by
    unfold Modcal.Join
    exact h a (List.mem_cons_self _ _)
  | a :: b :: rest, h => by
    unfold Modcal.Join
    have ha : NoLineBreak a := h a (List.mem_cons_self _ _)
    have hsep : NoLineBreak "," := by unfold NoLineBreak; decide
    exact (ha.append hsep).append
      (NoLineBreak.Join (b :: rest) (fun c hc => h c (List.mem_cons_of_mem _ hc)))

theorem mem_ite_nil {α : Type} (c : Prop) [Decidable c] (x y : α) :
    x ∈ (if c then [] else [y]) ↔ ¬ c ∧ x = y := by
  split_ifs with h <;> simp [h]

theorem eventLines_noLineBreak (tp : TimePkg) (n : Nat) (e : Event)
    (hfmt : ∀ t, NoLineBreak (tp.Format t dateFormat) ∧ NoLineBreak (tp.Format t dateTimeFormat))
    (he : e.NoStrayBreak) :
    ∀ l ∈ eventLines tp n e, NoLineBreak l := by
  obtain ⟨h1, h2, h3, h4, h5, h6⟩ := he
  have lit : ∀ {a b : String}, (CR ∉ a.data ∧ LF ∉ a.data) → NoLineBreak b →
      NoLineBreak (a ++ b) := fun ha hb => NoLineBreak.append ha hb
  intro l hl
  simp only [eventLines, eventBodyLines, List.mem_append, List.mem_cons, List.mem_singleton,
    List.not_mem_nil, or_false, mem_ite_nil, or_assoc] at hl
  rcases hl with hl | hl | hl | hl | hl | hl | hl | hl | hl | hl | hl
  · subst hl; unfold NoLineBreak; decide
  · subst hl; exact lit (by decide) (NoLineBreak.escapeText h1)
  · subst hl; exact lit (by decide) (hfmt _).2
  · subst hl
    split_ifs
    · exact lit (by decide) (hfmt _).1
    · exact lit (by decide) (hfmt _).2
  · obtain ⟨_, hl⟩ := hl
    subst hl
    split_ifs
    · exact lit (by decide) (hfmt _).1
    · exact lit (by decide) (hfmt _).2
  · obtain ⟨_, hl⟩ := hl
    subst hl; exact lit (by decide) (NoLineBreak.escapeText h2)
  · obtain ⟨_, hl⟩ := hl
    subst hl; exact lit (by decide) (NoLineBreak.escapeText h3)
  · obtain ⟨_, hl⟩ := hl
    subst hl; exact lit (by decide) (NoLineBreak.escapeText h4)
  · obtain ⟨_, hl⟩ := hl
    subst hl; exact lit (by decide) h5
  · obtain ⟨_, hl⟩ := hl
    subst hl; exact lit (by decide) (NoLineBreak.Join _ h6)
  · subst hl; unfold NoLineBreak; decide

theorem headerLines_noLineBreak (cal : Calendar) (hname : CR ∉ cal.Name.data)
    (hdesc : CR ∉ cal.Description.data) :
    ∀ l ∈ headerLines cal, NoLineBreak l := by
  intro l hl
  simp only [headerLines, List.mem_append, List.mem_cons, List.mem_singleton,
    List.not_mem_nil, or_false, mem_ite_nil, or_assoc] at hl
  rcases hl with hl | hl | hl | hl | hl
  · subst hl; unfold NoLineBreak; decide
  · subst hl; unfold NoLineBreak; decide
  · subst hl; unfold NoLineBreak; decide
  · subst hl
    exact NoLineBreak.append (by unfold NoLineBreak; decide) (NoLineBreak.escapeText hname)
  · obtain ⟨_, hl⟩ := hl
    subst hl
    exact NoLineBreak.append (by unfold NoLineBreak; decide) (NoLineBreak.escapeText hdesc)

/-- In a text made of CR LF terminated lines there are as many CR as LF. -/
theorem count_CR_eq_count_LF (s : String) (h : IsCRLFLines s) :
    s.data.count CR = s.data.count LF := by
  obtain ⟨lines, hclean, rfl⟩ := h
  induction lines with
  | nil => rfl
  | cons l rest ih =>
    have hl := hclean l (List.mem_cons_self _ _)
    have ih' := ih (fun x hx => hclean x (List.mem_cons_of_mem _ hx))
    have hcr : l.data.count CR = 0 := List.count_eq_zero.mpr hl.1
    have hlf : l.data.count LF = 0 := List.count_eq_zero.mpr hl.2
    have e1 : ("\r\n" : String).data.count CR = 1 := by decide
    have e2 : ("\r\n" : String).data.count LF = 1 := by decide
    simp only [joinLines, String.data_append, List.count_append, hcr, hlf, e1, e2, ih']

/-- C15, as the code has it: `Format` ends every line it writes with CR LF, and
`escapeText` leaves no LF in the name, the description and the UID, summary,
description and location of an event.  When none of these fields holds a CR,
no URL and no category holds a CR or an LF, and the times as package `time`
formats them hold none, the output is a concatenation of lines each ending in
CR LF, with no CR and no LF anywhere else. -/
theorem format_lines_crlf_terminated (tp : TimePkg) (cal : Calendar)
    (hfmt : ∀ t, NoLineBreak (tp.Format t dateFormat) ∧ NoLineBreak (tp.Format t dateTimeFormat))
    (hname : CR ∉ cal.Name.data) (hdesc : CR ∉ cal.Description.data)
    (hev : ∀ e ∈ cal.Events, e.NoStrayBreak) :
    IsCRLFLines (Format tp cal) ∧
    (∃ lines, Format tp cal = joinLines lines ∧ ∀ l ∈ lines, NoLineBreak l) ∧
    (∀ s, LF ∉ (escapeText s).data) := by
  have hlines : ∀ l ∈ headerLines cal
      ++ cal.Events.enum.flatMap (fun ie => eventLines tp ie.1 ie.2)
      ++ ["END:VCALENDAR"], NoLineBreak l := by
    intro l hl
    simp only [List.mem_append, List.mem_flatMap, List.mem_singleton] at hl
    rcases hl with (hl | ⟨ie, hie, hl⟩) | hl
    · exact headerLines_noLineBreak cal hname hdesc l hl
    · have hmem : ie.2 ∈ cal.Events := List.snd_mem_of_mem_enum hie
      exact eventLines_noLineBreak tp ie.1 ie.2 hfmt (hev ie.2 hmem) l hl
    · subst hl; unfold NoLineBreak; decide
  exact ⟨⟨_, hlines, format_eq_joinLines tp cal⟩, ⟨_, format_eq_joinLines tp cal, hlines⟩,
    LF_not_mem_escapeText⟩

theorem testTimePkg_noLineBreak (t : Time) :
    NoLineBreak (testTimePkg.Format t dateFormat) ∧
    NoLineBreak (testTimePkg.Format t dateTimeFormat) := by
  unfold NoLineBreak
  cases h : t.IsZero <;> simp only [testTimePkg, h] <;> decide

theorem calendarTwoEvents_noStrayBreak : ∀ e ∈ calendarTwoEvents.Events, e.NoStrayBreak := by
  intro e he
  simp only [calendarTwoEvents, List.mem_cons, List.mem_singleton, List.not_mem_nil,
    or_false] at he
  rcases he with rfl | rfl <;>
    (unfold Event.NoStrayBreak NoLineBreak; decide)

/-- Witness of C15 as amended: a calendar with a description holding a line
feed and two events, formatted with the test `time` package. -/
theorem format_lines_crlf_terminated_witness :
    CR ∉ calendarTwoEvents.Name.data ∧ CR ∉ calendarTwoEvents.Description.data ∧
    LF ∈ calendarTwoEvents.Description.data ∧
    IsCRLFLines (Format testTimePkg calendarTwoEvents) :=
  ⟨by decide, by decide, by decide,
   (format_lines_crlf_terminated testTimePkg calendarTwoEvents testTimePkg_noLineBreak
     (by decide) (by decide) calendarTwoEvents_noStrayBreak).1⟩

/-- C15 fails as stated: a calendar whose name is `a`, a carriage return, `b`
is formatted with the carriage return inside the line X-WR-CALNAME, so that the
output is not a concatenation of lines ending in CR LF without other CR or LF. -/
theorem format_keeps_carriage_return :
    Format testTimePkg calendarWithCR =
      "BEGIN:VCALENDAR\r\nVERSION:2.0\r\nPRODID:-//modcal//modcal//EN\r\n"
        ++ "X-WR-CALNAME:a\rb\r\nEND:VCALENDAR\r\n" ∧
    ¬ IsCRLFLines (Format testTimePkg calendarWithCR) := by
  refine ⟨by decide, fun h => ?_⟩
  have hc := count_CR_eq_count_LF _ h
  revert hc
  decide

/-- A line without LF, followed by CR LF, is read back as one line. -/
theorem splitLinesAux_line (rest : List Char) :
    ∀ (l cur : List Char), LF ∉ l →
      splitLinesAux cur (l ++ CR :: LF :: rest) = String.mk (cur ++ l) :: splitLinesAux [] rest
  | [], cur, _ => by
    simp [splitLinesAux]
  | [c], cur, _ => by
    have hc : ¬ (c = CR ∧ CR = LF) := fun h => absurd h.2 (by decide)
    have ih := splitLinesAux_line rest [] (cur ++ [c]) (List.not_mem_nil _)
    show splitLinesAux cur (c :: CR :: LF :: rest) = _
    rw [splitLinesAux, if_neg hc]
    simpa using ih
  | c :: d :: l, cur, h => by
    have hd : ¬ (c = CR ∧ d = LF) := fun h' =>
      h (h'.2 ▸ List.mem_cons_of_mem _ (List.mem_cons_self _ _))
    have ih := splitLinesAux_line rest (d :: l) (cur ++ [c])
      (fun hm => h (List.mem_cons_of_mem _ hm))
    show splitLinesAux cur (c :: d :: (l ++ CR :: LF :: rest)) = _
    rw [splitLinesAux, if_neg hd]
    simpa using ih

/-- Lines without LF are read back from the text that `joinLines` makes of them. -/
theorem splitLines_joinLines :
    ∀ lines : List String, (∀ l ∈ lines, LF ∉ l.data) → splitLines (joinLines lines) = lines
  | [], _ => by
    unfold splitLines joinLines
    rfl
  | l :: rest, h => by
    have ih := splitLines_joinLines rest (fun x hx => h x (List.mem_cons_of_mem _ hx))
    unfold splitLines at ih ⊢
    have hdata : (joinLines (l :: rest)).data = l.data ++ CR :: LF :: (joinLines rest).data := by
      simp only [joinLines, String.data_append, List.append_assoc]
      rfl
    rw [hdata, splitLinesAux_line _ _ _ (h l (List.mem_cons_self _ _)), ih]
    rfl

theorem LF_not_mem_append {a b : String} (ha : LF ∉ a.data) (hb : LF ∉ b.data) :
    LF ∉ (a ++ b).data := by
  simp only [String.data_append, List.mem_append, not_or]
  exact ⟨ha, hb⟩

theorem LF_not_mem_Join : ∀ (elems : List String), (∀ c ∈ elems, LF ∉ c.data) →
    LF ∉ (Join elems ",").data
  | [], _ => by unfold Modcal.Join; decide
  | [a], h => by
    unfold Modcal.Join
    exact h a (List.mem_cons_self _ _)
  | a :: b :: rest, h => by
    unfold Modcal.Join
    exact LF_not_mem_append (LF_not_mem_append (h a (List.mem_cons_self _ _)) (by decide))
      (LF_not_mem_Join (b :: rest) (fun c hc => h c (List.mem_cons_of_mem _ hc)))

/-- A text that starts with another character than `t` does is not `t`. -/
theorem append_ne_of_head (p x t : String) (c : Char) (hp : p.data.head? = some c)
    (ht : t.data.head? ≠ some c) : p ++ x ≠ t := by
  intro h
  apply ht
  rw [← h, String.data_append]
  cases hd : p.data with
  | nil => rw [hd] at hp; cases hp
  | cons a tail => rw [hd] at hp; simpa using hp

/-- The lines of an event between BEGIN:VEVENT and END:VEVENT hold no LF when
the URL, the categories and the formatted times hold none. -/
theorem eventBodyLines_noLF (tp : TimePkg) (n : Nat) (e : Event)
    (hfmt : ∀ t, LF ∉ (tp.Format t dateFormat).data ∧ LF ∉ (tp.Format t dateTimeFormat).data)
    (hurl : LF ∉ e.URL.data) (hcat : ∀ c ∈ e.Categories, LF ∉ c.data) :
    ∀ l ∈ eventBodyLines tp n e, LF ∉ l.data := by
  have lit : ∀ {a b : String}, LF ∉ a.data → LF ∉ b.data → LF ∉ (a ++ b).data :=
    fun ha hb => LF_not_mem_append ha hb
  intro l hl
  simp only [eventBodyLines, List.mem_append, List.mem_cons, List.mem_singleton,
    List.not_mem_nil, or_false, mem_ite_nil, or_assoc] at hl
  rcases hl with hl | hl | hl | hl | hl | hl | hl | hl | hl
  · subst hl; exact lit (by decide) (LF_not_mem_escapeText _)
  · subst hl; exact lit (by decide) (hfmt _).2
  · subst hl
    split_ifs
    · exact lit (by decide) (hfmt _).1
    · exact lit (by decide) (hfmt _).2
  · obtain ⟨_, hl⟩ := hl
    subst hl
    split_ifs
    · exact lit (by decide) (hfmt _).1
    · exact lit (by decide) (hfmt _).2
  · obtain ⟨_, hl⟩ := hl
    subst hl; exact lit (by decide) (LF_not_mem_escapeText _)
  · obtain ⟨_, hl⟩ := hl
    subst hl; exact lit (by decide) (LF_not_mem_escapeText _)
  · obtain ⟨_, hl⟩ := hl
    subst hl; exact lit (by decide) (LF_not_mem_escapeText _)
  · obtain ⟨_, hl⟩ := hl
    subst hl; exact lit (by decide) hurl
  · obtain ⟨_, hl⟩ := hl
    subst hl; exact lit (by decide) (LF_not_mem_Join _ hcat)

/-- No line of an event between BEGIN:VEVENT and END:VEVENT is one of the two:
each starts with the name of its property. -/
theorem eventBodyLines_ne_delimiter (tp : TimePkg) (n : Nat) (e : Event) :
    ∀ l ∈ eventBodyLines tp n e, l ≠ "BEGIN:VEVENT" ∧ l ≠ "END:VEVENT" := by
  have key : ∀ (p x : String) (c : Char), p.data.head? = some c →
      ("BEGIN:VEVENT" : String).data.head? ≠ some c →
      ("END:VEVENT" : String).data.head? ≠ some c →
      p ++ x ≠ "BEGIN:VEVENT" ∧ p ++ x ≠ "END:VEVENT" :=
    fun p x c hp hb he => ⟨append_ne_of_head p x _ c hp hb, append_ne_of_head p x _ c hp he⟩
  intro l hl
  simp only [eventBodyLines, List.mem_append, List.mem_cons, List.mem_singleton,
    List.not_mem_nil, or_false, mem_ite_nil, or_assoc] at hl
  rcases hl with hl | hl | hl | hl | hl | hl | hl | hl | hl
  · subst hl; exact key _ _ 'U' (by decide) (by decide) (by decide)
  · subst hl; exact key _ _ 'D' (by decide) (by decide) (by decide)
  · subst hl
    split_ifs
    · exact key _ _ 'D' (by decide) (by decide) (by decide)
    · exact key _ _ 'D' (by decide) (by decide) (by decide)
  · obtain ⟨_, hl⟩ := hl
    subst hl
    split_ifs
    · exact key _ _ 'D' (by decide) (by decide) (by decide)
    · exact key _ _ 'D' (by decide) (by decide) (by decide)
  · obtain ⟨_, hl⟩ := hl
    subst hl; exact key _ _ 'S' (by decide) (by decide) (by decide)
  · obtain ⟨_, hl⟩ := hl
    subst hl; exact key _ _ 'D' (by decide) (by decide) (by decide)
  · obtain ⟨_, hl⟩ := hl
    subst hl; exact key _ _ 'L' (by decide) (by decide) (by decide)
  · obtain ⟨_, hl⟩ := hl
    subst hl; exact key _ _ 'U' (by decide) (by decide) (by decide)
  · obtain ⟨_, hl⟩ := hl
    subst hl; exact key _ _ 'C' (by decide) (by decide) (by decide)

theorem headerLines_noLF (cal : Calendar) : ∀ l ∈ headerLines cal, LF ∉ l.data := by
  intro l hl
  simp only [headerLines, List.mem_append, List.mem_cons, List.mem_singleton,
    List.not_mem_nil, or_false, mem_ite_nil, or_assoc] at hl
  rcases hl with hl | hl | hl | hl | hl
  · subst hl; decide
  · subst hl; decide
  · subst hl; decide
  · subst hl
    exact LF_not_mem_append (by decide) (LF_not_mem_escapeText _)
  · obtain ⟨_, hl⟩ := hl
    subst hl
    exact LF_not_mem_append (by decide) (LF_not_mem_escapeText _)

/-- No opening line of a calendar is the line BEGIN:VEVENT. -/
theorem headerLines_ne_begin (cal : Calendar) : ∀ l ∈ headerLines cal, l ≠ "BEGIN:VEVENT" := by
  intro l hl
  simp only [headerLines, List.mem_append, List.mem_cons, List.mem_singleton,
    List.not_mem_nil, or_false, mem_ite_nil, or_assoc] at hl
  rcases hl with hl | hl | hl | hl | hl
  · subst hl; decide
  · subst hl; decide
  · subst hl; decide
  · subst hl
    exact append_ne_of_head _ _ _ 'X' (by decide) (by decide)
  · obtain ⟨_, hl⟩ := hl
    subst hl
    exact append_ne_of_head _ _ _ 'X' (by decide) (by decide)

/-- The number of lines of a list that are the line `d`. -/
theorem countLine_append (d : String) (a b : List String) :
    ((a ++ b).filter (fun l => decide (l = d))).length =
      (a.filter (fun l => decide (l = d))).length + (b.filter (fun l => decide (l = d))).length := by
  rw [List.filter_append, List.length_append]

theorem countLine_of_not_mem (d : String) (a : List String) (h : ∀ l ∈ a, l ≠ d) :
    (a.filter (fun l => decide (l = d))).length = 0 := by
  rw [List.length_eq_zero, List.filter_eq_nil_iff]
  intro l hl
  simpa using h l hl

/-- One block holds the line BEGIN:VEVENT once. -/
theorem countBegin_block (block : List String) (h : IsEventBlock block) :
    (block.filter (fun l => decide (l = "BEGIN:VEVENT"))).length = 1 := by
  obtain ⟨body, rfl, hb, _⟩ := h
  rw [countLine_append, countLine_append,
    countLine_of_not_mem _ body (fun l hl e => hb (by rw [← e]; exact hl))]
  decide

/-- The blocks of a list hold the line BEGIN:VEVENT once each. -/
theorem countBegin_blocks : ∀ (blocks : List (List String)), (∀ b ∈ blocks, IsEventBlock b) →
    (blocks.flatten.filter (fun l => decide (l = "BEGIN:VEVENT"))).length = blocks.length
  | [], _ => rfl
  | b :: rest, h => by
    rw [List.flatten_cons, countLine_append, countBegin_block b (h b (List.mem_cons_self _ _)),
      countBegin_blocks rest (fun x hx => h x (List.mem_cons_of_mem _ hx)), List.length_cons]
    omega

/-- The lines of a formatted calendar, when no written line holds an LF. -/
theorem splitLines_format (tp : TimePkg) (cal : Calendar)
    (hfmt : ∀ t, LF ∉ (tp.Format t dateFormat).data ∧ LF ∉ (tp.Format t dateTimeFormat).data)
    (hev : ∀ e ∈ cal.Events, LF ∉ e.URL.data ∧ ∀ c ∈ e.Categories, LF ∉ c.data) :
    splitLines (Format tp cal) =
      headerLines cal
        ++ (cal.Events.enum.map (fun ie => eventLines tp ie.1 ie.2)).flatten
        ++ ["END:VCALENDAR"] := by
  have hlines : ∀ l ∈ headerLines cal
      ++ cal.Events.enum.flatMap (fun ie => eventLines tp ie.1 ie.2)
      ++ ["END:VCALENDAR"], LF ∉ l.data := by
    intro l hl
    simp only [List.mem_append, List.mem_flatMap, List.mem_singleton] at hl
    rcases hl with (hl | ⟨ie, hie, hl⟩) | hl
    · exact headerLines_noLF cal l hl
    · have hmem : ie.2 ∈ cal.Events := List.snd_mem_of_mem_enum hie
      simp only [eventLines, List.mem_append, List.mem_singleton] at hl
      rcases hl with (hl | hl) | hl
      · subst hl; decide
      · exact eventBodyLines_noLF tp ie.1 ie.2 hfmt (hev ie.2 hmem).1 (hev ie.2 hmem).2 l hl
      · subst hl; decide
    · subst hl; decide
  rw [format_eq_joinLines, splitLines_joinLines _ hlines]
  rfl

/-- The block of an event is one block. -/
theorem eventLines_isEventBlock (tp : TimePkg) (n : Nat) (e : Event) :
    IsEventBlock (["BEGIN:VEVENT"] ++ eventBodyLines tp n e ++ ["END:VEVENT"]) :=
  ⟨eventBodyLines tp n e, rfl,
    fun h => (eventBodyLines_ne_delimiter tp n e _ h).1 rfl,
    fun h => (eventBodyLines_ne_delimiter tp n e _ h).2 rfl⟩

/-- C16, as the code has it: what `Format` writes is the opening lines, the
text of `formatEvent` for each event in the order of the list `Events`, and
the line END:VCALENDAR, where the opening lines are BEGIN:VCALENDAR,
VERSION:2.0, the PRODID line and X-WR-CALNAME with the escaped name, and then
X-WR-CALDESC with the escaped description exactly when the description is not
empty.  The text of `formatEvent` is the line BEGIN:VEVENT, the lines of the
properties of the event, and the line END:VEVENT.  When no URL and no category
of an event holds an LF, and the times as package `time` formats them hold
none, the output read line by line is the opening lines, one block from
BEGIN:VEVENT to END:VEVENT for each event in the order of the list, no line in
between being one of the two, and the line END:VCALENDAR; it holds as many
lines BEGIN:VEVENT as the calendar has events, and no block without events. -/
theorem format_one_block_per_event (tp : TimePkg) (cal : Calendar)
    (hfmt : ∀ t, LF ∉ (tp.Format t dateFormat).data ∧ LF ∉ (tp.Format t dateTimeFormat).data)
    (hev : ∀ e ∈ cal.Events, LF ∉ e.URL.data ∧ ∀ c ∈ e.Categories, LF ∉ c.data) :
    Format tp cal =
      joinLines
        (["BEGIN:VCALENDAR",
          "VERSION:2.0",
          "PRODID:-//modcal//modcal//EN",
          "X-WR-CALNAME:" ++ escapeText cal.Name]
         ++ (if cal.Description = "" then []
             else ["X-WR-CALDESC:" ++ escapeText cal.Description]))
        ++ concatStrings (cal.Events.enum.map (fun ie => formatEvent tp ie.1 ie.2))
        ++ joinLines ["END:VCALENDAR"] ∧
    (∀ n e, formatEvent tp n e
      = joinLines (["BEGIN:VEVENT"] ++ eventBodyLines tp n e ++ ["END:VEVENT"])) ∧
    splitLines (Format tp cal) =
      ["BEGIN:VCALENDAR",
       "VERSION:2.0",
       "PRODID:-//modcal//modcal//EN",
       "X-WR-CALNAME:" ++ escapeText cal.Name]
      ++ (if cal.Description = "" then []
          else ["X-WR-CALDESC:" ++ escapeText cal.Description])
      ++ (cal.Events.enum.map (fun ie =>
            ["BEGIN:VEVENT"] ++ eventBodyLines tp ie.1 ie.2 ++ ["END:VEVENT"])).flatten
      ++ ["END:VCALENDAR"] ∧
    (∀ n e, IsEventBlock (["BEGIN:VEVENT"] ++ eventBodyLines tp n e ++ ["END:VEVENT"])) ∧
    OneBlockPerEvent (Format tp cal) cal ∧
    ((splitLines (Format tp cal)).filter (fun l => decide (l = "BEGIN:VEVENT"))).length
      = cal.Events.length ∧
    (cal.Events = [] →
      splitLines (Format tp cal) =
        ["BEGIN:VCALENDAR",
         "VERSION:2.0",
         "PRODID:-//modcal//modcal//EN",
         "X-WR-CALNAME:" ++ escapeText cal.Name]
        ++ (if cal.Description = "" then []
            else ["X-WR-CALDESC:" ++ escapeText cal.Description])
        ++ ["END:VCALENDAR"]) := by
  have hsplit := splitLines_format tp cal hfmt hev
  have hblocks : ∀ block ∈ cal.Events.enum.map (fun ie => eventLines tp ie.1 ie.2),
      IsEventBlock block := by
    intro block hb
    obtain ⟨ie, _, rfl⟩ := List.mem_map.mp hb
    exact eventLines_isEventBlock tp ie.1 ie.2
  have hlen : (cal.Events.enum.map (fun ie => eventLines tp ie.1 ie.2)).length
      = cal.Events.length := by
    rw [List.length_map, List.enum_length]
  refine ⟨format_eq tp cal, formatEvent_eq_joinLines tp, hsplit,
    eventLines_isEventBlock tp, ⟨_, hlen, hblocks, hsplit⟩, ?_, ?_⟩
  · rw [hsplit, countLine_append, countLine_append, countBegin_blocks _ hblocks, hlen,
      countLine_of_not_mem _ _ (headerLines_ne_begin cal)]
    have : (["END:VCALENDAR"].filter (fun l => decide (l = "BEGIN:VEVENT"))).length = 0 := by
      decide
    omega
  · intro h
    rw [hsplit, h]
    simp [headerLines]

theorem testTimePkg_noLF (t : Time) :
    LF ∉ (testTimePkg.Format t dateFormat).data ∧
    LF ∉ (testTimePkg.Format t dateTimeFormat).data :=
  ⟨(testTimePkg_noLineBreak t).1.2, (testTimePkg_noLineBreak t).2.2⟩

theorem calendarTwoEvents_noLF :
    ∀ e ∈ calendarTwoEvents.Events, LF ∉ e.URL.data ∧ ∀ c ∈ e.Categories, LF ∉ c.data := by
  intro e he
  simp only [calendarTwoEvents, List.mem_cons, List.mem_singleton, List.not_mem_nil,
    or_false] at he
  rcases he with rfl | rfl <;> decide

/-- Witness of C16 as amended: a calendar with a description and two events,
formatted with the test `time` package, has two blocks. -/
theorem format_one_block_per_event_witness :
    OneBlockPerEvent (Format testTimePkg calendarTwoEvents) calendarTwoEvents ∧
    ((splitLines (Format testTimePkg calendarTwoEvents)).filter
      (fun l => decide (l = "BEGIN:VEVENT"))).length = 2 :=
  ⟨(format_one_block_per_event testTimePkg calendarTwoEvents testTimePkg_noLF
      calendarTwoEvents_noLF).2.2.2.2.1,
   (format_one_block_per_event testTimePkg calendarTwoEvents testTimePkg_noLF
      calendarTwoEvents_noLF).2.2.2.2.2.1⟩

/-- C16 fails as stated: the calendar `calendarSplitURL` has one event, whose
URL is written as it is; the line breaks of the URL end the line URL and the
block, and open a second block, so that the output holds two blocks from
BEGIN:VEVENT to END:VEVENT and is not laid out with one block for each event. -/
theorem format_splits_block_at_url_line_break :
    calendarSplitURL.Events.length = 1 ∧
    splitLines (Format testTimePkg calendarSplitURL) =
      ["BEGIN:VCALENDAR",
       "VERSION:2.0",
       "PRODID:-//modcal//modcal//EN",
       "X-WR-CALNAME:c",
       "BEGIN:VEVENT",
       "UID:u",
       "DTSTAMP:zero/20060102T150405Z",
       "DTSTART:zero/20060102T150405Z",
       "URL:x",
       "END:VEVENT",
       "BEGIN:VEVENT",
       "END:VEVENT",
       "END:VCALENDAR"] ∧
    ((splitLines (Format testTimePkg calendarSplitURL)).filter
      (fun l => decide (l = "BEGIN:VEVENT"))).length = 2 ∧
    ¬ OneBlockPerEvent (Format testTimePkg calendarSplitURL) calendarSplitURL := by
  have hlines : splitLines (Format testTimePkg calendarSplitURL) =
      ["BEGIN:VCALENDAR",
       "VERSION:2.0",
       "PRODID:-//modcal//modcal//EN",
       "X-WR-CALNAME:c",
       "BEGIN:VEVENT",
       "UID:u",
       "DTSTAMP:zero/20060102T150405Z",
       "DTSTART:zero/20060102T150405Z",
       "URL:x",
       "END:VEVENT",
       "BEGIN:VEVENT",
       "END:VEVENT",
       "END:VCALENDAR"] := by decide
  have hcount : ((splitLines (Format testTimePkg calendarSplitURL)).filter
      (fun l => decide (l = "BEGIN:VEVENT"))).length = 2 := by
    rw [hlines]
    decide
  refine ⟨rfl, hlines, hcount, ?_⟩
  rintro ⟨blocks, hlen, hblocks, hsplit⟩
  rw [hsplit, countLine_append, countLine_append, countBegin_blocks _ hblocks, hlen,
    countLine_of_not_mem _ _ (headerLines_ne_begin calendarSplitURL)] at hcount
  revert hcount
  decide

/-! ### The HTTP handlers -/

theorem TrimPrefix_append (lead name : String) : TrimPrefix (lead ++ name) lead = name := by
  unfold TrimPrefix
  simp [String.data_append]

theorem httpError_fresh (msg : String) (code : Nat) :
    httpError ResponseWriter.fresh msg code =
      { header := [("Content-Type", "text/plain; charset=utf-8"),
                   ("X-Content-Type-Options", "nosniff")],
        status := some code,
        body := msg ++ "\n" } := by
  simp [httpError, ResponseWriter.fresh, ResponseWriter.HeaderDel, ResponseWriter.HeaderSet,
    ResponseWriter.WriteHeader, ResponseWriter.Write, assocSet]

theorem routes_calendar (tp : TimePkg) :
    assocGet "/calendar/" (Server.routes tp)
      = some (Server.authMiddleware (Server.handleGetCalendar tp)) := by
  simp [Server.routes, assocGet]

theorem authMiddleware_rejected (next : HandlerFunc) (s : Server) (w : ResponseWriter)
    (r : Request) (h : s.auth r = false) :
    Server.authMiddleware next s w r = (s, httpError w "Unauthorized" StatusUnauthorized) := by
  simp [Server.authMiddleware, h]

theorem authMiddleware_accepted (next : HandlerFunc) (s : Server) (w : ResponseWriter)
    (r : Request) (h : s.auth r = true) :
    Server.authMiddleware next s w r = next s w r := by
  simp [Server.authMiddleware, h]

theorem handleGetCalendar_not_found (tp : TimePkg) (s : Server) (r : Request) (name : String)
    (hpath : r.Path = "/calendar/" ++ name) (hname : name ≠ "") (err : Error)
    (herr : (s.calManager.GetCalendar name).value = .error err) :
    (Server.handleGetCalendar tp s ResponseWriter.fresh r).2
      = httpError ResponseWriter.fresh err StatusNotFound := by
  simp only [Server.handleGetCalendar, hpath, TrimPrefix_append, hname, if_false, herr]

theorem handleGetCalendar_ok (tp : TimePkg) (s : Server) (r : Request) (name : String)
    (hpath : r.Path = "/calendar/" ++ name) (hname : name ≠ "") (cal : Calendar)
    (hcal : (s.calManager.GetCalendar name).value = .ok cal) :
    (Server.handleGetCalendar tp s ResponseWriter.fresh r).2
      = { header := [("Content-Type", "text/calendar; charset=utf-8"),
                     ("Content-Disposition", "attachment; filename=" ++ name ++ ".ics")],
          status := some 200,
          body := Format tp cal } := by
  simp [Server.handleGetCalendar, hpath, TrimPrefix_append, hname, hcal, Sprintf_filename,
    ResponseWriter.fresh, ResponseWriter.HeaderSet, ResponseWriter.WriteHeader,
    ResponseWriter.Write, assocSet]

/-- C18: a request that the authenticator rejects is answered with status 401
by each of the two handlers that `Start` registers, with the body
"Unauthorized" and without a call of the calendar handler, whatever that
handler is.  An authenticated request to /calendar/NAME with a non-empty NAME
is answered with status 404 and the lookup error as its plain-text body when
NAME is not a defined calendar, and with status 200 and the body
`Format` of the calendar that `GetCalendar` returns when it is. -/
theorem handlers_answer (tp : TimePkg) (s : Server) (r : Request) (name : String)
    (hname : name ≠ "") :
    (s.auth r = false →
      (∀ next : HandlerFunc,
        Server.authMiddleware next s ResponseWriter.fresh r
          = (s, httpError ResponseWriter.fresh "Unauthorized" 401)) ∧
      (∀ h ∈ (Server.routes tp).map Prod.snd,
        (h s ResponseWriter.fresh r).1 = s ∧
        (h s ResponseWriter.fresh r).2.status = some 401 ∧
        (h s ResponseWriter.fresh r).2.body = "Unauthorized\n")) ∧
    (s.auth r = true → r.Path = "/calendar/" ++ name →
      s.calManager.calendars.get name = none →
      ∃ h, assocGet "/calendar/" (Server.routes tp) = some h ∧
        (h s ResponseWriter.fresh r).2.status = some 404 ∧
        (h s ResponseWriter.fresh r).2.body = "calendar " ++ name ++ " not found" ++ "\n" ∧
        assocGet "Content-Type" (h s ResponseWriter.fresh r).2.header
          = some "text/plain; charset=utf-8") ∧
    (s.auth r = true → r.Path = "/calendar/" ++ name →
      ∀ cal, (s.calManager.GetCalendar name).value = .ok cal →
      ∃ h, assocGet "/calendar/" (Server.routes tp) = some h ∧
        (h s ResponseWriter.fresh r).2.status = some 200 ∧
        (h s ResponseWriter.fresh r).2.body = Format tp cal ∧
        assocGet "Content-Type" (h s ResponseWriter.fresh r).2.header
          = some "text/calendar; charset=utf-8") := by
  refine ⟨?_, ?_, ?_⟩
  · intro hrej
    refine ⟨fun next => authMiddleware_rejected next s _ r hrej, ?_⟩
    intro h hh
    simp only [Server.routes, List.map_cons, List.map_nil, List.mem_cons, List.mem_singleton,
      List.not_mem_nil, or_false] at hh
    rcases hh with rfl | rfl <;>
      rw [authMiddleware_rejected _ s _ r hrej] <;>
      simp [httpError_fresh, StatusUnauthorized]
  · intro hacc hpath hundef
    refine ⟨_, routes_calendar tp, ?_⟩
    rw [authMiddleware_accepted _ s _ r hacc,
      handleGetCalendar_not_found tp s r name hpath hname _
        (getCalendar_value_of_undefined s.calManager name hundef), httpError_fresh]
    simp [StatusNotFound, assocGet]
  · intro hacc hpath cal hcal
    refine ⟨_, routes_calendar tp, ?_⟩
    rw [authMiddleware_accepted _ s _ r hacc, handleGetCalendar_ok tp s r name hpath hname cal hcal]
    simp [assocGet]

/-- Witness of C18: the calendar `C` of `testServer`, requested with the key. -/
theorem handlers_answer_witness :
    ("C" : String) ≠ "" ∧
    testServer.auth { Path := "/calendar/C", Query := [("apikey", "secret")] } = true ∧
    (∃ h, assocGet "/calendar/" (Server.routes testTimePkg) = some h ∧
      (h testServer ResponseWriter.fresh
        { Path := "/calendar/C", Query := [("apikey", "secret")] }).2.status = some 200 ∧
      (h testServer ResponseWriter.fresh
        { Path := "/calendar/C", Query := [("apikey", "secret")] }).2.body
        = Format testTimePkg
            { Name := "C", Description := "both",
              Events := [testEvent "a1", testEvent "b1", testEvent "b2"] } ∧
      assocGet "Content-Type" (h testServer ResponseWriter.fresh
        { Path := "/calendar/C", Query := [("apikey", "secret")] }).2.header
        = some "text/calendar; charset=utf-8") :=
  ⟨by decide, by decide,
   (handlers_answer testTimePkg testServer
      { Path := "/calendar/C", Query := [("apikey", "secret")] } "C" (by decide)).2.2
      (by decide) (by decide) _ (by decide)⟩

/-! ### The fetch tasks of a cycle -/

/-- The calls of `FetchEvents` made by the tasks: one for each task of an
instance of the snapshot, with the context of the cycle. -/
theorem runTasks_fetched (instances : GoMap Plugin) (ctx : Context) :
    ∀ (order : List String) (s : RefreshState),
      (runTasks instances ctx order s).fetched =
        s.fetched ++
          (order.filter (fun id => (instances.get id).isSome)).map (fun id => (id, ctx))
  | [], s => by simp [runTasks_nil]
  | a :: rest, s => by
    rw [runTasks_cons, runTasks_fetched instances ctx rest]
    cases hp : instances.get a with
    | none => simp [hp]
    | some p =>
      cases hf : p.FetchEvents ctx with
      | error e => simp [hp, hf, fetchTask]
      | ok evs => simp [hp, hf, fetchTask]

theorem refresh_fetched_eq (m : Manager) (ctx : Context) (order : List String)
    (hdone : m.Completion order) :
    (m.RefreshEvents ctx order).fetched = order.map (fun id => (id, ctx)) := by
  have h : (m.RefreshEvents ctx order).fetched =
      [] ++ (order.filter (fun id => ((snapshot m.pluginManager).get id).isSome)).map
        (fun id => (id, ctx)) :=
    runTasks_fetched _ ctx order _
  rw [h, List.nil_append]
  congr 1
  rw [List.filter_eq_self]
  intro id hid
  apply (GoMap.get_isSome_iff _ _).mpr
  exact hdone.mem_iff.mp hid

/-- An element of a list without duplicates occurs in it once. -/
theorem length_filter_eq_one {α : Type} [DecidableEq α] (a : α) :
    ∀ (l : List α), l.Nodup → a ∈ l → (l.filter (fun x => decide (x = a))).length = 1
  | [], _, h => by cases h
  | b :: rest, hnd, h => by
    rw [List.nodup_cons] at hnd
    by_cases hb : b = a
    · subst hb
      have hnone : rest.filter (fun x => decide (x = b)) = [] := by
        rw [List.filter_eq_nil_iff]
        intro x hx
        simp only [decide_eq_true_eq]
        intro e
        exact hnd.1 (e ▸ hx)
      simp [List.filter_cons, hnone]
    · have hmem : a ∈ rest := by
        rcases List.mem_cons.mp h with e | hm
        · exact absurd e.symm hb
        · exact hm
      simp [List.filter_cons, hb, length_filter_eq_one a rest hnd.2 hmem]

theorem snapshotW_eq {W : Type} (pm : PluginManagerW W) : snapshotW pm = pm.instances := by
  apply GoMap.eq_of_entries_eq
  have h := foldl_set_entries pm.instances.entries GoMap.empty
    (by simpa [GoMap.empty] using pm.instances.nodup)
  simpa [snapshotW, GoMap.empty] using h

/-- A decision of the scheduler takes the goroutine at the picked position out
of the goroutines that are running. -/
theorem finishOrder_cons {α : Type} (k : Nat) (picks : List Nat) (running : List α)
    (next : α) (later : List α) (h : running.drop (k % running.length) = next :: later) :
    finishOrder (k :: picks) running =
      next :: finishOrder picks (running.take (k % running.length) ++ later) := by
  cases running with
  | nil => simp at h
  | cons t ts =>
    rw [List.length_cons] at h ⊢
    simp only [finishOrder]
    split
    · next _ _ heq =>
      rw [h] at heq
      cases heq
      rfl
    · next heq =>
      rw [h] at heq
      cases heq

/-- Every goroutine that was started finishes, once. -/
theorem finishOrder_perm {α : Type} :
    ∀ (picks : List Nat) (running : List α), (finishOrder picks running).Perm running
  | [], [] => by simp [finishOrder]
  | [], t :: ts => by simp [finishOrder]
  | k :: picks, [] => by simp [finishOrder]
  | k :: picks, t :: ts => by
    cases hd : (t :: ts).drop (k % (t :: ts).length) with
    | nil =>
      have hlt : k % (t :: ts).length < (t :: ts).length :=
        Nat.mod_lt _ (by simp)
      have := List.drop_eq_nil_iff.mp hd
      omega
    | cons next later =>
      rw [finishOrder_cons k picks (t :: ts) next later hd]
      have ih := finishOrder_perm picks ((t :: ts).take (k % (t :: ts).length) ++ later)
      have hsplit : (t :: ts).take (k % (t :: ts).length) ++ next :: later = t :: ts := by
        rw [← hd, List.take_append_drop]
      exact ((ih.cons next).trans List.perm_middle.symm).trans (List.Perm.of_eq hsplit)

/-- Every order of the goroutines is one in which the scheduler lets them
finish. -/
theorem finishOrder_surjective {α : Type} :
    ∀ (order running : List α), order.Perm running → ∃ picks, finishOrder picks running = order
  | [], running, h => by
    have : running = [] := List.perm_nil.mp h.symm
    subst this
    exact ⟨[], by simp [finishOrder]⟩
  | x :: rest, running, h => by
    have hx : x ∈ running := h.subset (List.mem_cons_self _ _)
    obtain ⟨s, t, rfl⟩ := List.append_of_mem hx
    have hrest : rest.Perm (s ++ t) := (List.perm_cons x).mp (h.trans List.perm_middle)
    obtain ⟨picks, hp⟩ := finishOrder_surjective rest (s ++ t) hrest
    have hmod : s.length % (s ++ x :: t).length = s.length := by
      apply Nat.mod_eq_of_lt
      simp
    have hdrop : (s ++ x :: t).drop (s.length % (s ++ x :: t).length) = x :: t := by
      rw [hmod, List.drop_left]
    refine ⟨s.length :: picks, ?_⟩
    rw [finishOrder_cons _ picks _ x t hdrop, hmod, List.take_left, hp]

/-- The scheduler does not look at the goroutines it orders. -/
theorem finishOrder_map {α β : Type} (f : α → β) :
    ∀ (picks : List Nat) (running : List α),
      finishOrder picks (running.map f) = (finishOrder picks running).map f
  | [], [] => by simp [finishOrder]
  | [], t :: ts => by simp [finishOrder]
  | k :: picks, [] => by simp [finishOrder]
  | k :: picks, t :: ts => by
    cases hd : (t :: ts).drop (k % (t :: ts).length) with
    | nil =>
      have hlt : k % (t :: ts).length < (t :: ts).length :=
        Nat.mod_lt _ (by simp)
      have := List.drop_eq_nil_iff.mp hd
      omega
    | cons next later =>
      have hd' : ((t :: ts).map f).drop (k % ((t :: ts).map f).length)
          = f next :: later.map f := by
        rw [List.length_map, ← List.map_drop, hd, List.map_cons]
      rw [finishOrder_cons k picks (t :: ts) next later hd,
        finishOrder_cons k picks ((t :: ts).map f) (f next) (later.map f) hd',
        List.length_map, ← List.map_take, ← List.map_append,
        finishOrder_map f picks, List.map_cons]

theorem runTasksW_nil {W : Type} (ctx : Context) (s : RefreshStateW W) :
    runTasksW ctx [] s = s := rfl

theorem runTasksW_cons {W : Type} (ctx : Context) (task : String × PluginW W)
    (rest : List (String × PluginW W)) (s : RefreshStateW W) :
    runTasksW ctx (task :: rest) s = runTasksW ctx rest (fetchTaskW ctx task.1 task.2 s) := rfl

/-- A task leaves the world as its one call of `FetchEvents` leaves it. -/
theorem fetchTaskW_world {W : Type} (ctx : Context) (id : String) (p : PluginW W)
    (s : RefreshStateW W) :
    (fetchTaskW ctx id p s).world = (p.FetchEvents ctx s.world).2 := by
  unfold fetchTaskW
  rcases h : p.FetchEvents ctx s.world with ⟨r, w⟩
  cases r <;> rfl

theorem runTasksW_world {W : Type} (ctx : Context) :
    ∀ (finished : List (String × PluginW W)) (s : RefreshStateW W),
      (runTasksW ctx finished s).world =
        finished.foldl (fun w task => (task.2.FetchEvents ctx w).2) s.world
  | [], s => rfl
  | task :: rest, s => by
    rw [runTasksW_cons, runTasksW_world ctx rest, fetchTaskW_world, List.foldl_cons]

/-- The task of an instance that keeps the log does what the task of the
instance does, and adds one call to the log. -/
theorem fetchTaskW_logged {W : Type} (ctx : Context) (id : String) (p : PluginW W)
    (s : RefreshStateW W) (log : List FetchCall) :
    fetchTaskW ctx id (p.logged id)
        { eventCache := s.eventCache, errChan := s.errChan, world := (s.world, log) } =
      { eventCache := (fetchTaskW ctx id p s).eventCache,
        errChan := (fetchTaskW ctx id p s).errChan,
        world := ((fetchTaskW ctx id p s).world, log ++ [(id, ctx)]) } := by
  unfold fetchTaskW PluginW.logged
  rcases h : p.FetchEvents ctx s.world with ⟨r, w⟩
  cases r <;> simp [h]

theorem runTasksW_logged {W : Type} (ctx : Context) :
    ∀ (finished : List (String × PluginW W)) (s : RefreshStateW W) (log : List FetchCall),
      runTasksW ctx (finished.map (fun e => (e.1, e.2.logged e.1)))
          { eventCache := s.eventCache, errChan := s.errChan, world := (s.world, log) } =
        { eventCache := (runTasksW ctx finished s).eventCache,
          errChan := (runTasksW ctx finished s).errChan,
          world := ((runTasksW ctx finished s).world,
            log ++ finished.map (fun e => (e.1, ctx))) }
  | [], s, log => by simp [runTasksW_nil]
  | task :: rest, s, log => by
    rw [List.map_cons, runTasksW_cons, runTasksW_cons]
    show runTasksW ctx _ (fetchTaskW ctx task.1 (task.2.logged task.1) _) = _
    rw [fetchTaskW_logged, runTasksW_logged ctx rest]
    simp

/-- A cycle of the manager whose instances keep the log, in terms of the cycle
of the manager itself. -/
theorem refreshW_logged {W : Type} (m : ManagerW W) (ctx : Context) (picks : List Nat)
    (world : W) (log : List FetchCall) :
    (m.logged.RefreshEvents ctx picks (world, log)).world =
      ((m.RefreshEvents ctx picks world).world,
        log ++ (finishOrder picks m.pluginManager.instances.entries).map
          (fun task => (task.1, ctx))) ∧
    (m.logged.RefreshEvents ctx picks (world, log)).value
      = (m.RefreshEvents ctx picks world).value ∧
    (m.logged.RefreshEvents ctx picks (world, log)).state.eventCache
      = (m.RefreshEvents ctx picks world).state.eventCache := by
  have hrun : runTasksW ctx (finishOrder picks (snapshotW m.logged.pluginManager).entries)
      { eventCache := m.logged.eventCache, errChan := [], world := (world, log) } =
      { eventCache := (runTasksW ctx (finishOrder picks (snapshotW m.pluginManager).entries)
          { eventCache := m.eventCache, errChan := [], world := world }).eventCache,
        errChan := (runTasksW ctx (finishOrder picks (snapshotW m.pluginManager).entries)
          { eventCache := m.eventCache, errChan := [], world := world }).errChan,
        world := ((runTasksW ctx (finishOrder picks (snapshotW m.pluginManager).entries)
          { eventCache := m.eventCache, errChan := [], world := world }).world,
          log ++ (finishOrder picks m.pluginManager.instances.entries).map
            (fun task => (task.1, ctx))) } := by
    rw [snapshotW_eq, snapshotW_eq]
    show runTasksW ctx (finishOrder picks
      (m.pluginManager.instances.entries.map (fun e => (e.1, e.2.logged e.1)))) _ = _
    rw [finishOrder_map]
    exact runTasksW_logged ctx _ { eventCache := m.eventCache, errChan := [], world := world } log
  simp [ManagerW.RefreshEvents, hrun]

/-- The task of an instance of the first model, run on a world. -/
theorem fetchTaskW_onWorld {W : Type} (ctx : Context) (id : String) (p : Plugin)
    (s : RefreshState) (w : W) :
    fetchTaskW ctx id p.onWorld
        { eventCache := s.eventCache, errChan := s.errChan, world := w } =
      { eventCache := (fetchTask ctx id p s).eventCache,
        errChan := (fetchTask ctx id p s).errChan,
        world := w } := by
  unfold fetchTaskW fetchTask Plugin.onWorld
  simp only []
  cases p.FetchEvents ctx <;> rfl

theorem runTasksW_onWorld {W : Type} (instances : GoMap Plugin) (ctx : Context) (w : W) :
    ∀ (finished : List (String × Plugin)), (∀ e ∈ finished, instances.get e.1 = some e.2) →
      ∀ (s : RefreshState),
        runTasksW ctx (finished.map (fun e => (e.1, (e.2.onWorld : PluginW W))))
            { eventCache := s.eventCache, errChan := s.errChan, world := w } =
          { eventCache := (runTasks instances ctx (finished.map Prod.fst) s).eventCache,
            errChan := (runTasks instances ctx (finished.map Prod.fst) s).errChan,
            world := w }
  | [], _, s => rfl
  | task :: rest, h, s => by
    have htask := h task (List.mem_cons_self _ _)
    rw [List.map_cons, runTasksW_cons, List.map_cons, runTasks_cons]
    show runTasksW ctx _ (fetchTaskW ctx task.1 task.2.onWorld _) = _
    rw [fetchTaskW_onWorld,
      runTasksW_onWorld instances ctx w rest (fun e he => h e (List.mem_cons_of_mem _ he))]
    simp only [htask]

/-- The two models of `RefreshEvents` agree: on instances whose `FetchEvents`
leaves the world as it is, the cycle returns the value and leaves the cache of
the cycle of the first model whose tasks finish in the order of the scheduler,
an order that lists every instance once. -/
theorem refreshW_onWorld {W : Type} (m : Manager) (ctx : Context) (picks : List Nat)
    (world : W) :
    m.Completion (finishOrder picks m.pluginManager.instances.keys) ∧
    ((m.onWorld : ManagerW W).RefreshEvents ctx picks world).value =
      (m.RefreshEvents ctx (finishOrder picks m.pluginManager.instances.keys)).value ∧
    ((m.onWorld : ManagerW W).RefreshEvents ctx picks world).state.eventCache =
      (m.RefreshEvents ctx (finishOrder picks m.pluginManager.instances.keys)).state.eventCache ∧
    ((m.onWorld : ManagerW W).RefreshEvents ctx picks world).world = world := by
  have hmem : ∀ e ∈ finishOrder picks m.pluginManager.instances.entries,
      (snapshot m.pluginManager).get e.1 = some e.2 := by
    intro e he
    rw [snapshot_eq]
    exact (GoMap.get_eq_some_iff _ _ _).mpr ((finishOrder_perm picks _).mem_iff.mp he)
  have hkeys : finishOrder picks m.pluginManager.instances.keys =
      (finishOrder picks m.pluginManager.instances.entries).map Prod.fst :=
    finishOrder_map Prod.fst picks _
  have hrun : runTasksW ctx
      (finishOrder picks (snapshotW (m.onWorld : ManagerW W).pluginManager).entries)
      { eventCache := (m.onWorld : ManagerW W).eventCache, errChan := [], world := world } =
      { eventCache := (runTasks (snapshot m.pluginManager) ctx
          (finishOrder picks m.pluginManager.instances.keys)
          { eventCache := m.eventCache, errChan := [], fetched := [] }).eventCache,
        errChan := (runTasks (snapshot m.pluginManager) ctx
          (finishOrder picks m.pluginManager.instances.keys)
          { eventCache := m.eventCache, errChan := [], fetched := [] }).errChan,
        world := world } := by
    rw [snapshotW_eq, hkeys]
    show runTasksW ctx (finishOrder picks
      (m.pluginManager.instances.entries.map (fun e => (e.1, (e.2.onWorld : PluginW W))))) _ = _
    rw [finishOrder_map]
    exact runTasksW_onWorld (snapshot m.pluginManager) ctx world _ hmem
      { eventCache := m.eventCache, errChan := [], fetched := [] }
  refine ⟨?_, ?_⟩
  · unfold Manager.Completion
    rw [snapshot_eq]
    exact finishOrder_perm picks _
  · simp [ManagerW.RefreshEvents, Manager.RefreshEvents, hrun]

/-- C21: in one `RefreshEvents` call the goroutines that run are one for each
instance that the plugin manager holds when the snapshot is taken, whatever
the scheduler decides.  Each calls `FetchEvents` once, with the context passed
by the caller: the world after the call is the world before it changed by one
call of `FetchEvents` for each goroutine, in the order in which they finish.
When the instances keep a log of the calls made on them, the log of a cycle
holds one call for each goroutine; up to the order it is one call for each
instance id, with the context of the caller, so that every instance is called
exactly once, its fetch failing or not, and nothing that is not an instance is
called; keeping the log changes nothing else.  Every order of the goroutines is
one that the scheduler can pick.  On `mgrCounting` the instance
`A`, which fails at its first call and would succeed at a second, is called
once and gets no cache entry. -/
theorem refresh_fetches_each_instance_once {W : Type} (m : ManagerW W) (ctx : Context)
    (picks : List Nat) (world : W) :
    (finishOrder picks (snapshotW m.pluginManager).entries).Perm
      m.pluginManager.instances.entries ∧
    (m.RefreshEvents ctx picks world).world =
      (finishOrder picks (snapshotW m.pluginManager).entries).foldl
        (fun w task => (task.2.FetchEvents ctx w).2) world ∧
    (m.logged.RefreshEvents ctx picks (world, [])).world.2 =
      (finishOrder picks (snapshotW m.pluginManager).entries).map
        (fun task => (task.1, ctx)) ∧
    (m.logged.RefreshEvents ctx picks (world, [])).world.2.Perm
      (m.pluginManager.instances.keys.map (fun id => (id, ctx))) ∧
    (m.logged.RefreshEvents ctx picks (world, [])).world.2.Nodup ∧
    (∀ id p, m.pluginManager.instances.get id = some p →
      ((m.logged.RefreshEvents ctx picks (world, [])).world.2.filter
        (fun call => decide (call = (id, ctx)))).length = 1) ∧
    (∀ call ∈ (m.logged.RefreshEvents ctx picks (world, [])).world.2,
      call.2 = ctx ∧ ∃ p, m.pluginManager.instances.get call.1 = some p) ∧
    ((m.logged.RefreshEvents ctx picks (world, [])).world.1
        = (m.RefreshEvents ctx picks world).world ∧
      (m.logged.RefreshEvents ctx picks (world, [])).value
        = (m.RefreshEvents ctx picks world).value ∧
      (m.logged.RefreshEvents ctx picks (world, [])).state.eventCache
        = (m.RefreshEvents ctx picks world).state.eventCache) ∧
    (∀ order : List (String × PluginW W), order.Perm m.pluginManager.instances.entries →
      ∃ picks, finishOrder picks (snapshotW m.pluginManager).entries = order) ∧
    ((mgrCounting.RefreshEvents ctx [] 0).world = 1 ∧
      (mgrCounting.RefreshEvents ctx [1] 0).world = 1 ∧
      (mgrCounting.RefreshEvents ctx [] 0).state.eventCache.get "A" = none ∧
      (mgrCounting.RefreshEvents ctx [] 0).value = some "plugin A: not ready" ∧
      (mgrCounting.RefreshEvents ctx [1] 0).value = some "plugin B: refused") := by
  have hperm := finishOrder_perm picks m.pluginManager.instances.entries
  have hlog := refreshW_logged m ctx picks world []
  have hkeys : ((finishOrder picks m.pluginManager.instances.entries).map
      (fun task => (task.1, ctx))).Perm
        (m.pluginManager.instances.keys.map (fun id => (id, ctx))) := by
    have h := (hperm.map Prod.fst).map (fun id : String => (id, ctx))
    simpa [GoMap.keys, List.map_map] using h
  have hinj : Function.Injective (fun id : String => (id, ctx)) := by
    intro a b hab
    exact (Prod.mk.inj hab).1
  have hnd : ((finishOrder picks m.pluginManager.instances.entries).map
      (fun task => (task.1, ctx))).Nodup :=
    hkeys.nodup_iff.mpr (List.Nodup.map hinj m.pluginManager.instances.nodup)
  have hlogeq : (m.logged.RefreshEvents ctx picks (world, [])).world.2 =
      (finishOrder picks m.pluginManager.instances.entries).map (fun task => (task.1, ctx)) := by
    rw [hlog.1]
    rfl
  refine ⟨?_, ?_, ?_, ?_, ?_, ?_, ?_, ⟨?_, hlog.2.1, hlog.2.2⟩, ?_, ?_⟩
  · rw [snapshotW_eq]
    exact hperm
  · exact runTasksW_world ctx (finishOrder picks (snapshotW m.pluginManager).entries)
      { eventCache := m.eventCache, errChan := [], world := world }
  · rw [snapshotW_eq]
    exact hlogeq
  · rw [hlogeq]; exact hkeys
  · rw [hlogeq]; exact hnd
  · intro id p hp
    rw [hlogeq]
    apply length_filter_eq_one (id, ctx) _ hnd
    have hmem : (id, p) ∈ finishOrder picks m.pluginManager.instances.entries :=
      hperm.mem_iff.mpr ((GoMap.get_eq_some_iff _ _ _).mp hp)
    exact List.mem_map.mpr ⟨(id, p), hmem, rfl⟩
  · intro call hcall
    rw [hlogeq] at hcall
    obtain ⟨task, htask, rfl⟩ := List.mem_map.mp hcall
    exact ⟨rfl, task.2, (GoMap.get_eq_some_iff _ _ _).mpr (hperm.mem_iff.mp htask)⟩
  · rw [hlog.1]
  · intro order horder
    rw [snapshotW_eq]
    exact finishOrder_surjective order _ horder
  · refine ⟨rfl, rfl, rfl, rfl, rfl⟩

/-- The cache entry of an id after the tasks have run, in terms of the set of
tasks that ran and not of their order. -/
theorem runTasks_cache_get (instances : GoMap Plugin) (ctx : Context) (id : String)
    (order : List String) (s : RefreshState) :
    (runTasks instances ctx order s).eventCache.get id =
      if id ∈ order then
        (match instances.get id with
         | some p =>
           (match p.FetchEvents ctx with
            | .ok evs => some evs
            | .error _ => s.eventCache.get id)
         | none => s.eventCache.get id)
      else s.eventCache.get id := by
  by_cases hmem : id ∈ order
  · rw [if_pos hmem]
    cases hp : instances.get id with
    | none => exact runTasks_cache_of_no_instance instances ctx id hp order s
    | some p =>
      cases hf : p.FetchEvents ctx with
      | error e =>
        rw [runTasks_cache_of_error instances ctx id p e hp hf order s]
        simp only [hf]
      | ok evs =>
        rw [runTasks_cache_of_ok instances ctx id p evs hp hf order s hmem]
        simp only [hf]
  · rw [if_neg hmem]
    exact runTasks_cache_other instances ctx id order s hmem

/-- Two maps that answer every lookup alike are layouts of one map. -/
theorem GoMap.sameMap_of_get_eq {V : Type} (m m' : GoMap V)
    (h : ∀ k, m.get k = m'.get k) : m.SameMap m' := by
  unfold GoMap.SameMap
  rw [List.perm_ext_iff_of_nodup (List.Nodup.of_map Prod.fst m.nodup)
    (List.Nodup.of_map Prod.fst m'.nodup)]
  rintro ⟨k, v⟩
  rw [← GoMap.get_eq_some_iff, ← GoMap.get_eq_some_iff, h k]

theorem fetchTask_cache_other (ctx : Context) (id : String) (p : Plugin) (s : RefreshState)
    (j : String) (hj : j ≠ id) :
    (fetchTask ctx id p s).eventCache.get j = s.eventCache.get j := by
  unfold fetchTask
  cases p.FetchEvents ctx with
  | error e => rfl
  | ok evs => exact GoMap.get_set_other _ _ _ _ hj

/-- C22: the cache that a `RefreshEvents` cycle leaves does not depend on the
order in which the fetch tasks finish: for one manager and one context, two
orders over the instances give caches that hold the same entry under every id,
so that they are one map.  Each task leaves the entries of the other ids as
they are. -/
theorem refresh_cache_order_independent (m : Manager) (ctx : Context)
    (order order' : List String) (hdone : m.Completion order) (hdone' : m.Completion order') :
    (∀ id, (m.RefreshEvents ctx order).state.eventCache.get id
      = (m.RefreshEvents ctx order').state.eventCache.get id) ∧
    (m.RefreshEvents ctx order).state.eventCache.SameMap
      (m.RefreshEvents ctx order').state.eventCache ∧
    (∀ (id : String) (p : Plugin) (s : RefreshState) (j : String), j ≠ id →
      (fetchTask ctx id p s).eventCache.get j = s.eventCache.get j) := by
  have hperm : order.Perm order' := hdone.trans hdone'.symm
  have hget : ∀ id, (m.RefreshEvents ctx order).state.eventCache.get id
      = (m.RefreshEvents ctx order').state.eventCache.get id := by
    intro id
    have h1 := runTasks_cache_get (snapshot m.pluginManager) ctx id order
      { eventCache := m.eventCache, errChan := [], fetched := [] }
    have h2 := runTasks_cache_get (snapshot m.pluginManager) ctx id order'
      { eventCache := m.eventCache, errChan := [], fetched := [] }
    have hiff : id ∈ order ↔ id ∈ order' := hperm.mem_iff
    show (runTasks (snapshot m.pluginManager) ctx order _).eventCache.get id
      = (runTasks (snapshot m.pluginManager) ctx order' _).eventCache.get id
    rw [h1, h2]
    simp only [hiff]
  exact ⟨hget, GoMap.sameMap_of_get_eq _ _ hget,
    fun id p s j hj => fetchTask_cache_other ctx id p s j hj⟩

/-- Witness of C22: the two orders of the tasks of `mgrAB`. -/
theorem refresh_cache_order_independent_witness :
    mgrAB.Completion ["A", "B"] ∧ mgrAB.Completion ["B", "A"] ∧
    (mgrAB.RefreshEvents 0 ["A", "B"]).state.eventCache.SameMap
      (mgrAB.RefreshEvents 0 ["B", "A"]).state.eventCache :=
  ⟨by unfold Manager.Completion; decide, by unfold Manager.Completion; decide,
   (refresh_cache_order_independent mgrAB 0 ["A", "B"] ["B", "A"]
     (by unfold Manager.Completion; decide) (by unfold Manager.Completion; decide)).2.1⟩

/-! ### The authenticators -/

/-- C23: for every method, configured key and request, the authenticator that
`NewAuthenticator` returns accepts the request exactly when the method is not
the string "apikey" or the value of the query parameter `apikey` of the
request, empty when there is none, is the configured key.  So every other
method lets every request pass, and under "apikey" with a key that is not
empty a request with another key or without one is rejected. -/
theorem newAuthenticator_accepts_iff (method key : String) (r : Request) :
    (NewAuthenticator method key r = true ↔
      (method ≠ "apikey" ∨ r.QueryGet "apikey" = key)) ∧
    (method ≠ "apikey" → NewAuthenticator method key r = true) ∧
    (method = "apikey" → r.QueryGet "apikey" ≠ key →
      NewAuthenticator method key r = false) ∧
    (method = "apikey" → key ≠ "" → assocGet "apikey" r.Query = none →
      NewAuthenticator method key r = false) := by
  have hiff : NewAuthenticator method key r = true ↔
      (method ≠ "apikey" ∨ r.QueryGet "apikey" = key) := by
    unfold NewAuthenticator
    by_cases hm : method = "apikey"
    · simp [hm, APIKeyAuth.Authenticate]
    · simp [hm, NoAuth.Authenticate]
  refine ⟨hiff, fun hm => hiff.mpr (Or.inl hm), ?_, ?_⟩
  · intro hm hk
    cases hv : NewAuthenticator method key r with
    | false => rfl
    | true =>
      rcases hiff.mp hv with h | h
      · exact absurd hm h
      · exact absurd h hk
  · intro hm hk hnone
    have hq : r.QueryGet "apikey" = "" := by simp [Request.QueryGet, hnone]
    cases hv : NewAuthenticator method key r with
    | false => rfl
    | true =>
      rcases hiff.mp hv with h | h
      · exact absurd hm h
      · exact absurd (hq.symm.trans h).symm hk

/-! ### Unescaping -/

theorem unescapeChars_cons_of_ne (c : Char) (h : c ≠ backslash) :
    ∀ (l : List Char), unescapeChars (c :: l) = c :: unescapeChars l
  | [] => by simp [unescapeChars]
  | d :: rest => by simp [unescapeChars, h]

theorem unescapeChars_backslash (d : Char) (rest : List Char) :
    unescapeChars (backslash :: d :: rest)
      = (if d = 'n' then LF else d) :: unescapeChars rest := by
  simp [unescapeChars]

theorem unescapeChars_escape :
    ∀ (l : List Char), unescapeChars (l.flatMap escapeChar) = l
  | [] => by simp [unescapeChars]
  | c :: cs => by
    have ih := unescapeChars_escape cs
    rw [List.flatMap_cons]
    by_cases h1 : c = backslash
    · have hc : escapeChar backslash = [backslash, backslash] := by decide
      subst h1
      rw [hc]
      show unescapeChars (backslash :: backslash :: cs.flatMap escapeChar) = _
      rw [unescapeChars_backslash, ih, if_neg (by decide)]
    · by_cases h2 : c = ';'
      · have hc : escapeChar ';' = [backslash, ';'] := by decide
        subst h2
        rw [hc]
        show unescapeChars (backslash :: ';' :: cs.flatMap escapeChar) = _
        rw [unescapeChars_backslash, ih, if_neg (by decide)]
      · by_cases h3 : c = ','
        · have hc : escapeChar ',' = [backslash, ','] := by decide
          subst h3
          rw [hc]
          show unescapeChars (backslash :: ',' :: cs.flatMap escapeChar) = _
          rw [unescapeChars_backslash, ih, if_neg (by decide)]
        · by_cases h4 : c = LF
          · have hc : escapeChar LF = [backslash, 'n'] := by decide
            subst h4
            rw [hc]
            show unescapeChars (backslash :: 'n' :: cs.flatMap escapeChar) = _
            rw [unescapeChars_backslash, ih, if_pos rfl]
          · have hc : escapeChar c = [c] := by simp [escapeChar, h1, h2, h3, h4]
            rw [hc, List.singleton_append, unescapeChars_cons_of_ne c h1, ih]

/-- C26: `escapeText` is injective, and `unescapeText` is a left inverse of
it: unescaping the escape of a text gives the text back. -/
theorem escapeText_injective :
    (∀ s t : String, escapeText s = escapeText t → s = t) ∧
    (∀ s : String, unescapeText (escapeText s) = s) ∧
    (∃ unescape : String → String, ∀ s, unescape (escapeText s) = s) := by
  have hinv : ∀ s : String, unescapeText (escapeText s) = s := by
    intro s
    apply String.ext
    simp only [unescapeText, escapeText_data, unescapeChars_escape]
  refine ⟨?_, hinv, ⟨unescapeText, hinv⟩⟩
  intro s t h
  rw [← hinv s, ← hinv t, h]

/-! ### The `Create` methods -/

theorem not_missingKey_iff (config : GoMap ConfigValue) (key : String) :
    ¬ MissingKey config key ↔ ∃ s, s ≠ "" ∧ config.get key = some (.str s) := by
  unfold MissingKey
  cases h : config.get key with
  | none => simp
  | some v =>
    cases v with
    | str s =>
      by_cases hs : s = ""
      · simp [hs]
      · simp [hs]
    | int n => simp
    | bool b => simp
    | other => simp

/-- The first test of `Create` on a required key fails exactly when the key is
missing. -/
theorem required_test (config : GoMap ConfigValue) (key : String) :
    ((!(assertString (config.get key)).2 || decide ((assertString (config.get key)).1 = ""))
      = true) ↔ MissingKey config key := by
  unfold MissingKey
  cases h : config.get key with
  | none => simp [assertString]
  | some v =>
    cases v with
    | str s =>
      by_cases hs : s = ""
      · simp [assertString, hs]
      · simp [assertString, hs]
    | int n => simp [assertString]
    | bool b => simp [assertString]
    | other => simp [assertString]

theorem assertString_fst (config : GoMap ConfigValue) (key : String) :
    (assertString (config.get key)).1 = stringSetting config key := by
  unfold stringSetting
  cases h : config.get key with
  | none => rfl
  | some v => cases v <;> rfl

theorem assertString_setting (config : GoMap ConfigValue) (key : String) :
    (if (assertString (config.get key)).2 = true then (assertString (config.get key)).1
      else "") = stringSetting config key := by
  unfold stringSetting
  cases h : config.get key with
  | none => rfl
  | some v => cases v <;> rfl

theorem assertInt_setting (config : GoMap ConfigValue) (key : String) (default : Int) :
    (if (assertInt (config.get key)).2 = true then (assertInt (config.get key)).1
      else default) = intSetting config key default := by
  unfold intSetting
  cases h : config.get key with
  | none => rfl
  | some v => cases v <;> rfl

theorem required_test_false (config : GoMap ConfigValue) (key : String)
    (h : ¬ MissingKey config key) :
    (!(assertString (config.get key)).2 || decide ((assertString (config.get key)).1 = ""))
      = false := by
  cases ht : (!(assertString (config.get key)).2
    || decide ((assertString (config.get key)).1 = "")) with
  | false => rfl
  | true => exact absurd ((required_test config key).mp ht) h

theorem traktCreate_missing_clientId (p : TraktPlugin) (config : GoMap ConfigValue)
    (h : MissingKey config "clientId") :
    p.Create config = .error "clientId is required" := by
  have ht := (required_test config "clientId").mpr h
  simp only [TraktPlugin.Create, ht, if_true]

theorem traktCreate_missing_accessToken (p : TraktPlugin) (config : GoMap ConfigValue)
    (h1 : ¬ MissingKey config "clientId") (h2 : MissingKey config "accessToken") :
    p.Create config = .error "accessToken is required" := by
  have ht1 := required_test_false config "clientId" h1
  have ht2 := (required_test config "accessToken").mpr h2
  simp only [TraktPlugin.Create, ht1, ht2, if_true, Bool.false_eq_true, if_false]

theorem traktCreate_ok (p : TraktPlugin) (config : GoMap ConfigValue)
    (h1 : ¬ MissingKey config "clientId") (h2 : ¬ MissingKey config "accessToken") :
    p.Create config = .ok
      { clientID := stringSetting config "clientId",
        accessToken := stringSetting config "accessToken",
        daysBack := intSetting config "daysBack" 7,
        daysForward := intSetting config "daysForward" 14,
        client := { Timeout := 30000000000 } } := by
  have ht1 := required_test_false config "clientId" h1
  have ht2 := required_test_false config "accessToken" h2
  simp only [TraktPlugin.Create, ht1, ht2, Bool.false_eq_true, if_false]
  simp only [assertString_fst, assertInt_setting]
  rfl

theorem malCreate_missing_clientId (p : MALPlugin) (config : GoMap ConfigValue)
    (h : MissingKey config "clientId") :
    p.Create config = .error "clientId is required" := by
  have ht := (required_test config "clientId").mpr h
  simp only [MALPlugin.Create, ht, if_true]

theorem malCreate_missing_accessToken (p : MALPlugin) (config : GoMap ConfigValue)
    (h1 : ¬ MissingKey config "clientId") (h2 : MissingKey config "accessToken") :
    p.Create config = .error "accessToken is required" := by
  have ht1 := required_test_false config "clientId" h1
  have ht2 := (required_test config "accessToken").mpr h2
  simp only [MALPlugin.Create, ht1, ht2, if_true, Bool.false_eq_true, if_false]

theorem malCreate_ok (p : MALPlugin) (config : GoMap ConfigValue)
    (h1 : ¬ MissingKey config "clientId") (h2 : ¬ MissingKey config "accessToken") :
    p.Create config = .ok
      { clientID := stringSetting config "clientId",
        accessToken := stringSetting config "accessToken",
        refreshToken := stringSetting config "refreshToken",
        weeksBack := intSetting config "weeksBack" 1,
        weeksForward := intSetting config "weeksForward" 2,
        client := { Timeout := 30000000000 } } := by
  have ht1 := required_test_false config "clientId" h1
  have ht2 := required_test_false config "accessToken" h2
  simp only [MALPlugin.Create, ht1, ht2, Bool.false_eq_true, if_false]
  simp only [assertString_setting]
  simp only [assertString_fst, assertInt_setting]
  rfl

theorem anilistCreate_missing_accessToken (p : AniListPlugin) (config : GoMap ConfigValue)
    (h : MissingKey config "accessToken") :
    p.Create config = .error "accessToken is required" := by
  have ht := (required_test config "accessToken").mpr h
  simp only [AniListPlugin.Create, ht, if_true]

theorem anilistCreate_ok (p : AniListPlugin) (config : GoMap ConfigValue)
    (h : ¬ MissingKey config "accessToken") :
    p.Create config = .ok
      { accessToken := stringSetting config "accessToken",
        daysBack := intSetting config "daysBack" 7,
        daysForward := intSetting config "daysForward" 14,
        client := { Timeout := 30000000000 } } := by
  have ht := required_test_false config "accessToken" h
  simp only [AniListPlugin.Create, ht, Bool.false_eq_true, if_false]
  simp only [assertString_fst, assertInt_setting]
  rfl

/-- C24: for the trakt, mal and anilist plugins and every configuration map,
`Create` returns an error, and so no instance, exactly when a required key
(clientId or accessToken for trakt and mal, accessToken for anilist) is absent,
is not a string or is the empty string.  Otherwise it returns the instance that
holds the strings given under the required keys and, for the optional
settings, the integer given or else the default: 7 and 14 days for trakt and
anilist, 1 and 2 weeks for mal. -/
theorem create_fails_iff_required_key_missing (config : GoMap ConfigValue) :
    (∀ p : TraktPlugin,
      ((∃ err, p.Create config = .error err) ↔
        (MissingKey config "clientId" ∨ MissingKey config "accessToken")) ∧
      (¬ MissingKey config "clientId" → ¬ MissingKey config "accessToken" →
        p.Create config = .ok
          { clientID := stringSetting config "clientId",
            accessToken := stringSetting config "accessToken",
            daysBack := intSetting config "daysBack" 7,
            daysForward := intSetting config "daysForward" 14,
            client := { Timeout := 30000000000 } })) ∧
    (∀ p : MALPlugin,
      ((∃ err, p.Create config = .error err) ↔
        (MissingKey config "clientId" ∨ MissingKey config "accessToken")) ∧
      (¬ MissingKey config "clientId" → ¬ MissingKey config "accessToken" →
        p.Create config = .ok
          { clientID := stringSetting config "clientId",
            accessToken := stringSetting config "accessToken",
            refreshToken := stringSetting config "refreshToken",
            weeksBack := intSetting config "weeksBack" 1,
            weeksForward := intSetting config "weeksForward" 2,
            client := { Timeout := 30000000000 } })) ∧
    (∀ p : AniListPlugin,
      ((∃ err, p.Create config = .error err) ↔ MissingKey config "accessToken") ∧
      (¬ MissingKey config "accessToken" →
        p.Create config = .ok
          { accessToken := stringSetting config "accessToken",
            daysBack := intSetting config "daysBack" 7,
            daysForward := intSetting config "daysForward" 14,
            client := { Timeout := 30000000000 } })) := by
  refine ⟨fun p => ⟨?_, traktCreate_ok p config⟩, fun p => ⟨?_, malCreate_ok p config⟩,
    fun p => ⟨?_, anilistCreate_ok p config⟩⟩
  · constructor
    · rintro ⟨err, herr⟩
      by_contra hno
      rw [not_or] at hno
      rw [traktCreate_ok p config hno.1 hno.2] at herr
      cases herr
    · intro h
      by_cases h1 : MissingKey config "clientId"
      · exact ⟨_, traktCreate_missing_clientId p config h1⟩
      · exact ⟨_, traktCreate_missing_accessToken p config h1 (h.resolve_left h1)⟩
  · constructor
    · rintro ⟨err, herr⟩
      by_contra hno
      rw [not_or] at hno
      rw [malCreate_ok p config hno.1 hno.2] at herr
      cases herr
    · intro h
      by_cases h1 : MissingKey config "clientId"
      · exact ⟨_, malCreate_missing_clientId p config h1⟩
      · exact ⟨_, malCreate_missing_accessToken p config h1 (h.resolve_left h1)⟩
  · constructor
    · rintro ⟨err, herr⟩
      by_contra hno
      rw [anilistCreate_ok p config hno] at herr
      cases herr
    · intro h
      exact ⟨_, anilistCreate_missing_accessToken p config h⟩

/-! ### The weekly schedule -/

theorem weeklyLoop_step (z : Zones) (body : Time → Event) (endDate : Time) (fuel : Nat)
    (current : Time) (events : List Event)
    (h : (current.Before endDate || current.Equal endDate) = true) :
    weeklyLoop z body endDate (fuel + 1) current events =
      weeklyLoop z body endDate fuel (current.AddDate z 7) (events ++ [body current]) := by
  simp only [weeklyLoop, h, if_true]

theorem weeklyLoop_stop (z : Zones) (body : Time → Event) (endDate : Time) (fuel : Nat)
    (current : Time) (events : List Event)
    (h : (current.Before endDate || current.Equal endDate) = false) :
    weeklyLoop z body endDate (fuel + 1) current events = events := by
  simp [weeklyLoop, h]

theorem plusDays_plusDays (t : Time) (a b : Int) :
    (t.plusDays a).plusDays b = t.plusDays (a + b) := by
  simp only [Time.plusDays, Time.mk.injEq, and_true]
  ring

theorem plusDays_zero (t : Time) : t.plusDays 0 = t := by
  cases t
  simp [Time.plusDays]

theorem plusDays_eq_iff (t : Time) (a b : Int) : t.plusDays a = t.plusDays b ↔ a = b := by
  simp only [Time.plusDays, Time.mk.injEq, and_true, nsecPerDay]
  constructor
  · intro h
    omega
  · intro h
    rw [h]

theorem Weekday_range (z : Zones) (t : Time) : 0 ≤ t.Weekday z ∧ t.Weekday z ≤ 6 := by
  unfold Time.Weekday
  omega

/-- In a location with one offset, `AddDate` moves the instant by days of 24
hours. -/
theorem AddDate_fixed (z : Zones) (t : Time) (o : Int) (hfix : ∀ u, (z t.loc u).offset = o)
    (d : Int) : t.AddDate z d = t.plusDays d := by
  simp only [Time.AddDate, Date, Time.abs, Time.sec, Time.unixSec, Time.plusDays, hfix,
    secondsPerDay, nsecPerSec, nsecPerDay, unixToInternal, ite_self, Time.mk.injEq, and_true]
  split_ifs <;> omega

theorem Weekday_fixed (z : Zones) (t : Time) (o : Int) (hfix : ∀ u, (z t.loc u).offset = o) :
    t.Weekday z = ((t.nsec / 1000000000 + o) / 86400 + 1) % 7 := by
  simp only [Time.Weekday, Time.abs, Time.sec, hfix, secondsPerDay, nsecPerSec]

theorem Weekday_plusDays (z : Zones) (t : Time) (o : Int) (hfix : ∀ u, (z t.loc u).offset = o)
    (d : Int) : (t.plusDays d).Weekday z = (t.Weekday z + d) % 7 := by
  have h1 := Weekday_fixed z (t.plusDays d) o hfix
  have h2 := Weekday_fixed z t o hfix
  rw [h1, h2]
  simp only [Time.plusDays, nsecPerDay]
  omega

/-- The number of days that `nextWeekday` adds: the one number between 0 and 6
that leads from the weekday of `frm` to `weekday`. -/
theorem nextWeekday_eq (z : Zones) (frm : Time) (w : Int) (hw0 : 0 ≤ w) (hw6 : w ≤ 6) :
    nextWeekday z frm w = frm.AddDate z ((w - frm.Weekday z) % 7) := by
  have hr := Weekday_range z frm
  unfold nextWeekday
  simp only []
  congr 1
  split_ifs <;> omega

theorem loop_test_iff (current endDate : Time) :
    (current.Before endDate || current.Equal endDate) = true ↔ current.nsec ≤ endDate.nsec := by
  simp only [Time.Before, Time.Equal, Bool.or_eq_true, decide_eq_true_eq]
  omega

theorem weeklyRounds_of_after (current endDate : Time) (h : endDate.nsec < current.nsec) :
    weeklyRounds current endDate = 0 := by
  simp only [weeklyRounds, nsecPerDay]
  omega

theorem weeklyRounds_of_not_after (current endDate : Time) (h : current.nsec ≤ endDate.nsec) :
    weeklyRounds current endDate = weeklyRounds (current.plusDays 7) endDate + 1 := by
  simp only [weeklyRounds, Time.plusDays, nsecPerDay]
  omega

/-- In a location with one offset the loop stops by its own test within
`weeklyRounds` rounds, and appends the event of `current`, of `current` a week
later, and so on. -/
theorem weeklyLoop_eq (z : Zones) (o : Int) (body : Time → Event) (endDate : Time) :
    ∀ (n fuel : Nat) (current : Time) (events : List Event),
      (∀ u, (z current.loc u).offset = o) →
      weeklyRounds current endDate = n → n ≤ fuel →
      weeklyLoop z body endDate fuel current events =
        events ++ (List.range n).map (fun (i : Nat) => body (current.plusDays (7 * (i : Int))))
  | 0, fuel, current, events, _, hn, _ => by
    have hafter : ¬ current.nsec ≤ endDate.nsec := by
      intro hle
      rw [weeklyRounds_of_not_after current endDate hle] at hn
      omega
    cases fuel with
    | zero => simp [weeklyLoop]
    | succ f =>
      have htest : ¬ (current.Before endDate || current.Equal endDate) = true :=
        fun ht => hafter ((loop_test_iff current endDate).mp ht)
      simp [weeklyLoop, htest]
  | n + 1, fuel, current, events, hfix, hn, hfuel => by
    have hle : current.nsec ≤ endDate.nsec := by
      by_contra hgt
      rw [weeklyRounds_of_after current endDate (by omega)] at hn
      omega
    have hnext : weeklyRounds (current.plusDays 7) endDate = n := by
      rw [weeklyRounds_of_not_after current endDate hle] at hn
      omega
    cases fuel with
    | zero => omega
    | succ f =>
      have htest := (loop_test_iff current endDate).mpr hle
      have ih := weeklyLoop_eq z o body endDate n f (current.plusDays 7)
        (events ++ [body current]) hfix hnext (by omega)
      have hshift : (fun i : Nat => body ((current.plusDays 7).plusDays (7 * (i : Int))))
          = (fun i : Nat => body (current.plusDays (7 * ((i + 1 : Nat) : Int)))) := by
        funext i
        rw [plusDays_plusDays]
        congr 2
        push_cast
        ring
      rw [weeklyLoop_step z body endDate f current events htest, AddDate_fixed z current o hfix,
        ih, hshift, List.range_succ_eq_map, List.map_cons, List.map_map, List.append_assoc]
      simp only [List.singleton_append, Nat.cast_zero, mul_zero, plusDays_zero]
      rfl

/-- In a location with one offset, the occurrences of the weekday from `frm`
on, up to `endDate`, are the dates that the loop visits. -/
theorem occurrence_iff_visited (z : Zones) (o : Int) (frm endDate : Time) (w : Int)
    (hfix : ∀ u, (z frm.loc u).offset = o)
    (hw0 : 0 ≤ w) (hw6 : w ≤ 6) (k : Int) (hk : 0 ≤ k) :
    ((frm.plusDays k).Weekday z = w ∧ endDate.Before (frm.plusDays k) = false) ↔
      ∃ i : Nat, i < weeklyRounds (frm.plusDays ((w - frm.Weekday z) % 7)) endDate ∧
        frm.plusDays k = (frm.plusDays ((w - frm.Weekday z) % 7)).plusDays (7 * (i : Int)) := by
  have hr := Weekday_range z frm
  have hbefore : endDate.Before (frm.plusDays k) = false ↔
      frm.nsec + k * 86400000000000 ≤ endDate.nsec := by
    simp only [Time.Before, Time.plusDays, nsecPerDay, decide_eq_false_iff_not, not_lt]
  rw [Weekday_plusDays z frm o hfix, hbefore]
  simp only [plusDays_plusDays, plusDays_eq_iff]
  simp only [weeklyRounds, Time.plusDays, nsecPerDay]
  clear hbefore
  generalize frm.Weekday z = wd at hr
  have hd0 : 0 ≤ (w - wd) % 7 ∧ (w - wd) % 7 ≤ 6 := by omega
  have hd0w : (wd + (w - wd) % 7) % 7 = w := by omega
  generalize (w - wd) % 7 = d0 at hd0 hd0w
  generalize frm.nsec = f
  generalize endDate.nsec = e
  have hpos : (0 : Int) < 7 * 86400000000000 := by norm_num
  constructor
  · rintro ⟨hwk, hle⟩
    have hmod : (k - d0) % 7 = 0 := by omega
    have hge : 0 ≤ k - d0 := by omega
    obtain ⟨q, hq⟩ : ∃ q : Int, k - d0 = 7 * q := ⟨(k - d0) / 7, by omega⟩
    have hq0 : 0 ≤ q := by omega
    have hqF : q ≤ (e - (f + d0 * 86400000000000)) / (7 * 86400000000000) := by
      rw [Int.le_ediv_iff_mul_le hpos]
      omega
    refine ⟨q.toNat, ?_, ?_⟩
    · omega
    · omega
  · rintro ⟨i, hi, hki⟩
    have hiF : (i : Int) ≤ (e - (f + d0 * 86400000000000)) / (7 * 86400000000000) := by
      omega
    rw [Int.le_ediv_iff_mul_le hpos] at hiF
    constructor
    · omega
    · omega

/-- What C25 says holds where the clocks do not change: in a location with one
offset from UTC, for a weekday `w` from Sunday, 0, to Saturday, 6,
`nextWeekday frm w` is `frm` moved forward by the one number of days between 0
and 6 that makes it fall on `w`, by none when `frm` falls on `w`.  The weekly
loop that starts there stops by its own test, after `weeklyRounds` rounds; it
builds one event for each date from `frm` on that falls on `w` and is not
after the end date, week by week, and for no other date, each once.
`generateEventsForAnime` returns these events for the range it takes around
`now`. -/
theorem weekly_schedule_without_clock_change (z : Zones) (o : Int) (frm : Time) (w : Int)
    (hfix : ∀ u, (z frm.loc u).offset = o) (hw0 : 0 ≤ w) (hw6 : w ≤ 6) :
    (∃ d : Int, 0 ≤ d ∧ d ≤ 6 ∧ nextWeekday z frm w = frm.AddDate z d ∧
      (nextWeekday z frm w).Weekday z = w ∧
      ∀ d' : Int, 0 ≤ d' → d' ≤ 6 → (frm.AddDate z d').Weekday z = w → d' = d) ∧
    (frm.Weekday z = w → nextWeekday z frm w = frm) ∧
    (∀ (endDate : Time) (body : Time → Event) (fuel : Nat),
      weeklyRounds (nextWeekday z frm w) endDate ≤ fuel →
      weeklyLoop z body endDate fuel (nextWeekday z frm w) [] =
        (List.range (weeklyRounds (nextWeekday z frm w) endDate)).map
          (fun (i : Nat) => body ((nextWeekday z frm w).AddDate z (7 * (i : Int))))) ∧
    (∀ (endDate : Time) (k : Int), 0 ≤ k →
      (((frm.AddDate z k).Weekday z = w ∧ endDate.Before (frm.AddDate z k) = false) ↔
        ∃ i : Nat, i < weeklyRounds (nextWeekday z frm w) endDate ∧
          frm.AddDate z k = (nextWeekday z frm w).AddDate z (7 * (i : Int)))) ∧
    (∀ i j : Nat,
      (nextWeekday z frm w).AddDate z (7 * (i : Int))
        = (nextWeekday z frm w).AddDate z (7 * (j : Int)) → i = j) ∧
    (∀ (p : MALPlugin) (now : Time) (body : Time → Event) (fuel : Nat),
      frm = now.AddDate z (wrapInt64 (-7 * p.weeksBack)) →
      weeklyRounds (nextWeekday z frm w)
        (now.AddDate z (wrapInt64 (7 * p.weeksForward))) ≤ fuel →
      generateEventsForAnime z p now w body fuel =
        (List.range (weeklyRounds (nextWeekday z frm w)
            (now.AddDate z (wrapInt64 (7 * p.weeksForward))))).map
          (fun (i : Nat) => body ((nextWeekday z frm w).AddDate z (7 * (i : Int))))) := by
  have hr := Weekday_range z frm
  have hadd : ∀ (k d : Int), (frm.plusDays k).AddDate z d = (frm.plusDays k).plusDays d :=
    fun k d => AddDate_fixed z (frm.plusDays k) o hfix d
  have hnext : nextWeekday z frm w = frm.plusDays ((w - frm.Weekday z) % 7) := by
    rw [nextWeekday_eq z frm w hw0 hw6, AddDate_fixed z frm o hfix]
  refine ⟨?_, ?_, ?_, ?_, ?_, ?_⟩
  · refine ⟨(w - frm.Weekday z) % 7, by omega, by omega, nextWeekday_eq z frm w hw0 hw6, ?_, ?_⟩
    · rw [hnext, Weekday_plusDays z frm o hfix]
      omega
    · intro d' h0 h6 hd'
      rw [AddDate_fixed z frm o hfix, Weekday_plusDays z frm o hfix] at hd'
      omega
  · intro hw
    rw [hnext, hw, sub_self]
    exact plusDays_zero frm
  · intro endDate body fuel hfuel
    have h := weeklyLoop_eq z o body endDate _ fuel (nextWeekday z frm w) []
      (by rw [hnext]; exact hfix) rfl hfuel
    rw [h, List.nil_append]
    simp only [hnext, hadd]
  · intro endDate k hk
    simp only [hnext, hadd, AddDate_fixed z frm o hfix]
    exact occurrence_iff_visited z o frm endDate w hfix hw0 hw6 k hk
  · intro i j h
    simp only [hnext, hadd] at h
    have := (plusDays_eq_iff _ _ _).mp h
    omega
  · intro p now body fuel hfrm hfuel
    have hne : ¬ w = -1 := by omega
    simp only [generateEventsForAnime, hne, if_false, ← hfrm]
    have h := weeklyLoop_eq z o body (now.AddDate z (wrapInt64 (7 * p.weeksForward))) _ fuel
      (nextWeekday z frm w) [] (by rw [hnext]; exact hfix) rfl hfuel
    rw [h, List.nil_append]
    simp only [hnext, hadd]

/-- At UTC, from the zero time, a Monday, the next Wednesday is two days
later, and the weekly loop up to day 16 makes three rounds, all on Wednesdays. -/
theorem weekly_schedule_at_utc :
    (∀ u, (zonesUTC mondayYearOne.loc u).offset = 0) ∧
    nextWeekday zonesUTC mondayYearOne 3 = mondayYearOne.AddDate zonesUTC 2 ∧
    (nextWeekday zonesUTC mondayYearOne 3).Weekday zonesUTC = 3 ∧
    weeklyLoop zonesUTC (occurrenceEvent zonesUTC) (mondayYearOne.AddDate zonesUTC 16) 5
        (nextWeekday zonesUTC mondayYearOne 3) []
      = [testEvent "2/3", testEvent "9/3", testEvent "16/3"] :=
  ⟨fun _ => rfl, by decide, by decide, by decide⟩

/-- In any location, when the time that `nextWeekday` returns shows the clock
of `frm` moved by the days added, it falls on the weekday asked for. -/
theorem nextWeekday_weekday_of_clock_kept (z : Zones) (frm : Time) (w : Int)
    (hw0 : 0 ≤ w) (hw6 : w ≤ 6)
    (hkept : (nextWeekday z frm w).abs z
      = frm.abs z + (w - frm.Weekday z) % 7 * secondsPerDay) :
    (nextWeekday z frm w).Weekday z = w := by
  have hr := Weekday_range z frm
  have hwd : frm.Weekday z = (frm.abs z / secondsPerDay + 1) % 7 := rfl
  unfold Time.Weekday
  rw [hkept]
  rw [hwd] at hr ⊢
  simp only [secondsPerDay] at hr ⊢
  omega

/-- In New York, from Saturday, March 9, 2024, 12:00, the next Monday is
March 11, 12:00: two days later by the calendar, and 47 hours later, the
clocks having gone forward in between. -/
theorem nextWeekday_newYork :
    saturdayNewYork.Weekday zonesNewYork = 6 ∧
    nextWeekday zonesNewYork saturdayNewYork 1 = saturdayNewYork.AddDate zonesNewYork 2 ∧
    (nextWeekday zonesNewYork saturdayNewYork 1).nsec
      = saturdayNewYork.nsec + 47 * 3600 * nsecPerSec ∧
    (nextWeekday zonesNewYork saturdayNewYork 1).Weekday zonesNewYork = 1 ∧
    (nextWeekday zonesNewYork saturdayNewYork 1).abs zonesNewYork
      = saturdayNewYork.abs zonesNewYork + 2 * secondsPerDay := by
  decide

/-- C25, where the claim and the code part: in Havana the clocks go from 00:00
to 01:00 on Sunday, March 10, 2024.  From Friday, March 8, 00:30, which is the
start of the range of `generateEventsForAnime` called on March 15 at 00:30 with
one week back, `nextWeekday` for Sunday adds two days, and `AddDate` returns
March 9, 23:30: one day after `frm` by the calendar, a Saturday and not a
Sunday.  The weekly loop, run to its end, visits March 9, 16 and 23, all
Saturdays, and none of the Sundays of the range, of which March 10 is one. -/
theorem nextWeekday_lands_on_saturday_for_sunday :
    nowHavana.AddDate zonesHavana (wrapInt64 (-7 * malDefault.weeksBack)) = fridayHavana ∧
    fridayHavana.Weekday zonesHavana = 5 ∧
    nextWeekday zonesHavana fridayHavana 0 = fridayHavana.AddDate zonesHavana 2 ∧
    nextWeekday zonesHavana fridayHavana 0
      = { nsec := 63845641800 * 1000000000, loc := "Local" } ∧
    (nextWeekday zonesHavana fridayHavana 0).Weekday zonesHavana = 6 ∧
    (nextWeekday zonesHavana fridayHavana 0).abs zonesHavana / secondsPerDay
      = fridayHavana.abs zonesHavana / secondsPerDay + 1 ∧
    (∀ extra : Nat,
      generateEventsForAnime zonesHavana malDefault nowHavana 0 (occurrenceEvent zonesHavana)
          (extra + 4)
        = [testEvent "738953/6", testEvent "738960/6", testEvent "738967/6"]) ∧
    (sundayHavana.Weekday zonesHavana = 0 ∧
      fridayHavana.Before sundayHavana = true ∧
      sundayHavana.Before
        (nowHavana.AddDate zonesHavana (wrapInt64 (7 * malDefault.weeksForward))) = true) := by
  have hstart : nowHavana.AddDate zonesHavana (wrapInt64 (-7 * malDefault.weeksBack))
      = fridayHavana := by decide
  have hc0 : nextWeekday zonesHavana fridayHavana 0
      = { nsec := 63845641800 * 1000000000, loc := "Local" } := by decide
  refine ⟨hstart, by decide, by decide, hc0, by decide, by decide, ?_, by decide⟩
  intro extra
  have hgen : generateEventsForAnime zonesHavana malDefault nowHavana 0
      (occurrenceEvent zonesHavana) (extra + 4) =
      weeklyLoop zonesHavana (occurrenceEvent zonesHavana)
        (nowHavana.AddDate zonesHavana (wrapInt64 (7 * malDefault.weeksForward))) (extra + 4)
        (nextWeekday zonesHavana
          (nowHavana.AddDate zonesHavana (wrapInt64 (-7 * malDefault.weeksBack))) 0) [] := by
    unfold generateEventsForAnime
    exact if_neg (by decide)
  rw [hgen, hstart,
    weeklyLoop_step _ _ _ (extra + 3) _ _ (by decide),
    weeklyLoop_step _ _ _ (extra + 2) _ _ (by decide),
    weeklyLoop_step _ _ _ (extra + 1) _ _ (by decide),
    weeklyLoop_stop _ _ _ extra _ _ (by decide)]
  decide

end Modcal
